import Mathlib

/-!
# Supply-chain verification: ledger contracts, provenance store, controller

A shallow embedding of the JavaScript sources

* `blockchain/chaincode/verification/index.js`
* `blockchain/chaincode/product-tracking/index.js`
* `blockchain/chaincode/ethical-sourcing/index.js`
* `backend/src/api/services/product.service.js`
* `backend/src/api/services/blockchain.service.js`
* `backend/src/api/controllers/product.controller.js`
* `backend/src/api/middlewares/auth.middleware.js`
* `backend/src/api/routes/product.routes.js`

Conventions of the embedding.

* A value read out of the ledger is a `Json` value (what `JSON.parse` yields);
  `undefined` is `none` in `Option Json`.
* JavaScript numbers are exact rationals, extended by `NaN` and the two
  infinities (`JSNum`).  Rounding of IEEE doubles and the sign of zero are not
  represented.
* Library behaviour that the sources only call (string to number conversion,
  number formatting, `Date` parsing and printing, string ordering) is a field of
  `JSRuntime`; every general theorem holds for every runtime.
* The clock (`new Date()`) is an explicit argument `now`, in milliseconds.
* Properties inherited from `Object.prototype` are not represented: reading a
  key an object does not own yields `undefined`.
-/

namespace SupplyChain

/-! ## JavaScript values -/

/-- A value produced by `JSON.parse`. -/
inductive Json where
  | null : Json
  | bool (b : Bool) : Json
  | num (q : ℚ) : Json
  | str (s : String) : Json
  | arr (xs : List Json) : Json
  | obj (fields : List (String × Json)) : Json

/-- The fields of a JSON object, in insertion order. -/
abbrev JObject := List (String × Json)

/-- A JavaScript number: a finite value, an infinity, or `NaN`. -/
inductive JSNum where
  | nan : JSNum
  | negInf : JSNum
  | fin (q : ℚ) : JSNum
  | posInf : JSNum
  deriving DecidableEq

/-- A primitive value, the result of `ToPrimitive`. -/
inductive Prim where
  | undefined : Prim
  | null : Prim
  | bool (b : Bool) : Prim
  | num (n : JSNum) : Prim
  | str (s : String) : Prim

/-- Library operations of the JavaScript runtime that the sources call. -/
structure JSRuntime where
  /-- Conversion `Number(s)` of a string `s`. -/
  stringToNumber : String → JSNum
  /-- Conversion `String(n)` of a number `n`. -/
  numberToString : JSNum → String
  /-- Conversion `String(v)` of an array or an object `v`. -/
  objectToString : Json → String
  /-- The order `<` on strings (by UTF-16 code unit). -/
  stringLt : String → String → Bool
  /-- Result of `Date.parse(s)`: the time value in milliseconds, `none` for an invalid date. -/
  dateParse : String → Option ℤ
  /-- Result of `new Date(t).toISOString()` for a valid time value `t`. -/
  toISOString : ℤ → String
  /-- Result of `n.toFixed(2)`. -/
  toFixed2 : JSNum → String

namespace JSNum

/-- The comparison `x < y` of numbers; `none` is the result `undefined`, given
when an operand is `NaN`. -/
def lt? : JSNum → JSNum → Option Bool
  | nan, _ => none
  | _, nan => none
  | negInf, negInf => some false
  | negInf, _ => some true
  | fin _, negInf => some false
  | fin a, fin b => some (decide (a < b))
  | fin _, posInf => some true
  | posInf, _ => some false

/-- Numeric equality; `NaN` equals nothing. -/
def eq : JSNum → JSNum → Bool
  | negInf, negInf => true
  | fin a, fin b => decide (a = b)
  | posInf, posInf => true
  | _, _ => false

/-- Addition of numbers. -/
def add : JSNum → JSNum → JSNum
  | nan, _ => nan
  | _, nan => nan
  | fin a, fin b => fin (a + b)
  | posInf, negInf => nan
  | negInf, posInf => nan
  | posInf, _ => posInf
  | _, posInf => posInf
  | negInf, _ => negInf
  | _, negInf => negInf

/-- Subtraction of numbers. -/
def sub : JSNum → JSNum → JSNum
  | nan, _ => nan
  | _, nan => nan
  | fin a, fin b => fin (a - b)
  | posInf, posInf => nan
  | negInf, negInf => nan
  | posInf, _ => posInf
  | _, negInf => posInf
  | negInf, _ => negInf
  | _, posInf => negInf

/-- Division of numbers (zero carries no sign). -/
def div : JSNum → JSNum → JSNum
  | nan, _ => nan
  | _, nan => nan
  | fin a, fin b =>
    if b = 0 then (if a = 0 then nan else if 0 < a then posInf else negInf)
    else fin (a / b)
  | fin _, _ => fin 0
  | posInf, fin b => if 0 ≤ b then posInf else negInf
  | negInf, fin b => if 0 ≤ b then negInf else posInf
  | _, _ => nan

end JSNum

/-- Truthiness of a value (`ToBoolean`). -/
def truthy : Option Json → Bool
  | none => false
  | some .null => false
  | some (.bool b) => b
  | some (.num q) => decide (q ≠ 0)
  | some (.str s) => decide (s ≠ "")
  | some (.arr _) => true
  | some (.obj _) => true

/-- Whether a value is an array or an object. -/
def isObject : Option Json → Bool
  | some (.arr _) => true
  | some (.obj _) => true
  | _ => false

/-- The abstract operation `ToPrimitive`: arrays and objects become strings. -/
def toPrimitive (rt : JSRuntime) : Option Json → Prim
  | none => .undefined
  | some .null => .null
  | some (.bool b) => .bool b
  | some (.num q) => .num (.fin q)
  | some (.str s) => .str s
  | some (.arr xs) => .str (rt.objectToString (.arr xs))
  | some (.obj fs) => .str (rt.objectToString (.obj fs))

/-- The abstract operation `ToNumber` on a primitive. -/
def Prim.toNumber (rt : JSRuntime) : Prim → JSNum
  | .undefined => .nan
  | .null => .fin 0
  | .bool true => .fin 1
  | .bool false => .fin 0
  | .num n => n
  | .str s => rt.stringToNumber s

/-- The abstract operation `ToString` on a primitive. -/
def Prim.toStr (rt : JSRuntime) : Prim → String
  | .undefined => "undefined"
  | .null => "null"
  | .bool true => "true"
  | .bool false => "false"
  | .num n => rt.numberToString n
  | .str s => s

/-- Conversion `String(v)`, as performed by a template literal and by a property key. -/
def jsToString (rt : JSRuntime) (v : Option Json) : String :=
  (toPrimitive rt v).toStr rt

/-- The relational comparison `x < y` on primitives: two strings are compared
as strings, anything else as numbers. -/
def Prim.lt? (rt : JSRuntime) : Prim → Prim → Option Bool
  | .str a, .str b => some (rt.stringLt a b)
  | a, b => JSNum.lt? (a.toNumber rt) (b.toNumber rt)

/-- The expression `a < b`. -/
def jsLt (rt : JSRuntime) (a b : Option Json) : Bool :=
  Prim.lt? rt (toPrimitive rt a) (toPrimitive rt b) == some true

/-- The expression `a > b`, evaluated as `b < a`. -/
def jsGt (rt : JSRuntime) (a b : Option Json) : Bool :=
  Prim.lt? rt (toPrimitive rt b) (toPrimitive rt a) == some true

/-- The expression `a <= b`: true when `b < a` is false (not when it is
undefined). -/
def jsLe (rt : JSRuntime) (a b : Option Json) : Bool :=
  Prim.lt? rt (toPrimitive rt b) (toPrimitive rt a) == some false

/-- The expression `a >= b`: true when `a < b` is false. -/
def jsGe (rt : JSRuntime) (a b : Option Json) : Bool :=
  Prim.lt? rt (toPrimitive rt a) (toPrimitive rt b) == some false

/-- Loose equality on primitives. -/
def Prim.looseEq (rt : JSRuntime) : Prim → Prim → Bool
  | .undefined, .undefined => true
  | .undefined, .null => true
  | .null, .undefined => true
  | .null, .null => true
  | .undefined, _ => false
  | _, .undefined => false
  | .null, _ => false
  | _, .null => false
  | .str a, .str b => decide (a = b)
  | a, b => JSNum.eq (a.toNumber rt) (b.toNumber rt)

/-- The expression `a == b` for two values obtained from two separate
`JSON.parse` calls: two objects are then never the same reference. -/
def jsLooseEq (rt : JSRuntime) (a b : Option Json) : Bool :=
  if isObject a && isObject b then false
  else Prim.looseEq rt (toPrimitive rt a) (toPrimitive rt b)

/-- The expression `x <= b` for a computed number `x`. -/
def numLe (rt : JSRuntime) (x : JSNum) (b : Option Json) : Bool :=
  Prim.lt? rt (toPrimitive rt b) (.num x) == some false

/-! ## Objects -/

/-- Read `o[k]`; `none` is `undefined`. -/
def getField (o : JObject) (k : String) : Option Json :=
  match o with
  | [] => none
  | (k', v) :: rest => if k' = k then some v else getField rest k

/-- Assign `o[k] = v`: an existing key keeps its place, a new key goes last. -/
def setField (o : JObject) (k : String) (v : Json) : JObject :=
  match o with
  | [] => [(k, v)]
  | (k', v') :: rest => if k' = k then (k, v) :: rest else (k', v') :: setField rest k v

/-- Read `v.k` for an arbitrary value `v`: a `TypeError` on `null` and
`undefined`, `undefined` on a value that has no such key.  The keys the sources
read are none of the built-in properties of strings and arrays. -/
def getProp (v : Option Json) (k : String) : Except String (Option Json) :=
  match v with
  | none => .error "TypeError: Cannot read properties of undefined"
  | some .null => .error "TypeError: Cannot read properties of null"
  | some (.obj o) => .ok (getField o k)
  | some _ => .ok none

/-! ## Verification contract: rule evaluation
`blockchain/chaincode/verification/index.js` -/

/-- The object `{ status, details }` a rule evaluates to. -/
structure RuleResult where
  status : String
  details : String
  deriving DecidableEq, Repr

/-- Source function `applyThresholdRule(product, parameters)`. -/
def applyThresholdRule (rt : JSRuntime) (product : JObject) (parameters : Option Json) :
    Except String RuleResult :=
  -- const { attribute, threshold, operator } = parameters;
  match getProp parameters "attribute", getProp parameters "threshold",
      getProp parameters "operator" with
  | .ok attr, .ok threshold, .ok operator =>
    -- const value = product[attribute];
    let value := getField product (jsToString rt attr)
    let details := jsToString rt attr ++ " " ++ jsToString rt operator ++ " "
      ++ jsToString rt threshold
    match operator with
    | some (.str ">") =>
      .ok { status := if jsGt rt value threshold then "Verified" else "Failed", details }
    | some (.str "<") =>
      .ok { status := if jsLt rt value threshold then "Verified" else "Failed", details }
    | some (.str ">=") =>
      .ok { status := if jsGe rt value threshold then "Verified" else "Failed", details }
    | some (.str "<=") =>
      .ok { status := if jsLe rt value threshold then "Verified" else "Failed", details }
    | some (.str "==") =>
      .ok { status := if jsLooseEq rt value threshold then "Verified" else "Failed", details }
    | _ => .error ("Unsupported operator: " ++ jsToString rt operator)
  | _, _, _ => .error "TypeError: Cannot destructure parameters"

/-- The time value of `new Date(v)`; `none` is an invalid date. -/
def newDate (rt : JSRuntime) : Option Json → Option ℤ
  | none => none
  | some .null => some 0
  | some (.bool true) => some 1
  | some (.bool false) => some 0
  | some (.num q) =>
    if |q| ≤ 8640000000000000 then some (if 0 ≤ q then ⌊q⌋ else ⌈q⌉) else none
  | some (.str s) => rt.dateParse s
  | some (.arr xs) => rt.dateParse (rt.objectToString (.arr xs))
  | some (.obj fs) => rt.dateParse (rt.objectToString (.obj fs))

/-- The number a `Date` converts to: its time value, `NaN` when invalid. -/
def dateToNumber : Option ℤ → JSNum
  | none => .nan
  | some t => .fin t

/-- Milliseconds in a day, `1000 * 60 * 60 * 24`. -/
def msPerDay : ℚ := 1000 * 60 * 60 * 24

/-- Source function `applyTimeWindowRule(product, parameters)`, evaluated at
clock reading `now`. -/
def applyTimeWindowRule (rt : JSRuntime) (now : ℤ) (product : JObject)
    (parameters : Option Json) : Except String RuleResult :=
  -- const { attribute, maxAge } = parameters;
  match getProp parameters "attribute", getProp parameters "maxAge" with
  | .ok attr, .ok maxAge =>
    let attributeDate := newDate rt (getField product (jsToString rt attr))
    let ageInMilliseconds := JSNum.sub (.fin now) (dateToNumber attributeDate)
    let ageInDays := JSNum.div ageInMilliseconds (.fin msPerDay)
    .ok { status := if numLe rt ageInDays maxAge then "Verified" else "Failed",
          details := jsToString rt attr ++ " age: " ++ rt.toFixed2 ageInDays
            ++ " days, Max allowed: " ++ jsToString rt maxAge ++ " days" }
  | _, _ => .error "TypeError: Cannot destructure parameters"

/-! ## Ledger state

All three contracts are installed under one chaincode name and share one world
state.  Every value a contract writes is `JSON.stringify` of an object, so the
world state maps a key to an object.  Within a transaction `getState` reads the
committed state and `putState` adds to the write set, which is applied when the
transaction returns without throwing. -/

/-- The committed world state: the object stored under each key. -/
abbrev WorldState := String → Option JObject

/-- The transaction context `ctx.stub`: the committed state it reads and the
writes issued so far. -/
structure Stub where
  world : WorldState
  writes : List (String × JObject)

/-- What a contract function leaves behind: the stub with the writes it issued,
and the value it returned (`none` for no return value) or the error it threw. -/
abbrev Tx := Stub × Except String (Option Json)

/-- Call `ctx.stub.getState(key)`; `none` stands for empty bytes. -/
def Stub.getState (stub : Stub) (key : String) : Option JObject :=
  stub.world key

/-- Call `ctx.stub.putState(key, Buffer.from(JSON.stringify(value)))`. -/
def Stub.putState (stub : Stub) (key : String) (value : JObject) : Stub :=
  { stub with writes := stub.writes ++ [(key, value)] }

/-- Apply a write set, in the order the writes were issued. -/
def applyWrites (w : WorldState) : List (String × JObject) → WorldState
  | [] => w
  | (k, v) :: rest => applyWrites (fun k' => if k' = k then some v else w k') rest

/-- The world state after a transaction: the write set is applied when the
function returned, and dropped when it threw. -/
def commit (tx : Tx) : WorldState :=
  match tx.2 with
  | .ok _ => applyWrites tx.1.world tx.1.writes
  | .error _ => tx.1.world

/-- Run a contract function as one transaction on the world state `w`. -/
def invoke (f : Stub → Tx) (w : WorldState) : Tx :=
  f { world := w, writes := [] }

/-- Call `xs.push(x)` on the value `v`: a `TypeError` unless `v` is an array. -/
def push (v : Option Json) (x : Json) : Except String Json :=
  match v with
  | some (.arr xs) => .ok (.arr (xs ++ [x]))
  | _ => .error "TypeError: push is not a function"

/-- The value `JSON.stringify` writes for a number: `null` unless finite. -/
def jsonOfNum : JSNum → Json
  | .fin q => .num q
  | _ => .null

/-- The expression `a === b` where `b` is an argument of the call: objects and
arrays read from the ledger are never the same reference as an argument. -/
def strictEq : Option Json → Json → Bool
  | some .null, .null => true
  | some (.bool a), .bool b => decide (a = b)
  | some (.num a), .num b => decide (a = b)
  | some (.str a), .str b => decide (a = b)
  | _, _ => false

/-! ## Product-tracking contract
`blockchain/chaincode/product-tracking/index.js` -/

/-- A tracking entry `{ owner, timestamp, location }`. -/
def trackingEntry (owner timestamp location : Json) : JObject :=
  [("owner", owner), ("timestamp", timestamp), ("location", location)]

/-- The object literal `product` built by `createProduct`. -/
def newProduct (rt : JSRuntime) (now : ℤ) (id : String)
    (name manufacturer manufacturingDate batchNumber : Json) : JObject :=
  [("id", .str id), ("name", name), ("manufacturer", manufacturer),
   ("manufacturingDate", manufacturingDate), ("batchNumber", batchNumber),
   ("currentOwner", manufacturer),
   ("trackingHistory",
      .arr [.obj (trackingEntry manufacturer (.str (rt.toISOString now))
        (.str "Manufacturing Plant"))]),
   ("docType", .str "product")]

/-- Source function `createProduct(ctx, id, name, manufacturer, manufacturingDate,
batchNumber)`, at clock reading `now`. -/
def createProduct (rt : JSRuntime) (now : ℤ) (id : String)
    (name manufacturer manufacturingDate batchNumber : Json) (stub : Stub) : Tx :=
  let product := newProduct rt now id name manufacturer manufacturingDate batchNumber
  (stub.putState id product, .ok none)

/-- Source function `queryProduct(ctx, productId)`. -/
def queryProduct (productId : String) (stub : Stub) : Tx :=
  match stub.getState productId with
  | none => (stub, .error (productId ++ " does not exist"))
  | some product => (stub, .ok (some (.obj product)))

/-- Source function `transferProduct(ctx, productId, newOwner, location)`, at
clock reading `now`. -/
def transferProduct (rt : JSRuntime) (now : ℤ) (productId : String)
    (newOwner location : Json) (stub : Stub) : Tx :=
  match stub.getState productId with
  | none => (stub, .error (productId ++ " does not exist"))
  | some product =>
    -- product.currentOwner = newOwner;
    let product := setField product "currentOwner" newOwner
    -- product.trackingHistory.push({ owner, timestamp, location });
    match push (getField product "trackingHistory")
        (.obj (trackingEntry newOwner (.str (rt.toISOString now)) location)) with
    | .error e => (stub, .error e)
    | .ok history =>
      let product := setField product "trackingHistory" history
      (stub.putState productId product, .ok none)

/-! ## Ethical-sourcing contract
`blockchain/chaincode/ethical-sourcing/index.js` -/

/-- Source function `addCertification(ctx, productId, certificationBody,
certificationDate, expirationDate, certificationDetails)`. -/
def addCertification (productId : String)
    (certificationBody certificationDate expirationDate certificationDetails : Json)
    (stub : Stub) : Tx :=
  match stub.getState productId with
  | none => (stub, .error (productId ++ " does not exist"))
  | some product =>
    -- if (!product.certifications) product.certifications = [];
    let product :=
      if truthy (getField product "certifications") then product
      else setField product "certifications" (.arr [])
    let certification : Json :=
      .obj [("certificationBody", certificationBody), ("certificationDate", certificationDate),
            ("expirationDate", expirationDate), ("certificationDetails", certificationDetails),
            ("status", .str "Active")]
    match push (getField product "certifications") certification with
    | .error e => (stub, .error e)
    | .ok certifications =>
      let product := setField product "certifications" certifications
      (stub.putState productId product, .ok none)

/-- The call `certifications.find(cert => cert.certificationBody ===
certificationBody)`: the position and the fields of the first match, `none`
when nothing matches, and a `TypeError` when an entry before the first match is
`null`. -/
def findCertification (certificationBody : Json) :
    List Json → Except String (Option (Nat × JObject))
  | [] => .ok none
  | .null :: _ => .error "TypeError: Cannot read properties of null"
  | .obj cert :: rest =>
    if strictEq (getField cert "certificationBody") certificationBody then .ok (some (0, cert))
    else
      match findCertification certificationBody rest with
      | .error e => .error e
      | .ok none => .ok none
      | .ok (some (i, found)) => .ok (some (i + 1, found))
  -- any other entry has no certificationBody, and undefined equals no argument
  | _ :: rest =>
    match findCertification certificationBody rest with
    | .error e => .error e
    | .ok none => .ok none
    | .ok (some (i, found)) => .ok (some (i + 1, found))

/-- Source function `verifyCertification(ctx, productId, certificationBody)`, at
clock reading `now`. -/
def verifyCertification (rt : JSRuntime) (now : ℤ) (productId : String)
    (certificationBody : Json) (stub : Stub) : Tx :=
  match stub.getState productId with
  | none => (stub, .error (productId ++ " does not exist"))
  | some product =>
    if !truthy (getField product "certifications") then
      (stub, .ok (some (.obj [("isValid", .bool false),
        ("message", .str "No certifications found for this product")])))
    else
      match getField product "certifications" with
      | some (.arr certifications) =>
        match findCertification certificationBody certifications with
        | .error e => (stub, .error e)
        | .ok none =>
          (stub, .ok (some (.obj [("isValid", .bool false),
            ("message", .str "Certification not found")])))
        | .ok (some (i, certification)) =>
          let expirationDate := newDate rt (getField certification "expirationDate")
          -- if (currentDate > expirationDate)
          if JSNum.lt? (dateToNumber expirationDate) (.fin now) == some true then
            -- certification.status = 'Expired';
            let certification := setField certification "status" (.str "Expired")
            let product := setField product "certifications"
              (.arr (certifications.set i (.obj certification)))
            (stub.putState productId product,
              .ok (some (.obj [("isValid", .bool false),
                ("message", .str "Certification has expired")])))
          else
            (stub, .ok (some (.obj [("isValid", .bool true),
              ("certification", .obj certification)])))
      | _ => (stub, .error "TypeError: product.certifications.find is not a function")

/-- The expression `sum + v`: concatenation when either operand is a string
after `ToPrimitive`, numeric addition otherwise. -/
def jsAdd (rt : JSRuntime) (sum : Prim) (v : Option Json) : Prim :=
  match sum, toPrimitive rt v with
  | .str a, p => .str (a ++ p.toStr rt)
  | a, .str b => .str (a.toStr rt ++ b)
  | a, p => .num (JSNum.add (a.toNumber rt) (p.toNumber rt))

/-- The call `scores.reduce((sum, score) => sum + score.score, sum)`, started
from the accumulator `sum`. -/
def sumScores (rt : JSRuntime) (sum : Prim) : List Json → Except String Prim
  | [] => .ok sum
  | score :: rest =>
    match getProp (some score) "score" with
    | .error e => .error e
    | .ok v => sumScores rt (jsAdd rt sum v) rest

/-- The expression `totalScore / scores.length`. -/
def averageOf (rt : JSRuntime) (totalScore : Prim) (length : Nat) : JSNum :=
  JSNum.div (totalScore.toNumber rt) (.fin length)

/-- The object literal `ethicalScore` built by the contract's `addEthicalScore`. -/
def ethicalScoreEntry (scoreCategory score assessmentDate assessor : Json) : Json :=
  .obj [("scoreCategory", scoreCategory), ("score", score),
        ("assessmentDate", assessmentDate), ("assessor", assessor)]

/-- Source function `addEthicalScore(ctx, productId, scoreCategory, score,
assessmentDate, assessor)` of the contract. -/
def addEthicalScore (rt : JSRuntime) (productId : String)
    (scoreCategory score assessmentDate assessor : Json) (stub : Stub) : Tx :=
  match stub.getState productId with
  | none => (stub, .error (productId ++ " does not exist"))
  | some product =>
    -- if (!product.ethicalScores) product.ethicalScores = [];
    let product :=
      if truthy (getField product "ethicalScores") then product
      else setField product "ethicalScores" (.arr [])
    let ethicalScore := ethicalScoreEntry scoreCategory score assessmentDate assessor
    match push (getField product "ethicalScores") ethicalScore with
    | .ok (.arr ethicalScores) =>
      let product := setField product "ethicalScores" (.arr ethicalScores)
      -- Calculate overall ethical score
      match sumScores rt (.num (.fin 0)) ethicalScores with
      | .error e => (stub, .error e)
      | .ok totalScore =>
        let product := setField product "overallEthicalScore"
          (jsonOfNum (averageOf rt totalScore ethicalScores.length))
        (stub.putState productId product, .ok none)
    | .ok _ => (stub, .error "TypeError: product.ethicalScores.reduce is not a function")
    | .error e => (stub, .error e)

/-! ## Verification contract: requests and rule application
`blockchain/chaincode/verification/index.js` -/

/-- Source function `processVerificationRequest(ctx, verificationId, verifierId,
decision, comments)`, at clock reading `now`.  A `productId` that is not a
string names no key. -/
def processVerificationRequest (rt : JSRuntime) (now : ℤ) (verificationId : String)
    (verifierId decision comments : Json) (stub : Stub) : Tx :=
  match stub.getState verificationId with
  | none => (stub, .error (verificationId ++ " does not exist"))
  | some verification =>
    let timestamp : Json := .str (rt.toISOString now)
    -- verification.status = decision;
    let verification := setField verification "status" decision
    match push (getField verification "verificationHistory")
        (.obj [("status", decision), ("timestamp", timestamp), ("updatedBy", verifierId),
               ("comments", comments)]) with
    | .error e => (stub, .error e)
    | .ok history =>
      let verification := setField verification "verificationHistory" history
      let stub := stub.putState verificationId verification
      -- Update product verification status
      match getField verification "productId" with
      | some (.str productId) =>
        match stub.getState productId with
        | none => (stub, .error (productId ++ " does not exist"))
        | some product =>
          let product := setField product "verificationStatus" decision
          let product := setField product "lastVerificationDate" timestamp
          (stub.putState productId product, .ok (some (.obj [("status", decision)])))
      | other => (stub, .error (jsToString rt other ++ " does not exist"))

/-- The object `{ status, details }` as a JSON value. -/
def RuleResult.toJson (r : RuleResult) : Json :=
  .obj [("status", .str r.status), ("details", .str r.details)]

/-- Source function `applyVerificationRule(ctx, productId, ruleId)`, at clock
reading `now`. -/
def applyVerificationRule (rt : JSRuntime) (now : ℤ) (productId ruleId : String)
    (stub : Stub) : Tx :=
  match stub.getState ruleId with
  | none => (stub, .error ("Rule " ++ ruleId ++ " does not exist"))
  | some rule =>
    match stub.getState productId with
    | none => (stub, .error ("Product " ++ productId ++ " does not exist"))
    | some product =>
      let verificationResult : Except String RuleResult :=
        match getField rule "type" with
        | some (.str "threshold") => applyThresholdRule rt product (getField rule "parameters")
        | some (.str "timeWindow") =>
          applyTimeWindowRule rt now product (getField rule "parameters")
        | other => .error ("Unsupported rule type: " ++ jsToString rt other)
      match verificationResult with
      | .error e => (stub, .error e)
      | .ok result =>
        let product := setField product "verificationStatus" (.str result.status)
        let product := setField product "lastVerificationDate" (.str (rt.toISOString now))
        let product := setField product "lastVerificationRule" (.str ruleId)
        (stub.putState productId product, .ok (some result.toJson))

/-! ## Provenance store: `ProductService`
`backend/src/api/services/product.service.js`

A Mongoose document is the object of its fields and the `products` collection
maps an `_id` to a document.  What `product.save()` does beyond storing the
document (casting, validation, timestamps) is not in the sources: whether it
accepts a document is a parameter, and the accepted document is stored as it
is. -/

namespace ProductService

/-- The `products` collection: the document stored under each `_id`. -/
abbrev Collection := String → Option JObject

/-- The collaborators of the service: the schema check made by `save`, and
the ledger calls of `blockchainService`. -/
structure Deps where
  /-- Whether `product.save()` accepts the document. -/
  accepts : JObject → Bool
  /-- Call `blockchainService.recordProductTransfer(productId, newOwner,
  location, transferredBy)`. -/
  recordProductTransfer : String → Json → Json → Json → Except String Unit

/-- The result of a service call: the collection it leaves, and the value
it resolved to or the message of the error it threw. -/
abbrev Outcome := Collection × Except String JObject

/-- Source function `transferProduct(productId, newOwner, location,
transferredBy)`.  Every error is caught and replaced by
`ValidationError('Failed to transfer product')`. -/
def transferProduct (deps : Deps) (productId : String)
    (newOwner location transferredBy : Json) (db : Collection) : Outcome :=
  -- const product = await Product.findById(productId);
  match db productId with
  | none => (db, .error "Failed to transfer product")
  | some product =>
    -- product.currentOwner = newOwner; product.location = location;
    let product := setField product "currentOwner" newOwner
    let product := setField product "location" location
    -- await product.save();
    if deps.accepts product then
      let db : Collection := fun k => if k = productId then some product else db k
      match deps.recordProductTransfer productId newOwner location transferredBy with
      | .error _ => (db, .error "Failed to transfer product")
      | .ok _ => (db, .ok product)
    else (db, .error "Failed to transfer product")

/-- Source function `calculateOverallEthicalScore(scores)`. -/
def calculateOverallEthicalScore (rt : JSRuntime) (scores : List Json) :
    Except String JSNum :=
  -- const totalScore = scores.reduce((sum, score) => sum + score.score, 0);
  match sumScores rt (.num (.fin 0)) scores with
  | .error e => .error e
  | .ok totalScore => .ok (averageOf rt totalScore scores.length)

end ProductService

/-! ## Controller: `verifyProduct`
`backend/src/api/controllers/product.controller.js`

The file assigns `exports.verifyProduct` twice, with the same text; the
second assignment is the handler in effect. -/

namespace ProductController

/-- The parts of the request `req` the handler reads. -/
structure Request where
  params : Option Json
  body : Option Json
  user : Option Json

/-- What the handler does with the request: `res.status(s).json(b)`, or
`next(error)`. -/
inductive Reply where
  | json (status : Nat) (body : Json) : Reply
  | next (error : String) : Reply

/-- The services the handler awaits; each call resolves to a value or rejects
with an error. -/
structure Services where
  /-- Call `blockchainService.verifyProduct(productId, verificationCode)`. -/
  verifyProduct : Option Json → Option Json → Except String (Option Json)
  /-- Call `productService.getProductById(productId)`. -/
  getProductById : Option Json → Except String (Option Json)
  /-- Call `blockchainService.verifyProductEth(ethProductId, verificationCode)`. -/
  verifyProductEth : Option Json → Option Json → Except String (Option Json)
  /-- Call `zkProofService.generateProof(productId, manufacturerSecret, timestamp)`. -/
  generateProof : Option Json → Option Json → Option Json → Except String (Option Json)
  /-- Call `zkProofService.verifyProof(proof, publicSignals)`. -/
  verifyProof : Option Json → Option Json → Except String (Option Json)
  /-- Call `blockchainService.reportActivity(address)`. -/
  reportActivity : Option Json → Except String Unit

/-- A property `k: v` of an object literal sent with `res.json`: a property
whose value is `undefined` is left out. -/
def prop (k : String) (v : Option Json) : List (String × Json) :=
  match v with
  | none => []
  | some j => [(k, j)]

/-- The object `{ fabricVerificationResult, ethVerificationResult,
zkVerificationResult }` sent as `data`. -/
def verificationData (fabricVerificationResult ethVerificationResult
    zkVerificationResult : Option Json) : Json :=
  .obj (prop "fabricVerificationResult" fabricVerificationResult ++
    prop "ethVerificationResult" ethVerificationResult ++
    prop "zkVerificationResult" zkVerificationResult)

/-- The body of the `try` block of `verifyProduct`; an error is what the
`catch` block receives. -/
def verifyProductTry (svc : Services) (req : Request) : Except String Reply := do
  let productId ← getProp req.params "productId"
  let verificationCode ← getProp req.body "verificationCode"
  let manufacturerSecret ← getProp req.body "manufacturerSecret"
  let timestamp ← getProp req.body "timestamp"
  -- Verify on Hyperledger Fabric
  let fabricVerificationResult ← svc.verifyProduct productId verificationCode
  -- Verify on Ethereum
  let product ← svc.getProductById productId
  let ethProductId ← getProp product "ethProductId"
  let ethVerificationResult ← svc.verifyProductEth ethProductId verificationCode
  -- Generate and verify zk-SNARK proof
  let generated ← svc.generateProof productId manufacturerSecret timestamp
  let proof ← getProp generated "proof"
  let publicSignals ← getProp generated "publicSignals"
  let zkVerificationResult ← svc.verifyProof proof publicSignals
  -- fabric.isAuthentic && eth.isAuthentic && zk, of which only the truthiness
  -- is used; the second operand is read only when the first is truthy
  let fabricAuthentic ← getProp fabricVerificationResult "isAuthentic"
  let isAuthentic ←
    if truthy fabricAuthentic then do
      let ethAuthentic ← getProp ethVerificationResult "isAuthentic"
      pure (truthy ethAuthentic && truthy zkVerificationResult)
    else pure false
  if !isAuthentic then
    return .json 400 (.obj [("success", .bool false),
      ("message", .str "Product verification failed"),
      ("data", verificationData fabricVerificationResult ethVerificationResult
        zkVerificationResult)])
  -- If verification is successful, reward the user
  let address ← getProp req.user "address"
  svc.reportActivity address
  return .json 200 (.obj [("success", .bool true),
    ("data", verificationData fabricVerificationResult ethVerificationResult
      zkVerificationResult)])

/-- Source function `verifyProduct(req, res, next)`. -/
def verifyProduct (svc : Services) (req : Request) : Reply :=
  match verifyProductTry svc req with
  | .ok reply => reply
  | .error e => .next e

/-- The signals of one request: every call of the handler that obtains a
signal returns normally, the permissioned ledger with `f`, the public ledger
with `e` and the proof check with `z`. -/
def SignalsObtained (svc : Services) (req : Request) (f e : JObject) (z : Json) : Prop :=
  ∃ productId verificationCode manufacturerSecret timestamp product ethProductId generated
      proof publicSignals,
    getProp req.params "productId" = .ok productId ∧
    getProp req.body "verificationCode" = .ok verificationCode ∧
    getProp req.body "manufacturerSecret" = .ok manufacturerSecret ∧
    getProp req.body "timestamp" = .ok timestamp ∧
    svc.verifyProduct productId verificationCode = .ok (some (.obj f)) ∧
    svc.getProductById productId = .ok product ∧
    getProp product "ethProductId" = .ok ethProductId ∧
    svc.verifyProductEth ethProductId verificationCode = .ok (some (.obj e)) ∧
    svc.generateProof productId manufacturerSecret timestamp = .ok generated ∧
    getProp generated "proof" = .ok proof ∧
    getProp generated "publicSignals" = .ok publicSignals ∧
    svc.verifyProof proof publicSignals = .ok (some z)

/-- The reward call `blockchainService.reportActivity(req.user.address)`
returns normally. -/
def RewardReturns (svc : Services) (req : Request) : Prop :=
  ∃ address, getProp req.user "address" = .ok address ∧ svc.reportActivity address = .ok ()

/-- The three signals are all true: `f.isAuthentic`, `e.isAuthentic` and `z`. -/
def AllAuthentic (f e : JObject) (z : Json) : Prop :=
  truthy (getField f "isAuthentic") = true ∧ truthy (getField e "isAuthentic") = true ∧
    truthy (some z) = true

/-- The response data holding the three sub-results `f`, `e` and `z`. -/
def subResults (f e : JObject) (z : Json) : Json :=
  .obj [("fabricVerificationResult", .obj f), ("ethVerificationResult", .obj e),
        ("zkVerificationResult", z)]

/-- The reply `res.status(200).json({ success: true, data })`. -/
def successReply (f e : JObject) (z : Json) : Reply :=
  .json 200 (.obj [("success", .bool true), ("data", subResults f e z)])

/-- The reply `res.status(400).json({ success: false, message: 'Product
verification failed', data })`. -/
def failureReply (f e : JObject) (z : Json) : Reply :=
  .json 400 (.obj [("success", .bool false), ("message", .str "Product verification failed"),
    ("data", subResults f e z)])

end ProductController

/-! ## Calls of the ledger contracts -/

/-- A call of one of the state-changing functions of the three contracts. -/
inductive ContractCall where
  | createProduct (id : String) (name manufacturer manufacturingDate batchNumber : Json)
  | transferProduct (productId : String) (newOwner location : Json)
  | addCertification (productId : String)
      (certificationBody certificationDate expirationDate certificationDetails : Json)
  | addEthicalScore (productId : String) (scoreCategory score assessmentDate assessor : Json)
  | verifyCertification (productId : String) (certificationBody : Json)
  | processVerificationRequest (verificationId : String) (verifierId decision comments : Json)
  | applyVerificationRule (productId ruleId : String)

/-- The contract function a call names, at clock reading `now`. -/
def ContractCall.run (rt : JSRuntime) (now : ℤ) : ContractCall → Stub → Tx
  | .createProduct id name manufacturer manufacturingDate batchNumber =>
    SupplyChain.createProduct rt now id name manufacturer manufacturingDate batchNumber
  | .transferProduct productId newOwner location =>
    SupplyChain.transferProduct rt now productId newOwner location
  | .addCertification productId certificationBody certificationDate expirationDate
      certificationDetails =>
    SupplyChain.addCertification productId certificationBody certificationDate expirationDate
      certificationDetails
  | .addEthicalScore productId scoreCategory score assessmentDate assessor =>
    SupplyChain.addEthicalScore rt productId scoreCategory score assessmentDate assessor
  | .verifyCertification productId certificationBody =>
    SupplyChain.verifyCertification rt now productId certificationBody
  | .processVerificationRequest verificationId verifierId decision comments =>
    SupplyChain.processVerificationRequest rt now verificationId verifierId decision comments
  | .applyVerificationRule productId ruleId =>
    SupplyChain.applyVerificationRule rt now productId ruleId

/-- Whether the call is a `createProduct`. -/
def ContractCall.isCreate : ContractCall → Bool
  | .createProduct .. => true
  | _ => false

/-- The trackingHistory of the product stored under `key`, if the key holds an
object with such an array. -/
def trackingHistoryOf (w : WorldState) (key : String) : Option (List Json) :=
  match w key with
  | some product =>
    match getField product "trackingHistory" with
    | some (.arr history) => some history
    | _ => none
  | none => none

/-- Every write of the write set keeps, under its key, the trackingHistory the
world state `w` holds there, possibly extended at the end. -/
def KeepsHistory (w : WorldState) (writes : List (String × JObject)) : Prop :=
  ∀ kv ∈ writes, ∀ h, trackingHistoryOf w kv.1 = some h →
    ∃ h', getField kv.2 "trackingHistory" = some (.arr h') ∧ h <+: h'

/-- A runtime used to evaluate the contracts on concrete inputs: strings of
decimal digits convert to numbers and dates are written as millisecond counts. -/
def sampleRuntime : JSRuntime where
  stringToNumber s := match s.toNat? with
    | some n => .fin n
    | none => .nan
  numberToString n := match n with
    | .fin q => toString q
    | .nan => "NaN"
    | .posInf => "Infinity"
    | .negInf => "-Infinity"
  objectToString _ := "[object Object]"
  stringLt a b := decide (a < b)
  dateParse s := s.toInt?
  toISOString t := toString t
  toFixed2 n := match n with
    | .fin q => toString q
    | .nan => "NaN"
    | .posInf => "Infinity"
    | .negInf => "-Infinity"

/-- The rule parameters `{attribute: "score", operator: ">", threshold: 40}`. -/
def scoreAbove40 : Option Json :=
  some (.obj [("attribute", .str "score"), ("operator", .str ">"), ("threshold", .num 40)])

/-- The rule parameters `{attribute: "certificationDate", maxAge: m}`. -/
def certAgeAtMost (m : ℚ) : Option Json :=
  some (.obj [("attribute", .str "certificationDate"), ("maxAge", .num m)])

/-- The entry `e` of an ethicalScores list has the number `q` as its score. -/
def HasScore (e : Json) (q : ℚ) : Prop :=
  getProp (some e) "score" = .ok (some (.num q))

/-- A clock reading, in milliseconds since the epoch. -/
def sampleNow : ℤ := 1700000000000

/-- A product whose certificationDate lies 10 days (864 000 000 ms) before
`sampleNow`. -/
def certifiedTenDaysAgo : JObject := [("certificationDate", .num 1699136000000)]

/-- The product created by `createProduct("P1", "Widget", "Acme", "2024-01-01",
"B-1")` at `sampleNow`. -/
def sampleProduct : JObject :=
  newProduct sampleRuntime sampleNow "P1" (.str "Widget") (.str "Acme") (.str "2024-01-01")
    (.str "B-1")

/-- A world state whose only key is "P1", holding the product `p`. -/
def worldWith (p : JObject) : WorldState :=
  fun k => if k = "P1" then some p else none

/-- The tracking entry written when `sampleProduct` was created. -/
def createdEntry : Json :=
  .obj (trackingEntry (.str "Acme") (.str (sampleRuntime.toISOString sampleNow))
    (.str "Manufacturing Plant"))

/-- The tracking entry of a transfer to "Retailer" at "Lagos", 5 seconds after
`sampleNow`. -/
def transferEntry : Json :=
  .obj (trackingEntry (.str "Retailer") (.str (sampleRuntime.toISOString (sampleNow + 5000)))
    (.str "Lagos"))

/-- The product `sampleProduct` after its transfer to "Retailer". -/
def transferredProduct : JObject :=
  setField (setField sampleProduct "currentOwner" (.str "Retailer")) "trackingHistory"
    (.arr [createdEntry, transferEntry])

/-- A second `createProduct` call on the key "P1". -/
def recreateCall : ContractCall :=
  .createProduct "P1" (.str "Widget") (.str "Acme") (.str "2024-01-01") (.str "B-1")

/-- The product `sampleProduct` after one ethical score of 80 was recorded. -/
def scoredProduct : JObject :=
  setField (setField sampleProduct "ethicalScores"
    (.arr [ethicalScoreEntry (.str "labour") (.num 80) (.str "2024-02-01") (.str "U1")]))
    "overallEthicalScore" (.num 80)

/-- A certification by "FairTrade" that expires one second after `sampleNow`. -/
def validFirst : JObject :=
  [("certificationBody", .str "FairTrade"), ("certificationDate", .num 1690000000000),
   ("expirationDate", .num 1700000001000), ("certificationDetails", .str "renewal"),
   ("status", .str "Active")]

/-- A certification by "FairTrade" that expired 10 days before `sampleNow`. -/
def expiredSecond : JObject :=
  [("certificationBody", .str "FairTrade"), ("certificationDate", .num 1660000000000),
   ("expirationDate", .num 1699136000000), ("certificationDetails", .str "first issue"),
   ("status", .str "Active")]

/-- A certification by "Organic" that expires one second after `sampleNow`. -/
def organicCert : JObject :=
  [("certificationBody", .str "Organic"), ("certificationDate", .num 1690000000000),
   ("expirationDate", .num 1700000001000), ("certificationDetails", .str "farm audit"),
   ("status", .str "Active")]

/-- The product `sampleProduct` holding the certifications `cs`. -/
def certifiedProduct (cs : List Json) : JObject :=
  setField sampleProduct "certifications" (.arr cs)

/-- The value `{ isValid: false, message: 'Certification has expired' }`
returned by `verifyCertification`. -/
def expiredReport : Option Json :=
  some (.obj [("isValid", .bool false), ("message", .str "Certification has expired")])

/-- The value `{ isValid: true, certification }` returned by
`verifyCertification`. -/
def validReport (certification : JObject) : Option Json :=
  some (.obj [("isValid", .bool true), ("certification", .obj certification)])

/-- A document of the `products` collection with an empty trackingHistory. -/
def storedDoc : JObject :=
  [("_id", .str "P1"), ("name", .str "Widget"), ("manufacturer", .str "Acme"),
   ("batchNumber", .str "B-1"), ("currentOwner", .str "U1"), ("location", .str "Accra"),
   ("certifications", .arr []), ("ethicalScores", .arr []), ("overallEthicalScore", .num 0),
   ("trackingHistory", .arr [])]

/-- Collaborators that accept every document and every ledger call. -/
def acceptingDeps : ProductService.Deps where
  accepts _ := true
  recordProductTransfer _ _ _ _ := .ok ()

/-- Services that answer every request with the signals `f`, `e` and `z`. -/
def constServices (f e : JObject) (z : Json) : ProductController.Services where
  verifyProduct _ _ := .ok (some (.obj f))
  getProductById _ := .ok (some (.obj [("ethProductId", .str "7")]))
  verifyProductEth _ _ := .ok (some (.obj e))
  generateProof _ _ _ := .ok (some (.obj [("proof", .str "pi"), ("publicSignals", .arr [])]))
  verifyProof _ _ := .ok (some z)
  reportActivity _ := .ok ()

/-- A verification request for the product "P1" by a user with an address. -/
def verifyRequest : ProductController.Request where
  params := some (.obj [("productId", .str "P1")])
  body := some (.obj [("verificationCode", .str "c0de"), ("manufacturerSecret", .str "s3"),
    ("timestamp", .num 1700000000000)])
  user := some (.obj [("address", .str "0xabc")])

/-- The rule result `r` is a decision taken by the condition `P`: the
evaluation returns, with status 'Verified' exactly when `P` holds and status
'Failed' exactly when it does not. -/
def DecidesBy (r : Except String RuleResult) (P : Prop) : Prop :=
  ∃ res, r = .ok res ∧ (res.status = "Verified" ↔ P) ∧ (res.status = "Failed" ↔ ¬ P)

/-! ## Verification contract: creating a request
`blockchain/chaincode/verification/index.js` -/

/-- The object literal `verificationRequest` built by
`createVerificationRequest`. -/
def newVerificationRequest (rt : JSRuntime) (now : ℤ) (verificationId : String)
    (productId requesterId requestType additionalInfo : Json) : JObject :=
  [("id", .str verificationId), ("productId", productId), ("requesterId", requesterId),
   ("requestType", requestType), ("additionalInfo", additionalInfo),
   ("status", .str "Pending"), ("timestamp", .str (rt.toISOString now)),
   ("verificationHistory",
      .arr [.obj [("status", .str "Pending"), ("timestamp", .str (rt.toISOString now)),
                  ("updatedBy", requesterId)]])]

/-- Source function `createVerificationRequest(ctx, productId, requesterId,
requestType, additionalInfo)`, at clock reading `now`; `verificationId` is the
value of `crypto.randomBytes(16).toString('hex')`. -/
def createVerificationRequest (rt : JSRuntime) (now : ℤ) (verificationId : String)
    (productId requesterId requestType additionalInfo : Json) (stub : Stub) : Tx :=
  let verificationRequest :=
    newVerificationRequest rt now verificationId productId requesterId requestType
      additionalInfo
  (stub.putState verificationId verificationRequest,
    .ok (some (.obj [("verificationId", .str verificationId)])))

/-- The audit entry `{ status, timestamp, updatedBy, comments }` pushed by
`processVerificationRequest`. -/
def auditEntry (decision timestamp verifierId comments : Json) : Json :=
  .obj [("status", decision), ("timestamp", timestamp), ("updatedBy", verifierId),
        ("comments", comments)]

/-! ## Product-tracking contract: history of a key
`blockchain/chaincode/product-tracking/index.js`

The iterator of `ctx.stub.getHistoryForKey` belongs to the ledger.  It is given
to the contract as the sequence of the `res.value` of its results before
`done`; the order of that sequence is the ledger's. -/

/-- A result `res.value` of the history iterator; `value` is
`JSON.parse(res.value.value.toString('utf8'))`, `none` when the bytes are not
JSON (the empty bytes of a deletion). -/
structure KeyModification where
  value : Option Json

/-- The loop `while (!res.done)` of `getProductHistory`, from the results not
yet visited and the `result` array built so far. -/
def collectHistory : List (Option KeyModification) → List Json → Except String (List Json)
  | [], result => .ok result
  | none :: rest, result => collectHistory rest result
  | some km :: rest, result =>
    match km.value with
    | none => .error "SyntaxError: Unexpected end of JSON input"
    | some obj => collectHistory rest (result ++ [obj])

/-- Source function `getProductHistory(ctx, productId)` of the contract, for the
results `records` of the iterator of `getHistoryForKey(productId)`. -/
def getProductHistory (records : List (Option KeyModification)) (stub : Stub) : Tx :=
  match collectHistory records [] with
  | .error e => (stub, .error e)
  | .ok result => (stub, .ok (some (.arr result)))

/-- A ledger: the world state and, for each key, the values committed under
it, oldest first. -/
structure Ledger where
  world : WorldState
  history : String → List JObject

/-- Submit a contract function as one transaction: when it returns, its write
set is committed and every key it wrote gains one history record, the value
committed under the key. -/
def Ledger.submit (f : Stub → Tx) (l : Ledger) : Ledger :=
  match (invoke f l.world).2 with
  | .ok _ =>
    { world := commit (invoke f l.world),
      history := fun k =>
        if k ∈ (invoke f l.world).1.writes.map Prod.fst then
          match commit (invoke f l.world) k with
          | some v => l.history k ++ [v]
          | none => l.history k
        else l.history k }
  | .error _ => l

/-- The results of the history iterator for `key` on a ledger that iterates
oldest first (the spec's ledger-native chronological order). -/
def Ledger.historyFor (l : Ledger) (key : String) : List (Option KeyModification) :=
  (l.history key).map fun v => some { value := some (.obj v) }

/-! ## Sample ledger states -/

/-- A world state holding the given objects under the given keys. -/
def worldOf (entries : List (String × JObject)) : WorldState :=
  fun k => (entries.find? fun kv => decide (kv.1 = k)).map Prod.snd

/-- The request "V1" for the product "P1", as `createVerificationRequest`
stores it at `sampleNow`. -/
def pendingRequest : JObject :=
  newVerificationRequest sampleRuntime sampleNow "V1" (.str "P1") (.str "U7")
    (.str "authenticity") (.str "first check")

/-- The request "V1" after the decision 'Verified' was recorded, one second
after `sampleNow`. -/
def verifiedRequest : JObject :=
  setField (setField pendingRequest "status" (.str "Verified")) "verificationHistory"
    (.arr [.obj [("status", .str "Pending"), ("timestamp",
        .str (sampleRuntime.toISOString sampleNow)), ("updatedBy", .str "U7")],
      auditEntry (.str "Verified") (.str (sampleRuntime.toISOString (sampleNow + 1000)))
        (.str "U9") (.str "seal intact")])

/-- A threshold rule `overallEthicalScore > 40`, as `createVerificationRule`
stores it. -/
def scoreRule : JObject :=
  [("id", .str "R1"), ("type", .str "threshold"),
   ("parameters", .obj [("attribute", .str "overallEthicalScore"), ("operator", .str ">"),
      ("threshold", .num 40)]),
   ("createdAt", .str (sampleRuntime.toISOString sampleNow)), ("status", .str "Active")]

/-- A threshold rule on the attribute "score", which `sampleProduct` does not
have. -/
def unknownAttributeRule : JObject :=
  [("id", .str "R2"), ("type", .str "threshold"),
   ("parameters", .obj [("attribute", .str "score"), ("operator", .str ">"),
      ("threshold", .num 40)]),
   ("createdAt", .str (sampleRuntime.toISOString sampleNow)), ("status", .str "Active")]

/-- The field `field` of the object stored under `key`, if there is one. -/
def fieldAt (w : WorldState) (key field : String) : Option Json :=
  (w key).bind fun o => getField o field

/-- The world state `w` with the object `v` stored under `key`. -/
def storeAt (w : WorldState) (key : String) (v : JObject) : WorldState :=
  fun k => if k = key then some v else w k

/-- The call `processVerificationRequest("V1", "U9", decision, "re-check")`,
two seconds after `sampleNow`. -/
def recheck (decision : Json) : Stub → Tx :=
  processVerificationRequest sampleRuntime (sampleNow + 2000) "V1" (.str "U9") decision
    (.str "re-check")

/-- The object literal `certification` built by `addCertification`. -/
def newCertification (certificationBody certificationDate expirationDate
    certificationDetails : Json) : Json :=
  .obj [("certificationBody", certificationBody), ("certificationDate", certificationDate),
        ("expirationDate", expirationDate), ("certificationDetails", certificationDetails),
        ("status", .str "Active")]

/-- A ledger on which nothing was committed. -/
def emptyLedger : Ledger where
  world := fun _ => none
  history := fun _ => []

/-! ## Controller: `getProductHistory`
`backend/src/api/controllers/product.controller.js` -/

namespace ProductController

/-- The services `getProductHistory` awaits; each call resolves to a value or
rejects with an error. -/
structure HistoryServices where
  /-- Call `blockchainService.getProductHistory(productId)`. -/
  getProductHistory : Option Json → Except String (Option Json)
  /-- Call `productService.getProductById(productId)`. -/
  getProductById : Option Json → Except String (Option Json)
  /-- Call `blockchainService.getProductHistoryEth(ethProductId)`. -/
  getProductHistoryEth : Option Json → Except String (Option Json)

/-- The reply `res.status(404).json({ success: false, message: 'Product history
not found' })`. -/
def historyNotFound : Reply :=
  .json 404 (.obj [("success", .bool false), ("message", .str "Product history not found")])

/-- The reply `res.status(200).json({ success: true, data: { fabricHistory,
ethHistory } })`. -/
def historyFound (fabricHistory ethHistory : Option Json) : Reply :=
  .json 200 (.obj [("success", .bool true),
    ("data", .obj (prop "fabricHistory" fabricHistory ++ prop "ethHistory" ethHistory))])

/-- The body of the `try` block of `getProductHistory`. -/
def getProductHistoryTry (svc : HistoryServices) (req : Request) : Except String Reply := do
  let productId ← getProp req.params "productId"
  -- Get history from Hyperledger Fabric
  let fabricHistory ← svc.getProductHistory productId
  -- Get history from Ethereum
  let product ← svc.getProductById productId
  let ethProductId ← getProp product "ethProductId"
  let ethHistory ← svc.getProductHistoryEth ethProductId
  if !truthy fabricHistory && !truthy ethHistory then
    return historyNotFound
  return historyFound fabricHistory ethHistory

/-- Source function `getProductHistory(req, res, next)` of the controller. -/
def getProductHistory (svc : HistoryServices) (req : Request) : Reply :=
  match getProductHistoryTry svc req with
  | .ok reply => reply
  | .error e => .next e

end ProductController

/-- Services whose ledgers return the histories `fabricHistory` and
`ethHistory` for every product. -/
def historyServices (fabricHistory ethHistory : Option Json) :
    ProductController.HistoryServices where
  getProductHistory _ := .ok fabricHistory
  getProductById _ := .ok (some (.obj [("ethProductId", .str "7")]))
  getProductHistoryEth _ := .ok ethHistory

/-! ## Domain operations and their effects
`backend/src/api/controllers/product.controller.js`,
`backend/src/api/services/product.service.js`,
`backend/src/api/services/blockchain.service.js`

The handlers of the five domain operations, with every call they make to the
store and to the two ledgers recorded in a log.  What the store and the ledgers
answer is given by an environment, which sees the log so far.  The methods
`updateProductEth` and `recordCertificationEth`, which the controller calls and
`blockchain.service.js` does not define, are answered by the environment as
well. -/

namespace Coordinator

/-- An argument of a ledger call: a value, or a value passed through a library
conversion named by `how` (`JSON.stringify`, `toString`, `toHex`). -/
inductive Arg where
  | val (v : Option Json) : Arg
  | derived (how : String) (v : Option Json) : Arg

/-- A call to the store or to a ledger, with its outcome. -/
inductive Effect where
  /-- A document written to the store (`save`, `findByIdAndUpdate`). -/
  | save (id : String) (doc : JObject) (ok : Bool) : Effect
  /-- The call `connectToNetwork('admin')` to the permissioned ledger. -/
  | connect (ok : Bool) : Effect
  /-- The call `contract.submitTransaction(fn, ...args)` on the permissioned
  ledger. -/
  | submit (fn : String) (args : List Arg) (ok : Bool) : Effect
  /-- The call `web3.eth.getAccounts()` to the public ledger. -/
  | accounts (ok : Bool) : Effect
  /-- A state-changing call on the public ledger: `methods.m(...args).send`, or
  one of the two methods the service does not define. -/
  | send (method : String) (args : List Arg) (ok : Bool) : Effect

/-- The answers of the store and of the two ledgers, given the log so far. -/
structure Env where
  /-- The `_id` Mongoose gives a new document. -/
  newId : List Effect → String
  /-- The error with which the store rejects a document, `none` when it
  accepts it. -/
  saveError : List Effect → JObject → Option String
  /-- Whether `gateway.connect` and `getNetwork` succeed. -/
  connects : List Effect → Bool
  /-- Whether `submitTransaction` succeeds. -/
  endorses : List Effect → String → List Arg → Bool
  /-- The first account of `getAccounts()`, or the error it rejects with. -/
  account : List Effect → Except String (Option Json)
  /-- The receipt of a `send`, `none` when it throws. -/
  sends : List Effect → String → List Arg → Option (Option Json)
  /-- The outcome of a method that `blockchain.service.js` does not define. -/
  undefinedMethod : List Effect → String → List Arg → Except String (Option Json)

/-- The store and the log of the calls made so far. -/
structure Backend where
  db : ProductService.Collection
  log : List Effect

/-- An asynchronous computation of the backend: from a state to a state and
the value it resolves to or the message of the error it throws. -/
def Run (α : Type) : Type := Backend → Backend × Except String α

/-- Resolve to `a`. -/
def Run.pure {α : Type} (a : α) : Run α := fun b => (b, .ok a)

/-- Await `m`, then continue with `f`; an error of `m` propagates. -/
def Run.bind {α β : Type} (m : Run α) (f : α → Run β) : Run β := fun b =>
  match m b with
  | (b', .ok a) => f a b'
  | (b', .error e) => (b', .error e)

instance : Monad Run where
  pure := Run.pure
  bind := Run.bind

/-- A synchronous step that may throw. -/
def Run.lift {α : Type} (x : Except String α) : Run α := fun b => (b, x)

/-- The block `try { m } catch (error) { throw new ValidationError(msg) }`. -/
def Run.catchAs {α : Type} (msg : String) (m : Run α) : Run α := fun b =>
  match m b with
  | (b', .ok a) => (b', .ok a)
  | (b', .error _) => (b', .error msg)

/-- Add a call to the log. -/
def Backend.record (b : Backend) (e : Effect) : Backend :=
  { b with log := b.log ++ [e] }

/-- Assign `o[k] = v` where `v` may be `undefined`, which leaves the object
without the key. -/
def assignField (o : JObject) (k : String) (v : Option Json) : JObject :=
  match v with
  | some j => setField o k j
  | none => o.filter fun kv => decide (kv.1 ≠ k)

namespace BlockchainService

/-- Source function `connectToNetwork(username)`. -/
def connectToNetwork (env : Env) : Run Unit := fun b =>
  if env.connects b.log then (b.record (.connect true), .ok ())
  else (b.record (.connect false), .error "Blockchain network connection failed")

/-- The block `try { await contract.submitTransaction(fn, ...args) } catch
{ throw new Error('Blockchain transaction failed') }`; `args` is an error when
the evaluation of an argument throws. -/
def submitTransaction (env : Env) (fn : String) (args : Except String (List Arg)) :
    Run Unit := fun b =>
  match args with
  | .error _ => (b, .error "Blockchain transaction failed")
  | .ok args =>
    if env.endorses b.log fn args then (b.record (.submit fn args true), .ok ())
    else (b.record (.submit fn args false), .error "Blockchain transaction failed")

/-- Source function `recordProductCreation(product)`; `product.id` is the string
of `_id`. -/
def recordProductCreation (env : Env) (product : JObject) : Run Unit := do
  connectToNetwork env
  submitTransaction env "createProduct"
    (.ok [.val (getField product "_id"), .val (getField product "name"),
      .val (getField product "manufacturer"), .val (getField product "manufacturingDate"),
      .val (getField product "batchNumber")])

/-- Source function `recordProductUpdate(productId, updateData, updatedBy)`. -/
def recordProductUpdate (env : Env) (productId updateData updatedBy : Option Json) :
    Run Unit := do
  connectToNetwork env
  submitTransaction env "updateProduct"
    (.ok [.val productId, .derived "JSON.stringify" updateData, .val updatedBy])

/-- Source function `recordProductTransfer(productId, newOwner, location,
transferredBy)`. -/
def recordProductTransfer (env : Env) (productId newOwner location transferredBy : Option Json) :
    Run Unit := do
  connectToNetwork env
  submitTransaction env "transferProduct"
    (.ok [.val productId, .val newOwner, .val location, .val transferredBy])

/-- Source function `recordCertification(productId, certification)`. -/
def recordCertification (env : Env) (productId certification : Option Json) : Run Unit := do
  connectToNetwork env
  submitTransaction env "addCertification" (do
    let certificationBody ← getProp certification "certificationBody"
    let certificationDate ← getProp certification "certificationDate"
    let expirationDate ← getProp certification "expirationDate"
    let certificationDetails ← getProp certification "certificationDetails"
    pure [.val productId, .val certificationBody, .val certificationDate, .val expirationDate,
      .derived "JSON.stringify" certificationDetails])

/-- The call `v.toString()`: a `TypeError` on `null` and `undefined`. -/
def toStringCall (v : Option Json) : Except String Arg :=
  match v with
  | none => .error "TypeError: Cannot read properties of undefined"
  | some .null => .error "TypeError: Cannot read properties of null"
  | some j => .ok (.derived "toString" (some j))

/-- Source function `recordEthicalScore(productId, ethicalScore)`. -/
def recordEthicalScore (env : Env) (productId ethicalScore : Option Json) : Run Unit := do
  connectToNetwork env
  submitTransaction env "addEthicalScore" (do
    let scoreCategory ← getProp ethicalScore "scoreCategory"
    let score ← getProp ethicalScore "score"
    let scoreString ← toStringCall score
    let assessmentDate ← getProp ethicalScore "assessmentDate"
    let assessor ← getProp ethicalScore "assessor"
    pure [.val productId, .val scoreCategory, scoreString, .val assessmentDate, .val assessor])

/-- Source function `getEthereumAccount()`. -/
def getEthereumAccount (env : Env) : Run (Option Json) := fun b =>
  match env.account b.log with
  | .ok account => (b.record (.accounts true), .ok account)
  | .error e => (b.record (.accounts false), .error e)

/-- The block `try { const result = await methods.m(...args).send({ from:
account }); return extract(result) } catch { throw new Error('Ethereum
transaction failed') }`.  A `send` that fails includes an exception thrown
while its arguments are computed. -/
def send (env : Env) (method : String) (args : List Arg)
    (extract : Option Json → Except String (Option Json)) : Run (Option Json) := fun b =>
  match env.sends b.log method args with
  | none => (b.record (.send method args false), .error "Ethereum transaction failed")
  | some receipt =>
    match extract receipt with
    | .ok v => (b.record (.send method args true), .ok v)
    | .error _ => (b.record (.send method args true), .error "Ethereum transaction failed")

/-- The expression `result.events[event].returnValues[field]`. -/
def returnValue (event field : String) (result : Option Json) : Except String (Option Json) := do
  let events ← getProp result "events"
  let emitted ← getProp events event
  let returnValues ← getProp emitted "returnValues"
  getProp returnValues field

/-- Source function `createProductEth(product)`. -/
def createProductEth (env : Env) (product : JObject) : Run (Option Json) := do
  let account ← getEthereumAccount env
  send env "createProduct"
    [.val (getField product "name"), .val (getField product "manufacturer"),
     .derived "toHex" (getField product "manufacturingDate"),
     .val (getField product "batchNumber"), .val (getField product "metadata"), .val account]
    (returnValue "ProductCreated" "productId")

/-- Source function `transferProductEth(productId, newOwner, location)`. -/
def transferProductEth (env : Env) (productId newOwner location : Option Json) :
    Run (Option Json) := do
  let account ← getEthereumAccount env
  send env "transferProduct" [.val productId, .val newOwner, .val location, .val account]
    (fun _ => .ok none)

/-- Source function `createEthicalAssessmentEth(productId, category, score,
evidence)`. -/
def createEthicalAssessmentEth (env : Env) (productId category score evidence : Option Json) :
    Run (Option Json) := do
  let account ← getEthereumAccount env
  send env "createAssessment"
    [.val productId, .val category, .val score, .val evidence, .val account]
    (returnValue "AssessmentCreated" "assessmentId")

/-- A call of a method of `blockchainService` that `blockchain.service.js` does
not define; it is taken as a write to the public ledger. -/
def undefinedMethod (env : Env) (method : String) (args : List Arg) : Run (Option Json) :=
  fun b =>
  match env.undefinedMethod b.log method args with
  | .ok v => (b.record (.send method args true), .ok v)
  | .error e => (b.record (.send method args false), .error e)

end BlockchainService

end Coordinator

namespace Coordinator

namespace ProductService

/-- The call `product.save()` for the document with `_id` equal to `id`; also
the write of `findByIdAndUpdate`. -/
def save (env : Env) (id : String) (doc : JObject) : Run Unit := fun b =>
  match env.saveError b.log doc with
  | none =>
    ({ db := fun k => if k = id then some doc else b.db k,
       log := b.log ++ [.save id doc true] }, .ok ())
  | some e => (b.record (.save id doc false), .error e)

/-- The call `Product.findById(productId)`: the stored document with its
`_id`, or `null`. -/
def findById (productId : Option Json) : Run (Option (String × JObject)) := fun b =>
  match productId with
  | some (.str id) => (b, .ok ((b.db id).map fun doc => (id, doc)))
  | _ => (b, .ok none)

/-- The `_id` of `new Product(productData)`: the one given in the data, or a
new one. -/
def idOfNew (env : Env) (productData : JObject) : Run String := fun b =>
  match getField productData "_id" with
  | some (.str id) => (b, .ok id)
  | _ => (b, .ok (env.newId b.log))

/-- Source function `createProduct(productData)`. -/
def createProduct (env : Env) (productData : JObject) : Run JObject :=
  Run.catchAs "Failed to create product" do
    -- const product = new Product(productData);
    let id ← idOfNew env productData
    let product := setField productData "_id" (.str id)
    save env id product
    BlockchainService.recordProductCreation env product
    pure product

/-- Source function `getProductById(productId)`. -/
def getProductById (productId : Option Json) : Run JObject :=
  Run.catchAs "Failed to fetch product" do
    match ← findById productId with
    | none => Run.lift (.error "Product not found")
    | some (_, product) => pure product

/-- The fields an update sets; an update that is not an object sets none. -/
def updateFields : Option Json → JObject
  | some (.obj fields) => fields
  | _ => []

/-- Source function `updateProduct(productId, updateData, updatedBy)`; the call
`findByIdAndUpdate` sets the fields of `updateData` on the stored document. -/
def updateProduct (env : Env) (productId updateData updatedBy : Option Json) : Run JObject :=
  Run.catchAs "Failed to update product" do
    match ← findById productId with
    | none => Run.lift (.error "Product not found")
    | some (id, stored) =>
      let product := (updateFields updateData).foldl (fun o kv => setField o kv.1 kv.2) stored
      save env id product
      BlockchainService.recordProductUpdate env productId updateData updatedBy
      pure product

/-- Source function `transferProduct(productId, newOwner, location,
transferredBy)`. -/
def transferProduct (env : Env) (productId newOwner location transferredBy : Option Json) :
    Run JObject :=
  Run.catchAs "Failed to transfer product" do
    match ← findById productId with
    | none => Run.lift (.error "Product not found")
    | some (id, product) =>
      let product := assignField product "currentOwner" newOwner
      let product := assignField product "location" location
      save env id product
      BlockchainService.recordProductTransfer env productId newOwner location transferredBy
      pure product

/-- Source function `addCertification(productId, certificationData)`. -/
def addCertification (env : Env) (productId : Option Json) (certificationData : JObject) :
    Run JObject :=
  Run.catchAs "Failed to add certification" do
    match ← findById productId with
    | none => Run.lift (.error "Product not found")
    | some (id, product) =>
      let certifications ← Run.lift (push (getField product "certifications")
        (.obj certificationData))
      let product := setField product "certifications" certifications
      save env id product
      BlockchainService.recordCertification env productId (some (.obj certificationData))
      pure certificationData

/-- Source function `addEthicalScore(productId, scoreData)`. -/
def addEthicalScore (rt : JSRuntime) (env : Env) (productId : Option Json)
    (scoreData : JObject) : Run JObject :=
  Run.catchAs "Failed to add ethical score" do
    match ← findById productId with
    | none => Run.lift (.error "Product not found")
    | some (id, product) =>
      match ← Run.lift (push (getField product "ethicalScores") (.obj scoreData)) with
      | .arr ethicalScores =>
        let product := setField product "ethicalScores" (.arr ethicalScores)
        let overall ← Run.lift
          (SupplyChain.ProductService.calculateOverallEthicalScore rt ethicalScores)
        let product := setField product "overallEthicalScore" (jsonOfNum overall)
        save env id product
        BlockchainService.recordEthicalScore env productId (some (.obj scoreData))
        pure scoreData
      | _ => Run.lift (.error "TypeError: scores.reduce is not a function")

end ProductService

namespace ProductController

open SupplyChain.ProductController (Request Reply prop)

/-- The handler `async (req, res, next) => { try { m } catch (error) {
next(error) } }`. -/
def handler (m : Run Reply) (b : Backend) : Backend × Reply :=
  match m b with
  | (b', .ok reply) => (b', reply)
  | (b', .error e) => (b', .next e)

/-- The rest properties `...rest` of `const { named..., ...rest } = v`. -/
def restProps (named : List String) (v : Option Json) : Except String JObject :=
  match v with
  | none => .error "TypeError: Cannot destructure undefined"
  | some .null => .error "TypeError: Cannot destructure null"
  | some (.obj fields) => .ok (fields.filter fun kv => decide (kv.1 ∉ named))
  | some (.arr xs) => .ok (xs.enum.map fun ix => (toString ix.1, ix.2))
  | some (.str s) => .ok (s.toList.enum.map fun ic => (toString ic.1, .str (String.singleton ic.2)))
  | some _ => .ok []

/-- Source function `createProduct(req, res, next)`. -/
def createProduct (env : Env) (req : Request) : Backend → Backend × Reply :=
  handler do
    let name ← Run.lift (getProp req.body "name")
    let manufacturer ← Run.lift (getProp req.body "manufacturer")
    let manufacturingDate ← Run.lift (getProp req.body "manufacturingDate")
    let batchNumber ← Run.lift (getProp req.body "batchNumber")
    let additionalDetails ← Run.lift
      (restProps ["name", "manufacturer", "manufacturingDate", "batchNumber"] req.body)
    let createdBy ← Run.lift (getProp req.user "id")
    let product ← ProductService.createProduct env
      (additionalDetails.foldl (fun o kv => setField o kv.1 kv.2)
        (prop "name" name ++ prop "manufacturer" manufacturer ++
          prop "manufacturingDate" manufacturingDate ++ prop "batchNumber" batchNumber ++
          prop "createdBy" createdBy))
    -- Record on Hyperledger Fabric
    BlockchainService.recordProductCreation env product
    -- Record on Ethereum
    let ethProductId ← BlockchainService.createProductEth env product
    let product := assignField product "ethProductId" ethProductId
    match getField product "_id" with
    | some (.str id) => ProductService.save env id product
    | _ => pure ()
    pure (.json 201 (.obj [("success", .bool true), ("data", .obj product)]))

/-- Source function `updateProduct(req, res, next)`. -/
def updateProduct (env : Env) (req : Request) : Backend → Backend × Reply :=
  handler do
    let productId ← Run.lift (getProp req.params "productId")
    let updatedBy ← Run.lift (getProp req.user "id")
    let updatedProduct ← ProductService.updateProduct env productId req.body updatedBy
    -- the service resolves to a document, so `!updatedProduct` is false
    -- Update on Hyperledger Fabric
    BlockchainService.recordProductUpdate env productId req.body updatedBy
    -- Update on Ethereum
    let _ ← BlockchainService.undefinedMethod env "updateProductEth"
      [.val (getField updatedProduct "ethProductId"), .val req.body]
    pure (.json 200 (.obj [("success", .bool true), ("data", .obj updatedProduct)]))

/-- Source function `transferProduct(req, res, next)`. -/
def transferProduct (env : Env) (req : Request) : Backend → Backend × Reply :=
  handler do
    let productId ← Run.lift (getProp req.params "productId")
    let newOwner ← Run.lift (getProp req.body "newOwner")
    let location ← Run.lift (getProp req.body "location")
    let transferredBy ← Run.lift (getProp req.user "id")
    let transferResult ← ProductService.transferProduct env productId newOwner location
      transferredBy
    -- the service resolves to a document, so `!transferResult` is false
    -- Record transfer on Hyperledger Fabric
    BlockchainService.recordProductTransfer env productId newOwner location transferredBy
    -- Record transfer on Ethereum
    let ethProductId ← Run.lift (getProp (getField transferResult "product") "ethProductId")
    let _ ← BlockchainService.transferProductEth env ethProductId newOwner location
    pure (.json 200 (.obj [("success", .bool true), ("data", .obj transferResult)]))

/-- Source function `addCertification(req, res, next)`. -/
def addCertification (env : Env) (req : Request) : Backend → Backend × Reply :=
  handler do
    let productId ← Run.lift (getProp req.params "productId")
    let certificationBody ← Run.lift (getProp req.body "certificationBody")
    let certificationDate ← Run.lift (getProp req.body "certificationDate")
    let expirationDate ← Run.lift (getProp req.body "expirationDate")
    let certificationDetails ← Run.lift (getProp req.body "certificationDetails")
    let addedBy ← Run.lift (getProp req.user "id")
    let certification ← ProductService.addCertification env productId
      (prop "certificationBody" certificationBody ++ prop "certificationDate" certificationDate ++
        prop "expirationDate" expirationDate ++
        prop "certificationDetails" certificationDetails ++ prop "addedBy" addedBy)
    -- Record on Hyperledger Fabric
    BlockchainService.recordCertification env productId (some (.obj certification))
    -- Record on Ethereum
    let product ← ProductService.getProductById productId
    let _ ← BlockchainService.undefinedMethod env "recordCertificationEth"
      [.val (getField product "ethProductId"), .val (some (.obj certification))]
    pure (.json 201 (.obj [("success", .bool true), ("data", .obj certification)]))

/-- Source function `addEthicalScore(req, res, next)`. -/
def addEthicalScore (rt : JSRuntime) (env : Env) (req : Request) :
    Backend → Backend × Reply :=
  handler do
    let productId ← Run.lift (getProp req.params "productId")
    let scoreCategory ← Run.lift (getProp req.body "scoreCategory")
    let score ← Run.lift (getProp req.body "score")
    let assessmentDate ← Run.lift (getProp req.body "assessmentDate")
    let assessor ← Run.lift (getProp req.user "id")
    let ethicalScore ← ProductService.addEthicalScore rt env productId
      (prop "scoreCategory" scoreCategory ++ prop "score" score ++
        prop "assessmentDate" assessmentDate ++ prop "assessor" assessor)
    -- Record on Hyperledger Fabric
    BlockchainService.recordEthicalScore env productId (some (.obj ethicalScore))
    -- Record on Ethereum
    let product ← ProductService.getProductById productId
    let _ ← BlockchainService.createEthicalAssessmentEth env (getField product "ethProductId")
      scoreCategory score assessmentDate
    pure (.json 201 (.obj [("success", .bool true), ("data", .obj ethicalScore)]))

end ProductController

end Coordinator

namespace Coordinator

open SupplyChain.ProductController (Request Reply)

/-- The five domain operations of the controller. -/
inductive DomainOp where
  | create : DomainOp
  | update : DomainOp
  | transfer : DomainOp
  | addCertification : DomainOp
  | addEthicalScore : DomainOp

/-- The handler of a domain operation. -/
def DomainOp.handle (rt : JSRuntime) (env : Env) : DomainOp → Request → Backend → Backend × Reply
  | .create => ProductController.createProduct env
  | .update => ProductController.updateProduct env
  | .transfer => ProductController.transferProduct env
  | .addCertification => ProductController.addCertification env
  | .addEthicalScore => ProductController.addEthicalScore rt env

/-- The message of the `ValidationError` with which the service of a domain
operation replaces every error. -/
def DomainOp.failureMessage : DomainOp → String
  | .create => "Failed to create product"
  | .update => "Failed to update product"
  | .transfer => "Failed to transfer product"
  | .addCertification => "Failed to add certification"
  | .addEthicalScore => "Failed to add ethical score"

/-- Whether the call is a write to the store. -/
def Effect.isStore : Effect → Bool
  | .save .. => true
  | _ => false

/-- Whether the call goes to the permissioned ledger. -/
def Effect.isPermissioned : Effect → Bool
  | .connect .. => true
  | .submit .. => true
  | _ => false

/-- Whether the call goes to the public ledger. -/
def Effect.isPublic : Effect → Bool
  | .accounts .. => true
  | .send .. => true
  | _ => false

/-- Whether the call succeeded. -/
def Effect.succeeded : Effect → Bool
  | .save _ _ ok => ok
  | .connect ok => ok
  | .submit _ _ ok => ok
  | .accounts ok => ok
  | .send _ _ ok => ok

/-- Whether the call is a transaction the permissioned ledger accepted. -/
def Effect.isCommit : Effect → Bool
  | .submit _ _ ok => ok
  | _ => false

/-- The calls made between the state `b` and the later state `b'`. -/
def effectsSince (b b' : Backend) : List Effect :=
  b'.log.drop b.log.length

/-- The first call, if any, is a write to the store, and when that write fails
no call follows it. -/
def storeFirst : List Effect → Bool
  | [] => true
  | e :: rest => e.isStore && (e.succeeded || rest.isEmpty)

/-- Every call to the public ledger comes after a transaction the permissioned
ledger accepted; `committed` tells whether one was seen already. -/
def publicAfterCommit (committed : Bool) : List Effect → Bool
  | [] => true
  | e :: rest =>
    (!e.isPublic || committed) && publicAfterCommit (committed || e.isCommit) rest

/-- When a call to the permissioned ledger failed, the public ledger was not
called at all. -/
def failedPermissionedStops (es : List Effect) : Bool :=
  !(es.any fun e => e.isPermissioned && !e.succeeded) || es.all fun e => !e.isPublic

/-- The store after the writes of a log that succeeded, in their order. -/
def replay (db : SupplyChain.ProductService.Collection) :
    List Effect → SupplyChain.ProductService.Collection
  | [] => db
  | .save id doc true :: rest => replay (fun k => if k = id then some doc else db k) rest
  | _ :: rest => replay db rest

/-- The reply is a PartialCommit in the words of the spec: a result that
carries the operation, its payload, succeededLedger 'permissioned',
failedLedger 'public' and the underlying error.  An error passed to `next` is
`new Error(message)` and carries a message only. -/
def CarriesPartialCommit : Reply → Prop
  | .json _ (.obj body) =>
    (getField body "operation").isSome ∧ (getField body "payload").isSome ∧
    getField body "succeededLedger" = some (.str "permissioned") ∧
    getField body "failedLedger" = some (.str "public") ∧
    (getField body "underlyingError").isSome
  | _ => False

end Coordinator

namespace Coordinator

/-- How far a domain operation has come, read off the calls it has made:
nothing yet; the store written; a transaction accepted by the permissioned
ledger; the public ledger called; the first store write refused; a `send` of
one of the three defined public-ledger methods failed; any other call failed. -/
inductive Phase where
  | start : Phase
  | stored : Phase
  | committed : Phase
  | published : Phase
  | unsaved : Phase
  | refused : Phase
  | stopped : Phase
  deriving DecidableEq

/-- The contract methods that `blockchain.service.js` sends to the public
ledger. -/
def definedSends : List String := ["createProduct", "transferProduct", "createAssessment"]

/-- The phase after one more call, `none` when the call is out of order:
a ledger call before the store was written, a public-ledger call before the
permissioned ledger accepted a transaction, a permissioned-ledger call after a
public-ledger call, or any call after a failure. -/
def Phase.step : Phase → Effect → Option Phase
  | .start, .save _ _ ok => some (if ok then .stored else .unsaved)
  | .stored, .connect ok => some (if ok then .stored else .stopped)
  | .stored, .submit _ _ ok => some (if ok then .committed else .stopped)
  | .committed, .connect ok => some (if ok then .committed else .stopped)
  | .committed, .submit _ _ ok => some (if ok then .committed else .stopped)
  | .committed, .accounts ok => some (if ok then .published else .stopped)
  | .committed, .send m _ ok =>
    some (if ok then .published else if m ∈ definedSends then .refused else .stopped)
  | .published, .accounts ok => some (if ok then .published else .stopped)
  | .published, .send m _ ok =>
    some (if ok then .published else if m ∈ definedSends then .refused else .stopped)
  | .published, .save _ _ ok => some (if ok then .published else .stopped)
  | _, _ => none

/-- The phase after a sequence of calls, `none` when one is out of order. -/
def Phase.run : Phase → List Effect → Option Phase
  | p, [] => some p
  | p, e :: rest =>
    match p.step e with
    | some q => q.run rest
    | none => none

/-- The state `b` is reached from `b₀` by calls that are in order and lead to
the phase `p`, and its store is the store of `b₀` with the accepted writes
applied. -/
def Reached (b₀ b : Backend) (p : Phase) : Prop :=
  ∃ new, b.log = b₀.log ++ new ∧ Phase.start.run new = some p ∧ b.db = replay b₀.db new

/-- From the phase `p` the computation `m` makes calls in order only; when it
resolves the phase is `q`, and when it throws `e` the phase and the error
satisfy `Err`. -/
def Step {α : Type} (Err : Phase → String → Prop) (p : Phase) (m : Run α) (q : Phase) : Prop :=
  ∀ b₀ b, Reached b₀ b p →
    match (m b).2 with
    | .ok _ => Reached b₀ (m b).1 q
    | .error e => ∃ q', Reached b₀ (m b).1 q' ∧ Err q' e

/-- The error condition inside the `try` block of a service: no `send` to the
public ledger has failed. -/
def ErrInside (q : Phase) (_ : String) : Prop := q ≠ .refused

/-- The error condition of a handler whose service throws `msg`: when the
first store write was refused the error is `msg`, and when a `send` to the
public ledger failed it is 'Ethereum transaction failed'. -/
def ErrOf (msg : String) (q : Phase) (e : String) : Prop :=
  (q = .unsaved → e = msg) ∧ (q = .refused → e = "Ethereum transaction failed")

/-- The error condition holds in every phase in which neither the first store
write nor a `send` has failed. -/
def Lax (Err : Phase → String → Prop) : Prop :=
  ∀ q e, q ≠ .unsaved → q ≠ .refused → Err q e

end Coordinator

namespace Coordinator

/-- Whether the call is a `send` of one of the three defined public-ledger
methods that failed. -/
def Effect.isRefusedSend : Effect → Bool
  | .send m _ ok => !ok && decide (m ∈ definedSends)
  | _ => false

end Coordinator

namespace Coordinator

/-- No call to the permissioned ledger comes after a call to the public
ledger; `seenPublic` tells whether a public-ledger call was seen already. -/
def permissionedBeforePublic (seenPublic : Bool) : List Effect → Bool
  | [] => true
  | e :: rest =>
    (!e.isPermissioned || !seenPublic) && permissionedBeforePublic (seenPublic || e.isPublic) rest

/-- A store that accepts every document, a permissioned ledger that accepts
every transaction, and a public ledger on which every `send` throws. -/
def refusingPublicLedger : Env where
  newId _ := "P7"
  saveError _ _ := none
  connects _ := true
  endorses _ _ _ := true
  account _ := .ok (some (.str "0xabc"))
  sends _ _ _ := none
  undefinedMethod _ _ _ := .error "TypeError: not a function"

/-- A store in which nothing is stored and to which no call was made. -/
def emptyBackend : Backend where
  db := fun _ => none
  log := []

/-- A store that holds `storedDoc` under "P1". -/
def stockedBackend : Backend where
  db := fun k => if k = "P1" then some storedDoc else none
  log := []

/-- A request to create a product. -/
def createRequest : SupplyChain.ProductController.Request where
  params := some (.obj [])
  body := some (.obj [("name", .str "Widget"), ("manufacturer", .str "Acme"),
    ("manufacturingDate", .str "2024-01-01"), ("batchNumber", .str "B-1")])
  user := some (.obj [("id", .str "U1")])

/-- A request to add an ethical score to the product "P1". -/
def scoreRequest : SupplyChain.ProductController.Request where
  params := some (.obj [("productId", .str "P1")])
  body := some (.obj [("scoreCategory", .str "labour"), ("score", .num 80),
    ("assessmentDate", .str "2024-02-01")])
  user := some (.obj [("id", .str "U1")])

end Coordinator

/-! ## Middlewares: `authorize` and `rateLimiter`
`backend/src/api/middlewares/auth.middleware.js`,
`backend/src/api/routes/product.routes.js` -/

namespace AuthMiddleware

open SupplyChain.ProductController (Request)

/-- What a middleware does with the request: `next()`, or `next(error)` with
the message of the `AuthorizationError`. -/
inductive Verdict where
  | proceed : Verdict
  | reject (message : String) : Verdict
  deriving DecidableEq

/-- The comparison SameValueZero made by `includes`, between an element `x` of
the array `roles`, which is built when the route is set up, and a value `v` read
from the request: an array or an object is the same value only as itself, so it
is never the same as a value of the request. -/
def sameValueZero (x : Json) (v : Option Json) : Bool :=
  match x, v with
  | .null, some .null => true
  | .bool a, some (.bool b) => decide (a = b)
  | .num a, some (.num b) => decide (a = b)
  | .str a, some (.str b) => decide (a = b)
  | _, _ => false

/-- The call `roles.includes(v)`. -/
def includes (roles : List Json) (v : Option Json) : Bool :=
  roles.any fun x => sameValueZero x v

/-- The middleware returned by `authorize(...roles)`, applied to a request; the
error is the `TypeError` thrown when `req.user` is `undefined` or `null`. -/
def authorize (roles : List Json) (req : Request) : Except String Verdict :=
  match getProp req.user "role" with
  | .error e => .error e
  | .ok role =>
    if !includes roles role then
      .ok (.reject "You do not have permission to perform this action")
    else .ok .proceed

/-- The arguments of `authorize(['manufacturer', 'admin'])` on the route
`router.post('/', ...)` of `product.routes.js`: the rest parameter `roles` holds
one element, the array of the two names. -/
def createRouteRoles : List Json := [.arr [.str "manufacturer", .str "admin"]]

/-- The `Map` named `requests` of a rate limiter: the timestamps recorded for
each ip. -/
abbrev Requests := String → Option (List ℤ)

/-- The middleware returned by `rateLimiter(maxRequests, perMinutes)`, applied
to a request from `ip` at clock reading `now`: the Map it leaves and its
verdict. -/
def rateLimiter (maxRequests : ℕ) (perMinutes : ℚ) (requests : Requests) (ip : String)
    (now : ℤ) : Requests × Verdict :=
  let windowStart : ℚ := now - perMinutes * 60 * 1000
  -- const requestTimestamps = requests.get(ip) || [];
  let requestTimestamps := (requests ip).getD []
  let requestsInWindow := requestTimestamps.filter fun timestamp : ℤ =>
    decide (windowStart < (timestamp : ℚ))
  if maxRequests ≤ requestsInWindow.length then
    (requests, .reject "Too many requests, please try again later.")
  else
    (fun k => if k = ip then some (requestTimestamps ++ [now]) else requests k, .proceed)

/-- The requests the limiter admits out of a sequence of requests `(ip, now)`,
served in this order starting from the Map `requests`. -/
def passed (maxRequests : ℕ) (perMinutes : ℚ) :
    Requests → List (String × ℤ) → List (String × ℤ)
  | _, [] => []
  | requests, (ip, now) :: rest =>
    match rateLimiter maxRequests perMinutes requests ip now with
    | (requests', .proceed) => (ip, now) :: passed maxRequests perMinutes requests' rest
    | (requests', .reject _) => passed maxRequests perMinutes requests' rest

/-- Whether the time `x` lies in the interval `(t - perMinutes minutes, t]`. -/
def inWindow (perMinutes : ℚ) (t x : ℤ) : Bool :=
  decide ((t : ℚ) - perMinutes * 60 * 1000 < (x : ℚ) ∧ x ≤ t)

/-- The number of the requests `rs` that come from `ip` at a time in the
interval `(t - perMinutes minutes, t]`. -/
def countInWindow (perMinutes : ℚ) (ip : String) (t : ℤ) (rs : List (String × ℤ)) : ℕ :=
  (rs.filter fun r => decide (r.1 = ip) && inWindow perMinutes t r.2).length

/-- A request of a user whose role is `role`. -/
def requestOf (role : String) : Request where
  params := some (.obj [])
  body := some (.obj [])
  user := some (.obj [("id", .str "U1"), ("role", .str role)])

end AuthMiddleware

/-! ## Sequences of contract calls -/

/-- The world state after the calls `calls`, each run as one transaction at its
clock reading, in order, starting from the world state `w`. -/
def runCalls (rt : JSRuntime) (w : WorldState) : List (ℤ × ContractCall) → WorldState
  | [] => w
  | (now, call) :: rest => runCalls rt (commit (invoke (call.run rt now) w)) rest

/-- In the object `o`, every certification with status 'Expired' has an
expirationDate that is a valid date strictly earlier than `now`. -/
def ExpiredOnlyPast (rt : JSRuntime) (now : ℤ) (o : JObject) : Prop :=
  ∀ certs c, getField o "certifications" = some (.arr certs) → Json.obj c ∈ certs →
    getField c "status" = some (.str "Expired") →
    ∃ d, newDate rt (getField c "expirationDate") = some d ∧ d < now

/-- The product "P1" is created, certified by "FairTrade" with an
expirationDate 10 days before `sampleNow`, and the certification is verified. -/
def certificationCalls : List (ℤ × ContractCall) :=
  [(sampleNow, .createProduct "P1" (.str "Widget") (.str "Acme") (.str "2024-01-01")
      (.str "B-1")),
   (sampleNow + 1000, .addCertification "P1" (.str "FairTrade") (.num 1660000000000)
      (.num 1699136000000) (.str "first issue")),
   (sampleNow + 2000, .verifyCertification "P1" (.str "FairTrade"))]

/-! ## Verification requests over a sequence of calls
`blockchain/chaincode/verification/index.js` -/

/-- A call of one of the two contract functions that write a verification
request; `verificationId` of `create` is the value of
`crypto.randomBytes(16).toString('hex')` in that call. -/
inductive RequestCall where
  | create (verificationId : String) (productId requesterId requestType additionalInfo : Json)
  | process (verificationId : String) (verifierId decision comments : Json)

/-- The world state together with a record of the calls made: the ids of the
requests created, latest first, and for each key the number of
`processVerificationRequest` calls on it that returned. -/
structure Audit where
  world : WorldState
  created : List String
  processed : String → ℕ

/-- Run one call as a transaction and record it. -/
def Audit.step (rt : JSRuntime) (a : Audit) (now : ℤ) : RequestCall → Audit
  | .create verificationId productId requesterId requestType additionalInfo =>
    { world := commit (invoke (createVerificationRequest rt now verificationId productId
        requesterId requestType additionalInfo) a.world),
      created := verificationId :: a.created,
      processed := a.processed }
  | .process verificationId verifierId decision comments =>
    match (invoke (processVerificationRequest rt now verificationId verifierId decision
        comments) a.world).2 with
    | .ok _ =>
      { world := commit (invoke (processVerificationRequest rt now verificationId verifierId
          decision comments) a.world),
        created := a.created,
        processed := fun k => if k = verificationId then a.processed k + 1 else a.processed k }
    | .error _ => a

/-- Run a sequence of calls, each at its clock reading, in order. -/
def Audit.run (rt : JSRuntime) : Audit → List (ℤ × RequestCall) → Audit
  | a, [] => a
  | a, (now, call) :: rest => Audit.run rt (a.step rt now call) rest

/-- The random id of a `create` call is new: it names no key of the world
state, and it is not the productId the caller passed. -/
def RequestCall.fresh (w : WorldState) : RequestCall → Bool
  | .create verificationId productId _ _ _ =>
    (w verificationId).isNone &&
      match productId with
      | .str p => decide (p ≠ verificationId)
      | _ => true
  | .process .. => true

/-- Every `create` call of the sequence has a new id at the time it is made. -/
def Audit.freshRun (rt : JSRuntime) : Audit → List (ℤ × RequestCall) → Bool
  | _, [] => true
  | a, (now, call) :: rest => call.fresh a.world && Audit.freshRun rt (a.step rt now call) rest

/-- The verificationHistory of `request` is not empty, its first entry has
status 'Pending', the status of its last entry is the status of the request,
and it has `1 + n` entries. -/
def HistoryMatches (request : JObject) (n : ℕ) : Prop :=
  ∃ first rest last,
    getField request "verificationHistory" = some (.arr (first :: rest)) ∧
    getProp (some first) "status" = .ok (some (.str "Pending")) ∧
    (first :: rest).getLast? = some last ∧
    getProp (some last) "status" = .ok (getField request "status") ∧
    (first :: rest).length = 1 + n

/-- The request "V1" for the product "P1" is created, verified and then
rejected; a last call names a request that does not exist. -/
def requestCalls : List (ℤ × RequestCall) :=
  [(sampleNow, .create "V1" (.str "P1") (.str "U7") (.str "authenticity")
      (.str "first check")),
   (sampleNow + 1000, .process "V1" (.str "U9") (.str "Verified") (.str "seal intact")),
   (sampleNow + 2000, .process "V1" (.str "U9") (.str "Rejected") (.str "re-check")),
   (sampleNow + 3000, .process "V9" (.str "U9") (.str "Verified") (.str "unknown"))]

/-- The record agrees with the world state: a key that holds nothing was never
processed, and every request created is stored with a history that matches its
status and the number of times it was processed, under a key other than its
productId. -/
def Audit.Sound (a : Audit) : Prop :=
  (∀ k, a.world k = none → a.processed k = 0) ∧
  ∀ v ∈ a.created, ∃ request, a.world v = some request ∧
    HistoryMatches request (a.processed v) ∧ getField request "productId" ≠ some (.str v)

/-! ## Sample requests to the domain operations -/

namespace Coordinator

/-- A store and two ledgers that accept every call; the receipt of a `send`
carries the events the service reads. -/
def acceptingLedgers : Env where
  newId _ := "P7"
  saveError _ _ := none
  connects _ := true
  endorses _ _ _ := true
  account _ := .ok (some (.str "0xabc"))
  sends _ _ _ := some (some (.obj [("events", .obj
    [("ProductCreated", .obj [("returnValues", .obj [("productId", .str "7")])]),
     ("AssessmentCreated", .obj [("returnValues", .obj [("assessmentId", .str "9")])])])]))
  undefinedMethod _ _ _ := .error "TypeError: not a function"

/-- The document `storedDoc` with the id the public ledger gave the product. -/
def listedDoc : JObject := setField storedDoc "ethProductId" (.str "7")

/-- A store that holds `listedDoc` under "P1". -/
def listedBackend : Backend where
  db := fun k => if k = "P1" then some listedDoc else none
  log := []

/-- A request to transfer the product "P1" to "U2" at "Lagos". -/
def transferRequest : SupplyChain.ProductController.Request where
  params := some (.obj [("productId", .str "P1")])
  body := some (.obj [("newOwner", .str "U2"), ("location", .str "Lagos")])
  user := some (.obj [("id", .str "U1")])

/-- An update of the name that carries the expected version 1. -/
def renameTo (name : String) : Option Json :=
  some (.obj [("name", .str name), ("expectedVersion", .num 1)])

/-- The document an update stores: the stored one with the fields of
`updateData` set, as in `ProductService.updateProduct`. -/
def updated (stored : JObject) (updateData : Option Json) : JObject :=
  (ProductService.updateFields updateData).foldl (fun o kv => setField o kv.1 kv.2) stored

end Coordinator

/-- The number written by a list of decimal digits, continuing from `acc`;
`none` when a character is not a digit. -/
def decimalValue (acc : ℕ) : List Char → Option ℕ
  | [] => some acc
  | c :: rest => if c.isDigit then decimalValue (acc * 10 + (c.toNat - 48)) rest else none

/-- The runtime `sampleRuntime` with `Number(s)` computed digit by digit: a
string of decimal digits converts to the number it writes (leading zeros
allowed, the empty string to 0) and any other string to `NaN`. -/
def decimalRuntime : JSRuntime :=
  { sampleRuntime with
    stringToNumber := fun s =>
      match decimalValue 0 s.toList with
      | some n => .fin n
      | none => .nan }

/-- Two scores, 80 and 90, submitted for the product "P1" as the decimal
strings the coordinator's `recordEthicalScore` passes (`score.toString()`). -/
def stringScoreCalls : List (ℤ × ContractCall) :=
  [(sampleNow, .addEthicalScore "P1" (.str "labour") (.str "80") (.str "2024-02-01")
      (.str "U1")),
   (sampleNow + 1000, .addEthicalScore "P1" (.str "environment") (.str "90")
      (.str "2024-02-02") (.str "U1"))]

namespace Coordinator

/-- The arguments with which `recordEthicalScore` submits the score of
`scoreRequest`. -/
def scoreArgs : List Arg :=
  [.val (some (.str "P1")), .val (some (.str "labour")), .derived "toString" (some (.num 80)),
   .val (some (.str "2024-02-01")), .val (some (.str "U1"))]

/-- The contract call that a submission with the arguments `scoreArgs` makes:
the score arrives as the string "80". -/
def scoreSubmission : ContractCall :=
  .addEthicalScore "P1" (.str "labour") (.str "80") (.str "2024-02-01") (.str "U1")

end Coordinator

/-! ## Theorems -/

/-! ### Rule evaluation -/

theorem getField_cons_same (k : String) (v : Json) (o : JObject) :
    getField ((k, v) :: o) k = some v := by
  simp [getField]

theorem applyThresholdRule_num (rt : JSRuntime) (product : JObject) (parameters : Option Json)
    (a op : String) (v t : ℚ)
    (hA : getProp parameters "attribute" = .ok (some (.str a)))
    (hT : getProp parameters "threshold" = .ok (some (.num t)))
    (hO : getProp parameters "operator" = .ok (some (.str op)))
    (hv : getField product a = some (.num v)) :
    applyThresholdRule rt product parameters =
      (let details := a ++ " " ++ op ++ " " ++ rt.numberToString (.fin t)
       if op = ">" then .ok ⟨if t < v then "Verified" else "Failed", details⟩
       else if op = "<" then .ok ⟨if v < t then "Verified" else "Failed", details⟩
       else if op = ">=" then .ok ⟨if t ≤ v then "Verified" else "Failed", details⟩
       else if op = "<=" then .ok ⟨if v ≤ t then "Verified" else "Failed", details⟩
       else if op = "==" then .ok ⟨if v = t then "Verified" else "Failed", details⟩
       else .error ("Unsupported operator: " ++ op)) := by
  simp only [applyThresholdRule, hA, hT, hO, jsToString, toPrimitive, Prim.toStr, hv]
  split <;> simp_all [jsGt, jsLt, jsGe, jsLe, jsLooseEq, toPrimitive, Prim.lt?, Prim.toNumber,
    JSNum.lt?, isObject, Prim.looseEq, JSNum.eq]

theorem decidesBy_ite (P : Prop) [Decidable P] (d : String) :
    DecidesBy (.ok ⟨if P then "Verified" else "Failed", d⟩) P := by
  refine ⟨_, rfl, ?_, ?_⟩ <;> by_cases h : P <;> simp [h]

/-- C1: when `product[a]` is the number `v` and the threshold is the number `t`,
`applyThresholdRule` returns status 'Verified' if `v op t` holds and 'Failed'
otherwise, for each of the five operators `>`, `<`, `>=`, `<=`, `==`. -/
theorem applyThresholdRule_decides (rt : JSRuntime) (product : JObject)
    (parameters : Option Json) (a : String) (v t : ℚ)
    (hA : getProp parameters "attribute" = .ok (some (.str a)))
    (hT : getProp parameters "threshold" = .ok (some (.num t)))
    (hv : getField product a = some (.num v)) :
    (getProp parameters "operator" = .ok (some (.str ">")) →
        DecidesBy (applyThresholdRule rt product parameters) (v > t)) ∧
    (getProp parameters "operator" = .ok (some (.str "<")) →
        DecidesBy (applyThresholdRule rt product parameters) (v < t)) ∧
    (getProp parameters "operator" = .ok (some (.str ">=")) →
        DecidesBy (applyThresholdRule rt product parameters) (v ≥ t)) ∧
    (getProp parameters "operator" = .ok (some (.str "<=")) →
        DecidesBy (applyThresholdRule rt product parameters) (v ≤ t)) ∧
    (getProp parameters "operator" = .ok (some (.str "==")) →
        DecidesBy (applyThresholdRule rt product parameters) (v = t)) := by
  refine ⟨fun hO => ?_, fun hO => ?_, fun hO => ?_, fun hO => ?_, fun hO => ?_⟩ <;>
    rw [applyThresholdRule_num rt product parameters a _ v t hA hT hO hv] <;>
    simp only [String.reduceEq, if_true, if_false, reduceIte] <;>
    exact decidesBy_ite _ _

/-- The threshold rule `score > 40` yields Verified on the value 50 and Failed
on the value 30. -/
theorem applyThresholdRule_decides_witness :
    (getProp scoreAbove40 "attribute" = .ok (some (.str "score")) ∧
      getProp scoreAbove40 "threshold" = .ok (some (.num 40)) ∧
      getField [("score", Json.num 50)] "score" = some (.num 50) ∧
      getField [("score", Json.num 30)] "score" = some (.num 30)) ∧
    DecidesBy (applyThresholdRule sampleRuntime [("score", .num 50)] scoreAbove40)
      ((50 : ℚ) > 40) ∧
    DecidesBy (applyThresholdRule sampleRuntime [("score", .num 30)] scoreAbove40)
      ((30 : ℚ) > 40) :=
  ⟨⟨rfl, rfl, rfl, rfl⟩,
   (applyThresholdRule_decides sampleRuntime [("score", .num 50)] scoreAbove40 "score" 50 40
      rfl rfl rfl).1 rfl,
   (applyThresholdRule_decides sampleRuntime [("score", .num 30)] scoreAbove40 "score" 30 40
      rfl rfl rfl).1 rfl⟩

theorem applyThresholdRule_score_50 (rt : JSRuntime) :
    (applyThresholdRule rt [("score", .num 50)] scoreAbove40).map (fun r => r.status)
      = .ok "Verified" := by
  rw [applyThresholdRule_num rt [("score", .num 50)] scoreAbove40 "score" ">" 50 40
    rfl rfl rfl rfl]
  norm_num [Except.map]

theorem applyThresholdRule_score_30 (rt : JSRuntime) :
    (applyThresholdRule rt [("score", .num 30)] scoreAbove40).map (fun r => r.status)
      = .ok "Failed" := by
  rw [applyThresholdRule_num rt [("score", .num 30)] scoreAbove40 "score" ">" 30 40
    rfl rfl rfl rfl]
  norm_num [Except.map]

theorem applyTimeWindowRule_num (rt : JSRuntime) (now : ℤ) (product : JObject)
    (parameters : Option Json) (a : String) (d : ℤ) (m : ℚ)
    (hA : getProp parameters "attribute" = .ok (some (.str a)))
    (hM : getProp parameters "maxAge" = .ok (some (.num m)))
    (hd : newDate rt (getField product a) = some d) :
    applyTimeWindowRule rt now product parameters =
      .ok ⟨if ((now : ℚ) - d) / 86400000 ≤ m then "Verified" else "Failed",
        a ++ " age: " ++ rt.toFixed2 (.fin (((now : ℚ) - d) / 86400000))
          ++ " days, Max allowed: " ++ rt.numberToString (.fin m) ++ " days"⟩ := by
  have h0 : msPerDay = 86400000 := by norm_num [msPerDay]
  simp [applyTimeWindowRule, hA, hM, jsToString, toPrimitive, Prim.toStr, hd, dateToNumber,
    JSNum.sub, JSNum.div, h0, numLe, Prim.lt?, Prim.toNumber, JSNum.lt?]

/-- C2: when `product[a]` is a valid date `d` and `maxAge` is the number `m`,
`applyTimeWindowRule` at time `now` returns 'Verified' if and only if the age
`(now - d) / 86 400 000` in days is at most `m` (the boundary included), and
'Failed' otherwise. -/
theorem applyTimeWindowRule_decides (rt : JSRuntime) (now : ℤ) (product : JObject)
    (parameters : Option Json) (a : String) (d : ℤ) (m : ℚ)
    (hA : getProp parameters "attribute" = .ok (some (.str a)))
    (hM : getProp parameters "maxAge" = .ok (some (.num m)))
    (hd : newDate rt (getField product a) = some d) :
    DecidesBy (applyTimeWindowRule rt now product parameters)
      (((now : ℚ) - d) / 86400000 ≤ m) := by
  rw [applyTimeWindowRule_num rt now product parameters a d m hA hM hd]
  exact decidesBy_ite _ _

theorem newDate_int (rt : JSRuntime) (t : ℤ) (h : |t| ≤ 8640000000000000) :
    newDate rt (some (.num t)) = some t := by
  have h' : |(t : ℚ)| ≤ 8640000000000000 := by exact_mod_cast h
  simp only [newDate, if_pos h', Int.floor_intCast, Int.ceil_intCast, ite_self]

theorem newDate_certifiedTenDaysAgo (rt : JSRuntime) :
    newDate rt (getField certifiedTenDaysAgo "certificationDate") = some 1699136000000 := by
  have h := newDate_int rt 1699136000000 (by norm_num [abs_le])
  simpa [certifiedTenDaysAgo, getField] using h

/-- A certificationDate 10 days in the past fails the rule with maxAge 5. -/
theorem applyTimeWindowRule_decides_witness :
    (getProp (certAgeAtMost 5) "attribute" = .ok (some (.str "certificationDate")) ∧
      getProp (certAgeAtMost 5) "maxAge" = .ok (some (.num 5)) ∧
      newDate sampleRuntime (getField certifiedTenDaysAgo "certificationDate")
        = some 1699136000000) ∧
    DecidesBy (applyTimeWindowRule sampleRuntime sampleNow certifiedTenDaysAgo (certAgeAtMost 5))
      (((sampleNow : ℚ) - (1699136000000 : ℤ)) / 86400000 ≤ 5) :=
  ⟨⟨rfl, rfl, newDate_certifiedTenDaysAgo sampleRuntime⟩,
   applyTimeWindowRule_decides sampleRuntime sampleNow certifiedTenDaysAgo (certAgeAtMost 5)
     "certificationDate" 1699136000000 5 rfl rfl (newDate_certifiedTenDaysAgo sampleRuntime)⟩

theorem applyTimeWindowRule_tenDays (rt : JSRuntime) (m : ℚ) :
    (applyTimeWindowRule rt sampleNow certifiedTenDaysAgo (certAgeAtMost m)).map
      (fun r => r.status) = .ok (if 10 ≤ m then "Verified" else "Failed") := by
  rw [applyTimeWindowRule_num rt sampleNow certifiedTenDaysAgo (certAgeAtMost m)
    "certificationDate" 1699136000000 m rfl rfl (newDate_certifiedTenDaysAgo rt)]
  have h : ((sampleNow : ℚ) - (1699136000000 : ℤ)) / 86400000 = 10 := by
    norm_num [sampleNow]
  rw [h]
  rfl

theorem applyTimeWindowRule_tenDays_maxAge5 (rt : JSRuntime) :
    (applyTimeWindowRule rt sampleNow certifiedTenDaysAgo (certAgeAtMost 5)).map
      (fun r => r.status) = .ok "Failed" := by
  rw [applyTimeWindowRule_tenDays]; norm_num

theorem applyTimeWindowRule_tenDays_maxAge30 (rt : JSRuntime) :
    (applyTimeWindowRule rt sampleNow certifiedTenDaysAgo (certAgeAtMost 30)).map
      (fun r => r.status) = .ok "Verified" := by
  rw [applyTimeWindowRule_tenDays]; norm_num

theorem applyTimeWindowRule_tenDays_maxAge10 (rt : JSRuntime) :
    (applyTimeWindowRule rt sampleNow certifiedTenDaysAgo (certAgeAtMost 10)).map
      (fun r => r.status) = .ok "Verified" := by
  rw [applyTimeWindowRule_tenDays]; norm_num

/-! ### Objects and the world state -/

theorem getField_setField_same (o : JObject) (k : String) (v : Json) :
    getField (setField o k v) k = some v := by
  induction o with
  | nil => simp [setField, getField]
  | cons kv rest ih =>
    obtain ⟨k', v'⟩ := kv
    by_cases h : k' = k <;> simp [setField, getField, h, ih]

theorem getField_setField_ne (o : JObject) (k k' : String) (v : Json) (h : k ≠ k') :
    getField (setField o k v) k' = getField o k' := by
  induction o with
  | nil => simp [setField, getField, h]
  | cons kv rest ih =>
    obtain ⟨k₀, v₀⟩ := kv
    by_cases h₀ : k₀ = k
    · subst h₀
      simp [setField, getField, h]
    · simp [setField, getField, h₀, ih]

theorem applyWrites_single (w : WorldState) (k : String) (v : JObject) (k' : String) :
    applyWrites w [(k, v)] k' = if k' = k then some v else w k' := by
  simp [applyWrites]

/-! ### Product-tracking contract -/

/-- C10: after `createProduct(id, name, manufacturer, manufacturingDate,
batchNumber)` the transaction has returned, and the product stored under `id`
has a trackingHistory of exactly one entry, whose owner is the manufacturer and
whose timestamp is the creation time, and currentOwner is the manufacturer. -/
theorem createProduct_initial_history (rt : JSRuntime) (now : ℤ) (id : String)
    (name manufacturer manufacturingDate batchNumber : Json) (w : WorldState) :
    (invoke (createProduct rt now id name manufacturer manufacturingDate batchNumber) w).2
      = .ok none ∧
    ∃ product entry,
      commit (invoke (createProduct rt now id name manufacturer manufacturingDate batchNumber) w)
        id = some product ∧
      getField product "trackingHistory" = some (.arr [.obj entry]) ∧
      getField entry "owner" = some manufacturer ∧
      getField entry "timestamp" = some (.str (rt.toISOString now)) ∧
      getField product "currentOwner" = some manufacturer := by
  refine ⟨rfl, newProduct rt now id name manufacturer manufacturingDate batchNumber,
    trackingEntry manufacturer (.str (rt.toISOString now)) (.str "Manufacturing Plant"),
    ?_, ?_, ?_, ?_, ?_⟩
  · simp [invoke, createProduct, commit, Stub.putState, applyWrites]
  · simp [getField, newProduct]
  · simp [getField, trackingEntry]
  · simp [getField, trackingEntry]
  · simp [getField, newProduct]

theorem transferProduct_eq (rt : JSRuntime) (now : ℤ) (productId : String)
    (newOwner location : Json) (w : WorldState) (product : JObject) (history : List Json)
    (hp : w productId = some product)
    (hh : getField product "trackingHistory" = some (.arr history)) :
    invoke (transferProduct rt now productId newOwner location) w =
      (⟨w, [(productId, setField (setField product "currentOwner" newOwner) "trackingHistory"
          (.arr (history ++ [.obj (trackingEntry newOwner (.str (rt.toISOString now))
            location)])))]⟩,
        .ok none) := by
  have h : getField (setField product "currentOwner" newOwner) "trackingHistory"
      = some (.arr history) := by
    rw [getField_setField_ne _ _ _ _ (by decide), hh]
  simp [invoke, transferProduct, Stub.getState, hp, h, push, Stub.putState]

/-- C7: for an existing product, `transferProduct(productId, newOwner, location)`
returns and stores a product whose trackingHistory is the previous
trackingHistory followed by exactly one entry with owner `newOwner` and the
given location, and whose currentOwner is `newOwner`. -/
theorem transferProduct_appends (rt : JSRuntime) (now : ℤ) (productId : String)
    (newOwner location : Json) (w : WorldState) (product : JObject) (history : List Json)
    (hp : w productId = some product)
    (hh : getField product "trackingHistory" = some (.arr history)) :
    (invoke (transferProduct rt now productId newOwner location) w).2 = .ok none ∧
    ∃ product' entry,
      commit (invoke (transferProduct rt now productId newOwner location) w) productId
        = some product' ∧
      getField product' "trackingHistory" = some (.arr (history ++ [.obj entry])) ∧
      getField entry "owner" = some newOwner ∧
      getField entry "location" = some location ∧
      getField entry "timestamp" = some (.str (rt.toISOString now)) ∧
      getField product' "currentOwner" = some newOwner := by
  rw [transferProduct_eq rt now productId newOwner location w product history hp hh]
  refine ⟨rfl, setField (setField product "currentOwner" newOwner) "trackingHistory"
      (.arr (history ++ [.obj (trackingEntry newOwner (.str (rt.toISOString now)) location)])),
    trackingEntry newOwner (.str (rt.toISOString now)) location, ?_, ?_, ?_, ?_, ?_, ?_⟩
  · simp only [commit, applyWrites_single, if_true]
  · rw [getField_setField_same]
  · simp [getField, trackingEntry]
  · simp [getField, trackingEntry]
  · simp [getField, trackingEntry]
  · rw [getField_setField_ne _ _ _ _ (by decide), getField_setField_same]

/-! ### Ethical-sourcing contract: scores -/

theorem sumScores_num (rt : JSRuntime) (xs : List Json) (qs : List ℚ) (a : ℚ)
    (h : List.Forall₂ HasScore xs qs) :
    sumScores rt (.num (.fin a)) xs = .ok (.num (.fin (a + qs.sum))) := by
  induction h generalizing a with
  | nil => simp [sumScores]
  | cons hx _ ih =>
    simp only [HasScore] at hx
    simp only [sumScores, hx, jsAdd, toPrimitive, Prim.toNumber, JSNum.add, List.sum_cons]
    rw [ih, add_assoc]

theorem hasScore_entry (scoreCategory assessmentDate assessor : Json) (q : ℚ) :
    HasScore (ethicalScoreEntry scoreCategory (.num q) assessmentDate assessor) q := by
  simp [HasScore, ethicalScoreEntry, getProp, getField]

theorem averageOf_num (rt : JSRuntime) (total : ℚ) (n : Nat) (hn : n ≠ 0) :
    jsonOfNum (averageOf rt (.num (.fin total)) n) = .num (total / n) := by
  have : (n : ℚ) ≠ 0 := by exact_mod_cast hn
  simp [averageOf, Prim.toNumber, JSNum.div, this, jsonOfNum]

theorem addEthicalScore_eq (rt : JSRuntime) (productId : String)
    (scoreCategory score assessmentDate assessor : Json) (w : WorldState)
    (product : JObject) (xs : List Json) (total : Prim)
    (hp : w productId = some product)
    (hx : getField (if truthy (getField product "ethicalScores") then product
      else setField product "ethicalScores" (.arr [])) "ethicalScores" = some (.arr xs))
    (hsum : sumScores rt (.num (.fin 0))
      (xs ++ [ethicalScoreEntry scoreCategory score assessmentDate assessor]) = .ok total) :
    invoke (addEthicalScore rt productId scoreCategory score assessmentDate assessor) w =
      (⟨w, [(productId, setField (setField (if truthy (getField product "ethicalScores")
          then product else setField product "ethicalScores" (.arr [])) "ethicalScores"
            (.arr (xs ++ [ethicalScoreEntry scoreCategory score assessmentDate assessor])))
          "overallEthicalScore" (jsonOfNum (averageOf rt total
            (xs ++ [ethicalScoreEntry scoreCategory score assessmentDate assessor]).length)))]⟩,
        .ok none) := by
  simp only [invoke, addEthicalScore, Stub.getState, hp]
  rw [hx]
  simp only [push, hsum, Stub.putState, List.nil_append]

theorem ethicalScores_defaulted (product : JObject) (xs : List Json)
    (hxs : getField product "ethicalScores" = some (.arr xs) ∨
      (truthy (getField product "ethicalScores") = false ∧ xs = [])) :
    getField (if truthy (getField product "ethicalScores") then product
      else setField product "ethicalScores" (.arr [])) "ethicalScores" = some (.arr xs) := by
  rcases hxs with hx | ⟨hx, rfl⟩
  · have ht : truthy (getField product "ethicalScores") = true := by rw [hx]; rfl
    rw [if_pos ht, hx]
  · rw [if_neg (by simp [hx]), getField_setField_same]

/-- C5: for an existing product whose recorded scores are numbers, the
contract's `addEthicalScore` with a numeric score returns and stores the product
with ethicalScores equal to the previous list (empty when the product had none)
followed by exactly one new entry, and overallEthicalScore equal to the
arithmetic mean of the scores of all entries of the new list. -/
theorem addEthicalScore_mean (rt : JSRuntime) (productId : String)
    (scoreCategory assessmentDate assessor : Json) (q : ℚ) (w : WorldState)
    (product : JObject) (xs : List Json) (qs : List ℚ)
    (hp : w productId = some product)
    (hxs : getField product "ethicalScores" = some (.arr xs) ∨
      (truthy (getField product "ethicalScores") = false ∧ xs = []))
    (hqs : List.Forall₂ HasScore xs qs) :
    (invoke (addEthicalScore rt productId scoreCategory (.num q) assessmentDate assessor) w).2
      = .ok none ∧
    ∃ product',
      commit (invoke (addEthicalScore rt productId scoreCategory (.num q) assessmentDate
        assessor) w) productId = some product' ∧
      getField product' "ethicalScores" = some (.arr (xs ++
        [ethicalScoreEntry scoreCategory (.num q) assessmentDate assessor])) ∧
      getField product' "overallEthicalScore" =
        some (.num ((qs ++ [q]).sum / ((qs ++ [q]).length : ℚ))) := by
  have hall : List.Forall₂ HasScore
      (xs ++ [ethicalScoreEntry scoreCategory (.num q) assessmentDate assessor]) (qs ++ [q]) :=
    List.rel_append hqs (List.Forall₂.cons (hasScore_entry _ _ _ q) List.Forall₂.nil)
  have hsum := sumScores_num rt _ _ 0 hall
  have hlen : (xs ++ [ethicalScoreEntry scoreCategory (.num q) assessmentDate assessor]).length
      = (qs ++ [q]).length := hall.length_eq
  have hne : (xs ++ [ethicalScoreEntry scoreCategory (.num q) assessmentDate assessor]).length
      ≠ 0 := by simp
  have havg := averageOf_num rt (0 + (qs ++ [q]).sum) _ hne
  rw [hlen, zero_add] at havg
  rw [addEthicalScore_eq rt productId scoreCategory (.num q) assessmentDate assessor w product
    xs _ hp (ethicalScores_defaulted product xs hxs) hsum]
  refine ⟨rfl, ?_⟩
  simp only [commit, applyWrites_single, if_true]
  refine ⟨_, rfl, ?_, ?_⟩
  · rw [getField_setField_ne _ _ _ _ (by decide), getField_setField_same]
  · rw [getField_setField_same, zero_add, hlen, havg]

/-- Adding a score of 90 to a product that holds one score of 80. -/
theorem addEthicalScore_mean_witness :
    (worldWith scoredProduct "P1" = some scoredProduct ∧
      List.Forall₂ HasScore
        [ethicalScoreEntry (.str "labour") (.num 80) (.str "2024-02-01") (.str "U1")] [80]) ∧
    ((invoke (addEthicalScore sampleRuntime "P1" (.str "environment") (.num 90)
        (.str "2024-03-01") (.str "U2")) (worldWith scoredProduct)).2 = .ok none ∧
      ∃ product',
        commit (invoke (addEthicalScore sampleRuntime "P1" (.str "environment") (.num 90)
          (.str "2024-03-01") (.str "U2")) (worldWith scoredProduct)) "P1" = some product' ∧
        getField product' "ethicalScores" = some (.arr
          ([ethicalScoreEntry (.str "labour") (.num 80) (.str "2024-02-01") (.str "U1")] ++
            [ethicalScoreEntry (.str "environment") (.num 90) (.str "2024-03-01") (.str "U2")])) ∧
        getField product' "overallEthicalScore" =
          some (.num (([80] ++ [90] : List ℚ).sum / (([80] ++ [90] : List ℚ).length : ℚ)))) :=
  ⟨⟨rfl, .cons (hasScore_entry _ _ _ 80) .nil⟩,
   addEthicalScore_mean sampleRuntime "P1" (.str "environment") (.str "2024-03-01") (.str "U2")
     90 (worldWith scoredProduct) scoredProduct
     [ethicalScoreEntry (.str "labour") (.num 80) (.str "2024-02-01") (.str "U1")] [80]
     rfl (Or.inl rfl) (.cons (hasScore_entry _ _ _ 80) .nil)⟩

/-- The transfer of `sampleProduct` to "Retailer" at "Lagos". -/
theorem transferProduct_appends_witness :
    (worldWith sampleProduct "P1" = some sampleProduct ∧
      getField sampleProduct "trackingHistory" = some (.arr
        [.obj (trackingEntry (.str "Acme") (.str (sampleRuntime.toISOString sampleNow))
          (.str "Manufacturing Plant"))])) ∧
    ((invoke (transferProduct sampleRuntime (sampleNow + 5000) "P1" (.str "Retailer")
        (.str "Lagos")) (worldWith sampleProduct)).2 = .ok none ∧
      ∃ product' entry,
        commit (invoke (transferProduct sampleRuntime (sampleNow + 5000) "P1" (.str "Retailer")
          (.str "Lagos")) (worldWith sampleProduct)) "P1" = some product' ∧
        getField product' "trackingHistory" = some (.arr
          ([.obj (trackingEntry (.str "Acme") (.str (sampleRuntime.toISOString sampleNow))
            (.str "Manufacturing Plant"))] ++ [.obj entry])) ∧
        getField entry "owner" = some (.str "Retailer") ∧
        getField entry "location" = some (.str "Lagos") ∧
        getField entry "timestamp" = some (.str (sampleRuntime.toISOString (sampleNow + 5000))) ∧
        getField product' "currentOwner" = some (.str "Retailer")) :=
  ⟨⟨rfl, rfl⟩,
   transferProduct_appends sampleRuntime (sampleNow + 5000) "P1" (.str "Retailer") (.str "Lagos")
     (worldWith sampleProduct) sampleProduct _ rfl rfl⟩

/-! ### Ethical-sourcing contract: certifications -/

theorem findCertification_first (body : Json) (pre : List Json) (cert : JObject)
    (post : List Json)
    (hpre : ∀ c ∈ pre, ∃ f, c = .obj f ∧ strictEq (getField f "certificationBody") body = false)
    (hm : strictEq (getField cert "certificationBody") body = true) :
    findCertification body (pre ++ .obj cert :: post) = .ok (some (pre.length, cert)) := by
  induction pre with
  | nil => simp [findCertification, hm]
  | cons c rest ih =>
    obtain ⟨f, rfl, hf⟩ := hpre c (List.mem_cons_self _ _)
    have ih' := ih (fun c hc => hpre c (List.mem_cons_of_mem _ hc))
    simp [findCertification, hf, ih']

theorem set_length_append (pre : List Json) (c x : Json) (post : List Json) :
    (pre ++ c :: post).set pre.length x = pre ++ x :: post := by
  induction pre with
  | nil => rfl
  | cons a rest ih => simp [List.set, ih]

theorem expired_iff (rt : JSRuntime) (now : ℤ) (v : Option Json) :
    (JSNum.lt? (dateToNumber (newDate rt v)) (.fin now) == some true) = true ↔
      ∃ d, newDate rt v = some d ∧ d < now := by
  cases h : newDate rt v with
  | none => simp [dateToNumber, JSNum.lt?]
  | some d => simp [dateToNumber, JSNum.lt?]

theorem verifyCertification_eq (rt : JSRuntime) (now : ℤ) (productId : String) (body : Json)
    (w : WorldState) (product : JObject) (pre : List Json) (cert : JObject) (post : List Json)
    (hp : w productId = some product)
    (hc : getField product "certifications" = some (.arr (pre ++ .obj cert :: post)))
    (hpre : ∀ c ∈ pre, ∃ f, c = .obj f ∧ strictEq (getField f "certificationBody") body = false)
    (hm : strictEq (getField cert "certificationBody") body = true) :
    invoke (verifyCertification rt now productId body) w =
      if ∃ d, newDate rt (getField cert "expirationDate") = some d ∧ d < now then
        (⟨w, [(productId, setField product "certifications"
          (.arr (pre ++ .obj (setField cert "status" (.str "Expired")) :: post)))]⟩,
          .ok expiredReport)
      else (⟨w, []⟩, .ok (validReport cert)) := by
  have hfind := findCertification_first body pre cert post hpre hm
  simp only [invoke, verifyCertification, Stub.getState, hp, hc, truthy, Bool.not_true,
    Bool.false_eq_true, if_false, hfind, expired_iff, set_length_append, Stub.putState,
    List.nil_append, expiredReport, validReport]

/-- C4, as amended: for a product whose first certification, in list order, with
the requested certificationBody is `cert`, `verifyCertification` at time `now`
reports `cert` as expired (isValid false, message 'Certification has expired',
stored status of `cert` set to 'Expired', nothing else changed) if and only if
`now` is later than its expirationDate; otherwise it returns isValid true with
`cert` and issues no write. -/
theorem verifyCertification_expired_iff (rt : JSRuntime) (now : ℤ) (productId : String)
    (body : Json) (w : WorldState) (product : JObject) (pre : List Json) (cert : JObject)
    (post : List Json)
    (hp : w productId = some product)
    (hc : getField product "certifications" = some (.arr (pre ++ .obj cert :: post)))
    (hpre : ∀ c ∈ pre, ∃ f, c = .obj f ∧ strictEq (getField f "certificationBody") body = false)
    (hm : strictEq (getField cert "certificationBody") body = true) :
    ((invoke (verifyCertification rt now productId body) w).2 = .ok expiredReport ↔
      ∃ d, newDate rt (getField cert "expirationDate") = some d ∧ d < now) ∧
    ((∃ d, newDate rt (getField cert "expirationDate") = some d ∧ d < now) →
      commit (invoke (verifyCertification rt now productId body) w) productId =
        some (setField product "certifications"
          (.arr (pre ++ .obj (setField cert "status" (.str "Expired")) :: post)))) ∧
    ((¬ ∃ d, newDate rt (getField cert "expirationDate") = some d ∧ d < now) →
      (invoke (verifyCertification rt now productId body) w).2 = .ok (validReport cert) ∧
      (invoke (verifyCertification rt now productId body) w).1.writes = []) := by
  rw [verifyCertification_eq rt now productId body w product pre cert post hp hc hpre hm]
  by_cases h : ∃ d, newDate rt (getField cert "expirationDate") = some d ∧ d < now
  · simp only [if_pos h, h, not_true_eq_false, true_implies, false_implies, and_true,
      iff_true, true_and, commit, applyWrites_single, if_true]
  · simp only [if_neg h, h, not_false_eq_true, true_implies, false_implies, and_true,
      iff_false, true_and]
    simp [expiredReport, validReport]

theorem newDate_validFirst (rt : JSRuntime) :
    newDate rt (getField validFirst "expirationDate") = some 1700000001000 := by
  have h := newDate_int rt 1700000001000 (by norm_num [abs_le])
  simpa [validFirst, getField] using h

theorem newDate_expiredSecond (rt : JSRuntime) :
    newDate rt (getField expiredSecond "expirationDate") = some 1699136000000 := by
  have h := newDate_int rt 1699136000000 (by norm_num [abs_le])
  simpa [expiredSecond, getField] using h

theorem verifyCertification_duplicate_eq :
    invoke (verifyCertification sampleRuntime sampleNow "P1" (.str "FairTrade"))
      (worldWith (certifiedProduct [.obj validFirst, .obj expiredSecond])) =
    (⟨worldWith (certifiedProduct [.obj validFirst, .obj expiredSecond]), []⟩,
      .ok (validReport validFirst)) := by
  rw [verifyCertification_eq sampleRuntime sampleNow "P1" (.str "FairTrade") _
    (certifiedProduct [.obj validFirst, .obj expiredSecond]) [] validFirst [.obj expiredSecond]
    rfl rfl (fun c hc => absurd hc (List.not_mem_nil c)) rfl]
  rw [if_neg]
  rw [newDate_validFirst]
  rintro ⟨d, hd, hlt⟩
  simp only [Option.some.injEq] at hd
  subst hd
  simp [sampleNow] at hlt

/-- C4 as stated fails for a certification that is not the first of its body:
the product holds two "FairTrade" certifications, the second one is past its
expirationDate at `sampleNow`, and `verifyCertification` neither reports it as
expired nor writes the status 'Expired'; it answers isValid true with the first
one. -/
theorem verifyCertification_later_match_not_reported :
    getField (certifiedProduct [.obj validFirst, .obj expiredSecond]) "certifications"
      = some (.arr [.obj validFirst, .obj expiredSecond]) ∧
    strictEq (getField expiredSecond "certificationBody") (.str "FairTrade") = true ∧
    newDate sampleRuntime (getField expiredSecond "expirationDate") = some 1699136000000 ∧
    (1699136000000 : ℤ) < sampleNow ∧
    (invoke (verifyCertification sampleRuntime sampleNow "P1" (.str "FairTrade"))
      (worldWith (certifiedProduct [.obj validFirst, .obj expiredSecond]))).2
        = .ok (validReport validFirst) ∧
    (invoke (verifyCertification sampleRuntime sampleNow "P1" (.str "FairTrade"))
      (worldWith (certifiedProduct [.obj validFirst, .obj expiredSecond]))).2
        ≠ .ok expiredReport ∧
    (invoke (verifyCertification sampleRuntime sampleNow "P1" (.str "FairTrade"))
      (worldWith (certifiedProduct [.obj validFirst, .obj expiredSecond]))).1.writes = [] := by
  rw [verifyCertification_duplicate_eq]
  refine ⟨rfl, rfl, newDate_expiredSecond _, by norm_num [sampleNow], rfl, ?_, rfl⟩
  simp [expiredReport, validReport]

/-- The "FairTrade" certification that follows an "Organic" one is found and,
being past its expirationDate, reported and stored as expired. -/
theorem verifyCertification_expired_iff_witness :
    (worldWith (certifiedProduct [.obj organicCert, .obj expiredSecond]) "P1"
        = some (certifiedProduct [.obj organicCert, .obj expiredSecond]) ∧
      getField (certifiedProduct [.obj organicCert, .obj expiredSecond]) "certifications"
        = some (.arr ([.obj organicCert] ++ .obj expiredSecond :: [])) ∧
      (∀ c ∈ [Json.obj organicCert], ∃ f, c = .obj f ∧
        strictEq (getField f "certificationBody") (.str "FairTrade") = false) ∧
      strictEq (getField expiredSecond "certificationBody") (.str "FairTrade") = true) ∧
    (((invoke (verifyCertification sampleRuntime sampleNow "P1" (.str "FairTrade"))
        (worldWith (certifiedProduct [.obj organicCert, .obj expiredSecond]))).2
          = .ok expiredReport ↔
      ∃ d, newDate sampleRuntime (getField expiredSecond "expirationDate") = some d ∧
        d < sampleNow) ∧
    ((∃ d, newDate sampleRuntime (getField expiredSecond "expirationDate") = some d ∧
        d < sampleNow) →
      commit (invoke (verifyCertification sampleRuntime sampleNow "P1" (.str "FairTrade"))
        (worldWith (certifiedProduct [.obj organicCert, .obj expiredSecond]))) "P1" =
        some (setField (certifiedProduct [.obj organicCert, .obj expiredSecond]) "certifications"
          (.arr ([.obj organicCert] ++
            .obj (setField expiredSecond "status" (.str "Expired")) :: [])))) ∧
    ((¬ ∃ d, newDate sampleRuntime (getField expiredSecond "expirationDate") = some d ∧
        d < sampleNow) →
      (invoke (verifyCertification sampleRuntime sampleNow "P1" (.str "FairTrade"))
        (worldWith (certifiedProduct [.obj organicCert, .obj expiredSecond]))).2
          = .ok (validReport expiredSecond) ∧
      (invoke (verifyCertification sampleRuntime sampleNow "P1" (.str "FairTrade"))
        (worldWith (certifiedProduct [.obj organicCert, .obj expiredSecond]))).1.writes
          = [])) :=
  have hpre : ∀ c ∈ [Json.obj organicCert], ∃ f, c = .obj f ∧
      strictEq (getField f "certificationBody") (.str "FairTrade") = false := by
    intro c hc
    rw [List.mem_singleton] at hc
    exact ⟨organicCert, hc, rfl⟩
  ⟨⟨rfl, rfl, hpre, rfl⟩,
   verifyCertification_expired_iff sampleRuntime sampleNow "P1" (.str "FairTrade")
     (worldWith (certifiedProduct [.obj organicCert, .obj expiredSecond]))
     (certifiedProduct [.obj organicCert, .obj expiredSecond]) [.obj organicCert] expiredSecond []
     rfl rfl hpre rfl⟩

theorem verifyCertification_expiredSecond_reported :
    (invoke (verifyCertification sampleRuntime sampleNow "P1" (.str "FairTrade"))
      (worldWith (certifiedProduct [.obj organicCert, .obj expiredSecond]))).2
        = .ok expiredReport := by
  rw [verifyCertification_eq sampleRuntime sampleNow "P1" (.str "FairTrade")
     (worldWith (certifiedProduct [.obj organicCert, .obj expiredSecond]))
     (certifiedProduct [.obj organicCert, .obj expiredSecond]) [.obj organicCert] expiredSecond []
     rfl rfl (by
        intro c hc
        rw [List.mem_singleton] at hc
        exact ⟨organicCert, hc, rfl⟩) rfl]
  rw [if_pos ⟨_, newDate_expiredSecond _, by norm_num [sampleNow]⟩]

/-! ### The tracking history is append-only -/

theorem keepsHistory_nil (w : WorldState) : KeepsHistory w [] := by
  intro kv hkv
  cases hkv

theorem keepsHistory_cons (w : WorldState) (k : String) (v p : JObject)
    (rest : List (String × JObject)) (hp : w k = some p)
    (hv : ∀ h, getField p "trackingHistory" = some (.arr h) →
      ∃ h', getField v "trackingHistory" = some (.arr h') ∧ h <+: h')
    (hrest : KeepsHistory w rest) : KeepsHistory w ((k, v) :: rest) := by
  intro kv hkv h hh
  rcases List.mem_cons.1 hkv with rfl | hmem
  · apply hv
    simp only [trackingHistoryOf, hp] at hh
    split at hh
    · next heq => rw [heq]; simpa using hh
    · cases hh
  · exact hrest kv hmem h hh

theorem keepsHistory_same (w : WorldState) (k : String) (v p : JObject)
    (hp : w k = some p)
    (hv : getField v "trackingHistory" = getField p "trackingHistory") :
    KeepsHistory w [(k, v)] :=
  keepsHistory_cons w k v p [] hp (fun h hh => ⟨h, by rw [hv, hh], List.prefix_refl h⟩)
    (keepsHistory_nil w)

theorem trackingHistoryOf_applyWrites (key : String) (h : List Json)
    (writes : List (String × JObject))
    (hw : ∀ kv ∈ writes, kv.1 = key →
      ∃ h', getField kv.2 "trackingHistory" = some (.arr h') ∧ h <+: h')
    (w : WorldState) (h₀ : ∃ h', trackingHistoryOf w key = some h' ∧ h <+: h') :
    ∃ h', trackingHistoryOf (applyWrites w writes) key = some h' ∧ h <+: h' := by
  induction writes generalizing w with
  | nil => simpa [applyWrites] using h₀
  | cons kv rest ih =>
    obtain ⟨k, v⟩ := kv
    apply ih (fun kv hkv => hw kv (List.mem_cons_of_mem _ hkv))
    by_cases hk : key = k
    · obtain ⟨h', hv, hpre⟩ := hw (k, v) (List.mem_cons_self _ _) hk.symm
      exact ⟨h', by simp [trackingHistoryOf, hk, hv], hpre⟩
    · simpa [trackingHistoryOf, hk] using h₀

theorem keepsHistory_commit (tx : Tx) (key : String) (h : List Json)
    (hk : KeepsHistory tx.1.world tx.1.writes)
    (hh : trackingHistoryOf tx.1.world key = some h) :
    ∃ h', trackingHistoryOf (commit tx) key = some h' ∧ h <+: h' := by
  unfold commit
  split
  · exact trackingHistoryOf_applyWrites key h tx.1.writes
      (fun kv hkv hkey => hk kv hkv h (by rw [hkey]; exact hh)) tx.1.world
      ⟨h, hh, List.prefix_refl h⟩
  · exact ⟨h, hh, List.prefix_refl h⟩

theorem transferProduct_keeps (rt : JSRuntime) (now : ℤ) (productId : String)
    (newOwner location : Json) (w : WorldState) :
    (invoke (transferProduct rt now productId newOwner location) w).1.world = w ∧
    KeepsHistory w (invoke (transferProduct rt now productId newOwner location) w).1.writes := by
  simp only [invoke, transferProduct, Stub.getState]
  cases hp : w productId with
  | none => exact ⟨rfl, keepsHistory_nil w⟩
  | some product =>
    simp only [getField_setField_ne product "currentOwner" "trackingHistory" newOwner
      (by decide)]
    cases hh : getField product "trackingHistory" with
    | none => exact ⟨rfl, keepsHistory_nil w⟩
    | some v =>
      cases v with
      | arr history =>
        refine ⟨rfl, keepsHistory_cons w productId _ product [] hp ?_ (keepsHistory_nil w)⟩
        intro h hh'
        rw [hh] at hh'
        simp only [Option.some.injEq, Json.arr.injEq] at hh'
        subst hh'
        exact ⟨_, getField_setField_same _ _ _, List.prefix_append _ _⟩
      | _ => exact ⟨rfl, keepsHistory_nil w⟩

theorem addCertification_keeps (productId : String)
    (certificationBody certificationDate expirationDate certificationDetails : Json)
    (w : WorldState) :
    (invoke (addCertification productId certificationBody certificationDate expirationDate
      certificationDetails) w).1.world = w ∧
    KeepsHistory w (invoke (addCertification productId certificationBody certificationDate
      expirationDate certificationDetails) w).1.writes := by
  simp only [invoke, addCertification, Stub.getState]
  cases hp : w productId with
  | none => exact ⟨rfl, keepsHistory_nil w⟩
  | some product =>
    simp only
    split
    · exact ⟨rfl, keepsHistory_nil w⟩
    · refine ⟨rfl, keepsHistory_same w productId _ product hp ?_⟩
      rw [getField_setField_ne _ _ _ _ (by decide)]
      split
      · rfl
      · rw [getField_setField_ne _ _ _ _ (by decide)]

theorem addEthicalScore_keeps (rt : JSRuntime) (productId : String)
    (scoreCategory score assessmentDate assessor : Json) (w : WorldState) :
    (invoke (addEthicalScore rt productId scoreCategory score assessmentDate assessor) w).1.world
      = w ∧
    KeepsHistory w (invoke (addEthicalScore rt productId scoreCategory score assessmentDate
      assessor) w).1.writes := by
  simp only [invoke, addEthicalScore, Stub.getState]
  cases hp : w productId with
  | none => exact ⟨rfl, keepsHistory_nil w⟩
  | some product =>
    simp only
    split
    · split
      · exact ⟨rfl, keepsHistory_nil w⟩
      · refine ⟨rfl, keepsHistory_same w productId _ product hp ?_⟩
        rw [getField_setField_ne _ _ _ _ (by decide), getField_setField_ne _ _ _ _ (by decide)]
        split
        · rfl
        · rw [getField_setField_ne _ _ _ _ (by decide)]
    · exact ⟨rfl, keepsHistory_nil w⟩
    · exact ⟨rfl, keepsHistory_nil w⟩

theorem verifyCertification_keeps (rt : JSRuntime) (now : ℤ) (productId : String)
    (certificationBody : Json) (w : WorldState) :
    (invoke (verifyCertification rt now productId certificationBody) w).1.world = w ∧
    KeepsHistory w (invoke (verifyCertification rt now productId certificationBody) w).1.writes
      := by
  simp only [invoke, verifyCertification, Stub.getState]
  cases hp : w productId with
  | none => exact ⟨rfl, keepsHistory_nil w⟩
  | some product =>
    simp only
    split
    · exact ⟨rfl, keepsHistory_nil w⟩
    · split
      · split
        · exact ⟨rfl, keepsHistory_nil w⟩
        · exact ⟨rfl, keepsHistory_nil w⟩
        · split
          · refine ⟨rfl, keepsHistory_same w productId _ product hp ?_⟩
            rw [getField_setField_ne _ _ _ _ (by decide)]
          · exact ⟨rfl, keepsHistory_nil w⟩
      · exact ⟨rfl, keepsHistory_nil w⟩

theorem applyVerificationRule_keeps (rt : JSRuntime) (now : ℤ) (productId ruleId : String)
    (w : WorldState) :
    (invoke (applyVerificationRule rt now productId ruleId) w).1.world = w ∧
    KeepsHistory w (invoke (applyVerificationRule rt now productId ruleId) w).1.writes := by
  simp only [invoke, applyVerificationRule, Stub.getState]
  cases hr : w ruleId with
  | none => exact ⟨rfl, keepsHistory_nil w⟩
  | some rule =>
    cases hp : w productId with
    | none => exact ⟨rfl, keepsHistory_nil w⟩
    | some product =>
      simp only
      split
      · exact ⟨rfl, keepsHistory_nil w⟩
      · refine ⟨rfl, keepsHistory_same w productId _ product hp ?_⟩
        rw [getField_setField_ne _ _ _ _ (by decide), getField_setField_ne _ _ _ _ (by decide),
          getField_setField_ne _ _ _ _ (by decide)]

theorem processVerificationRequest_keeps (rt : JSRuntime) (now : ℤ) (verificationId : String)
    (verifierId decision comments : Json) (w : WorldState) :
    (invoke (processVerificationRequest rt now verificationId verifierId decision comments)
      w).1.world = w ∧
    KeepsHistory w (invoke (processVerificationRequest rt now verificationId verifierId decision
      comments) w).1.writes := by
  simp only [invoke, processVerificationRequest, Stub.getState]
  cases hv : w verificationId with
  | none => exact ⟨rfl, keepsHistory_nil w⟩
  | some verification =>
    simp only
    split
    · exact ⟨rfl, keepsHistory_nil w⟩
    · have h₁ : KeepsHistory w [(verificationId,
          setField (setField verification "status" decision) "verificationHistory" ‹Json›)] := by
        refine keepsHistory_same w verificationId _ verification hv ?_
        rw [getField_setField_ne _ _ _ _ (by decide), getField_setField_ne _ _ _ _ (by decide)]
      split
      · simp only [Stub.putState, List.nil_append]
        split
        · exact ⟨rfl, h₁⟩
        · next product hp =>
          refine ⟨rfl, ?_⟩
          intro kv hkv
          rcases List.mem_append.1 hkv with hmem | hmem
          · exact h₁ kv hmem
          · refine keepsHistory_same w _ _ product hp ?_ kv hmem
            rw [getField_setField_ne _ _ _ _ (by decide),
              getField_setField_ne _ _ _ _ (by decide)]
      · exact ⟨rfl, h₁⟩

theorem contractCall_keeps (rt : JSRuntime) (now : ℤ) (call : ContractCall) (w : WorldState)
    (hc : call.isCreate = false) :
    (invoke (call.run rt now) w).1.world = w ∧
    KeepsHistory w (invoke (call.run rt now) w).1.writes := by
  cases call with
  | createProduct => simp [ContractCall.isCreate] at hc
  | transferProduct productId newOwner location =>
    exact transferProduct_keeps rt now productId newOwner location w
  | addCertification productId b d e c => exact addCertification_keeps productId b d e c w
  | addEthicalScore productId c sc d a => exact addEthicalScore_keeps rt productId c sc d a w
  | verifyCertification productId b => exact verifyCertification_keeps rt now productId b w
  | processVerificationRequest v a d c =>
    exact processVerificationRequest_keeps rt now v a d c w
  | applyVerificationRule productId ruleId =>
    exact applyVerificationRule_keeps rt now productId ruleId w

/-- C9, as amended: for each of transferProduct, addCertification,
addEthicalScore, verifyCertification, processVerificationRequest and
applyVerificationRule, with any arguments, and for every key that holds a product
with a trackingHistory, the trackingHistory before the call is a prefix of the
trackingHistory stored under that key after the call. -/
theorem trackingHistory_appendOnly (rt : JSRuntime) (now : ℤ) (call : ContractCall)
    (w : WorldState) (key : String) (h : List Json)
    (hc : call.isCreate = false) (hh : trackingHistoryOf w key = some h) :
    ∃ h', trackingHistoryOf (commit (invoke (call.run rt now) w)) key = some h' ∧ h <+: h' := by
  obtain ⟨hw, hk⟩ := contractCall_keeps rt now call w hc
  apply keepsHistory_commit
  · rw [hw]; exact hk
  · rw [hw]; exact hh

/-- The history of `sampleProduct` is a prefix of its history after a transfer. -/
theorem trackingHistory_appendOnly_witness :
    ((ContractCall.transferProduct "P1" (.str "Retailer") (.str "Lagos")).isCreate = false ∧
      trackingHistoryOf (worldWith sampleProduct) "P1" = some [createdEntry]) ∧
    ∃ h', trackingHistoryOf (commit (invoke ((ContractCall.transferProduct "P1" (.str "Retailer")
        (.str "Lagos")).run sampleRuntime (sampleNow + 5000)) (worldWith sampleProduct))) "P1"
          = some h' ∧ [createdEntry] <+: h' :=
  ⟨⟨rfl, rfl⟩,
   trackingHistory_appendOnly sampleRuntime (sampleNow + 5000)
     (.transferProduct "P1" (.str "Retailer") (.str "Lagos")) (worldWith sampleProduct) "P1"
     [createdEntry] rfl rfl⟩

/-- C9 as stated fails for createProduct: called on the key "P1", which holds a
product with the two tracking entries of its creation and its transfer, it
stores a product whose trackingHistory is one fresh entry, of which the previous
history is not a prefix. -/
theorem createProduct_erases_history :
    trackingHistoryOf (worldWith transferredProduct) "P1"
      = some [createdEntry, transferEntry] ∧
    trackingHistoryOf (commit (invoke (recreateCall.run sampleRuntime (sampleNow + 9000))
      (worldWith transferredProduct))) "P1"
      = some [.obj (trackingEntry (.str "Acme")
          (.str (sampleRuntime.toISOString (sampleNow + 9000))) (.str "Manufacturing Plant"))] ∧
    ¬ ([createdEntry, transferEntry] <+:
      [Json.obj (trackingEntry (.str "Acme")
          (.str (sampleRuntime.toISOString (sampleNow + 9000))) (.str "Manufacturing Plant"))]) := by
  refine ⟨rfl, rfl, ?_⟩
  intro hpre
  have := hpre.length_le
  simp at this

/-! ### Provenance store -/

theorem ProductService.transferProduct_history (deps : ProductService.Deps)
    (productId : String) (newOwner location transferredBy : Json)
    (db : ProductService.Collection) (product : JObject) (hp : db productId = some product) :
    ∃ product', (ProductService.transferProduct deps productId newOwner location transferredBy
        db).1 productId = some product' ∧
      getField product' "trackingHistory" = getField product "trackingHistory" := by
  simp only [ProductService.transferProduct, hp]
  split
  · split
    · refine ⟨_, if_pos rfl, ?_⟩
      rw [getField_setField_ne _ _ _ _ (by decide), getField_setField_ne _ _ _ _ (by decide)]
    · refine ⟨_, if_pos rfl, ?_⟩
      rw [getField_setField_ne _ _ _ _ (by decide), getField_setField_ne _ _ _ _ (by decide)]
  · exact ⟨product, hp, rfl⟩

/-- C8 fails on the code: `ProductService.transferProduct` on the stored product
"P1", whose trackingHistory is empty, succeeds, sets currentOwner and location,
and leaves the stored trackingHistory empty: no TrackingEntry is appended. -/
theorem ProductService.transferProduct_appends_nothing :
    ∃ product',
      (ProductService.transferProduct acceptingDeps "P1" (.str "U2") (.str "Lagos") (.str "U1")
        (worldWith storedDoc)).2 = .ok product' ∧
      (ProductService.transferProduct acceptingDeps "P1" (.str "U2") (.str "Lagos") (.str "U1")
        (worldWith storedDoc)).1 "P1" = some product' ∧
      getField product' "currentOwner" = some (.str "U2") ∧
      getField product' "location" = some (.str "Lagos") ∧
      getField storedDoc "trackingHistory" = some (.arr []) ∧
      getField product' "trackingHistory" = some (.arr []) := by
  exact ⟨setField (setField storedDoc "currentOwner" (.str "U2")) "location" (.str "Lagos"),
    rfl, rfl, rfl, rfl, rfl, rfl⟩

theorem ProductService.calculateOverallEthicalScore_mean (rt : JSRuntime) (scores : List Json)
    (qs : List ℚ) (h : List.Forall₂ HasScore scores qs) (hne : scores ≠ []) :
    ProductService.calculateOverallEthicalScore rt scores
      = .ok (.fin (qs.sum / (qs.length : ℚ))) := by
  have hlen : (scores.length : ℚ) ≠ 0 := by
    exact_mod_cast (List.length_pos.2 hne).ne'
  rw [h.length_eq] at hlen
  simp only [ProductService.calculateOverallEthicalScore, sumScores_num rt scores qs 0 h,
    averageOf, Prim.toNumber, JSNum.div, h.length_eq, if_neg hlen, zero_add]

/-- C6 fails on the code for the empty list: `calculateOverallEthicalScore([])`
divides the total 0 by the length 0 and returns `NaN`, not 0. -/
theorem ProductService.calculateOverallEthicalScore_nil (rt : JSRuntime) :
    ProductService.calculateOverallEthicalScore rt [] = .ok .nan ∧
    ProductService.calculateOverallEthicalScore rt [] ≠ .ok (.fin 0) := by
  have h : ProductService.calculateOverallEthicalScore rt [] = .ok .nan := by
    simp [ProductService.calculateOverallEthicalScore, sumScores, averageOf, Prim.toNumber,
      JSNum.div]
  rw [h]
  simp

/-! ### Controller -/

theorem getProp_obj (o : JObject) (k : String) :
    getProp (some (.obj o)) k = .ok (getField o k) := rfl

theorem ProductController.verifyProduct_eq (svc : ProductController.Services)
    (req : ProductController.Request) (f e : JObject) (z : Json)
    (hs : ProductController.SignalsObtained svc req f e z)
    (hr : ProductController.RewardReturns svc req) :
    ProductController.verifyProduct svc req =
      if truthy (getField f "isAuthentic") && truthy (getField e "isAuthentic")
          && truthy (some z) then
        ProductController.successReply f e z
      else ProductController.failureReply f e z := by
  obtain ⟨productId, code, secret, ts, product, ethId, generated, proof, signals,
    h1, h2, h3, h4, h5, h6, h7, h8, h9, h10, h11, h12⟩ := hs
  obtain ⟨address, ha, hrep⟩ := hr
  simp only [ProductController.verifyProduct, ProductController.verifyProductTry, bind,
    Except.bind, h1, h2, h3, h4, h5, h6, h7, h8, h9, h10, h11, h12, getProp_obj]
  cases hf : truthy (getField f "isAuthentic") <;>
    cases he : truthy (getField e "isAuthentic") <;>
    cases hz : truthy (some z) <;>
    simp [pure, Except.pure, ha, hrep, bind, Except.bind, ProductController.successReply,
      ProductController.failureReply, ProductController.subResults,
      ProductController.verificationData, ProductController.prop, he, hz]

theorem ProductController.successReply_ne_failureReply (f e f' e' : JObject) (z z' : Json) :
    ProductController.successReply f e z ≠ ProductController.failureReply f' e' z' := by
  simp [ProductController.successReply, ProductController.failureReply]

theorem ProductController.allAuthentic_iff (f e : JObject) (z : Json) :
    ProductController.AllAuthentic f e z ↔
      (truthy (getField f "isAuthentic") && truthy (getField e "isAuthentic")
        && truthy (some z)) = true := by
  simp [ProductController.AllAuthentic, and_assoc]

/-- C3: when the calls that obtain the three signals return the
permissioned-ledger result `f`, the public-ledger result `e` and the proof
validity `z`, and the reward call returns, `verifyProduct` responds with success
if and only if `f.isAuthentic`, `e.isAuthentic` and `z` are all true, and with
'Product verification failed' otherwise; both responses carry `f`, `e` and `z`
unchanged in their data. -/
theorem ProductController.verifyProduct_success_iff (svc : ProductController.Services)
    (req : ProductController.Request) (f e : JObject) (z : Json)
    (hs : ProductController.SignalsObtained svc req f e z)
    (hr : ProductController.RewardReturns svc req) :
    (ProductController.verifyProduct svc req = ProductController.successReply f e z ↔
      ProductController.AllAuthentic f e z) ∧
    (¬ ProductController.AllAuthentic f e z →
      ProductController.verifyProduct svc req = ProductController.failureReply f e z) := by
  rw [ProductController.verifyProduct_eq svc req f e z hs hr,
    ProductController.allAuthentic_iff]
  by_cases h : (truthy (getField f "isAuthentic") && truthy (getField e "isAuthentic")
      && truthy (some z)) = true
  · simp only [h, if_true, not_true_eq_false, false_implies, and_true]
  · rw [Bool.not_eq_true] at h
    rw [h]
    refine ⟨⟨fun heq => ?_, fun hft => by cases hft⟩, fun _ => rfl⟩
    exact absurd heq.symm (ProductController.successReply_ne_failureReply f e f e z z)

theorem ProductController.signalsObtained_const (f e : JObject) (z : Json) :
    ProductController.SignalsObtained (constServices f e z) verifyRequest f e z :=
  ⟨some (.str "P1"), some (.str "c0de"), some (.str "s3"), some (.num 1700000000000),
    some (.obj [("ethProductId", .str "7")]), some (.str "7"),
    some (.obj [("proof", .str "pi"), ("publicSignals", .arr [])]), some (.str "pi"),
    some (.arr []), rfl, rfl, rfl, rfl, rfl, rfl, rfl, rfl, rfl, rfl, rfl, rfl⟩

theorem ProductController.rewardReturns_const (f e : JObject) (z : Json) :
    ProductController.RewardReturns (constServices f e z) verifyRequest :=
  ⟨some (.str "0xabc"), rfl, rfl⟩

/-- With the public-ledger signal false and the other two true, the handler
answers 'Product verification failed' and not success. -/
theorem ProductController.verifyProduct_success_iff_witness :
    (ProductController.SignalsObtained
        (constServices [("isAuthentic", .bool true)] [("isAuthentic", .bool false)] (.bool true))
        verifyRequest [("isAuthentic", .bool true)] [("isAuthentic", .bool false)] (.bool true) ∧
      ProductController.RewardReturns
        (constServices [("isAuthentic", .bool true)] [("isAuthentic", .bool false)] (.bool true))
        verifyRequest) ∧
    ((ProductController.verifyProduct
        (constServices [("isAuthentic", .bool true)] [("isAuthentic", .bool false)] (.bool true))
        verifyRequest
        = ProductController.successReply [("isAuthentic", .bool true)]
            [("isAuthentic", .bool false)] (.bool true) ↔
      ProductController.AllAuthentic [("isAuthentic", .bool true)]
        [("isAuthentic", .bool false)] (.bool true)) ∧
    (¬ ProductController.AllAuthentic [("isAuthentic", .bool true)]
        [("isAuthentic", .bool false)] (.bool true) →
      ProductController.verifyProduct
        (constServices [("isAuthentic", .bool true)] [("isAuthentic", .bool false)] (.bool true))
        verifyRequest
        = ProductController.failureReply [("isAuthentic", .bool true)]
            [("isAuthentic", .bool false)] (.bool true))) :=
  ⟨⟨ProductController.signalsObtained_const _ _ _, ProductController.rewardReturns_const _ _ _⟩,
   ProductController.verifyProduct_success_iff _ _ _ _ _
     (ProductController.signalsObtained_const _ _ _)
     (ProductController.rewardReturns_const _ _ _)⟩

theorem ProductController.verifyProduct_all_true :
    ProductController.verifyProduct
        (constServices [("isAuthentic", .bool true)] [("isAuthentic", .bool true)] (.bool true))
        verifyRequest
      = ProductController.successReply [("isAuthentic", .bool true)]
          [("isAuthentic", .bool true)] (.bool true) := rfl

theorem ProductController.verifyProduct_zk_false :
    ProductController.verifyProduct
        (constServices [("isAuthentic", .bool true)] [("isAuthentic", .bool true)] (.bool false))
        verifyRequest
      = ProductController.failureReply [("isAuthentic", .bool true)]
          [("isAuthentic", .bool true)] (.bool false) := rfl

/-! ### Verification contract: requests -/

/-- C11: `createVerificationRequest` returns the verificationId and stores under
it a request with status 'Pending' whose verificationHistory has exactly one
entry, with status 'Pending', updatedBy equal to the requesterId and the
creation timestamp of the request. -/
theorem createVerificationRequest_pending (rt : JSRuntime) (now : ℤ) (verificationId : String)
    (productId requesterId requestType additionalInfo : Json) (w : WorldState) :
    (invoke (createVerificationRequest rt now verificationId productId requesterId requestType
      additionalInfo) w).2 = .ok (some (.obj [("verificationId", .str verificationId)])) ∧
    ∃ request entry,
      commit (invoke (createVerificationRequest rt now verificationId productId requesterId
        requestType additionalInfo) w) verificationId = some request ∧
      getField request "status" = some (.str "Pending") ∧
      getField request "timestamp" = some (.str (rt.toISOString now)) ∧
      getField request "verificationHistory" = some (.arr [.obj entry]) ∧
      getField entry "status" = some (.str "Pending") ∧
      getField entry "updatedBy" = some requesterId ∧
      getField entry "timestamp" = some (.str (rt.toISOString now)) := by
  refine ⟨rfl, newVerificationRequest rt now verificationId productId requesterId requestType
    additionalInfo, [("status", .str "Pending"), ("timestamp", .str (rt.toISOString now)),
      ("updatedBy", requesterId)], ?_, ?_, ?_, ?_, ?_, ?_, ?_⟩
  · simp [invoke, createVerificationRequest, commit, Stub.putState, applyWrites]
  all_goals simp [getField, newVerificationRequest]

theorem applyWrites_pair (w : WorldState) (k₁ k₂ : String) (v₁ v₂ : JObject) (k : String) :
    applyWrites w [(k₁, v₁), (k₂, v₂)] k =
      if k = k₂ then some v₂ else if k = k₁ then some v₁ else w k := by
  simp [applyWrites]

theorem processVerificationRequest_eq (rt : JSRuntime) (now : ℤ) (verificationId : String)
    (verifierId decision comments : Json) (w : WorldState) (verification : JObject)
    (history : List Json) (productId : String) (product : JObject)
    (hv : w verificationId = some verification)
    (hh : getField verification "verificationHistory" = some (.arr history))
    (hid : getField verification "productId" = some (.str productId))
    (hp : w productId = some product) :
    invoke (processVerificationRequest rt now verificationId verifierId decision comments) w =
      (⟨w, [(verificationId,
              setField (setField verification "status" decision) "verificationHistory"
                (.arr (history ++ [auditEntry decision (.str (rt.toISOString now)) verifierId
                  comments]))),
            (productId,
              setField (setField product "verificationStatus" decision) "lastVerificationDate"
                (.str (rt.toISOString now)))]⟩,
        .ok (some (.obj [("status", decision)]))) := by
  have h₁ : getField (setField verification "status" decision) "verificationHistory"
      = some (.arr history) := by
    rw [getField_setField_ne _ _ _ _ (by decide), hh]
  have h₂ : getField (setField (setField verification "status" decision) "verificationHistory"
      (.arr (history ++ [auditEntry decision (.str (rt.toISOString now)) verifierId comments])))
      "productId" = some (.str productId) := by
    rw [getField_setField_ne _ _ _ _ (by decide), getField_setField_ne _ _ _ _ (by decide), hid]
  simp only [invoke, processVerificationRequest, Stub.getState, hv, h₁, push, auditEntry] at h₂ ⊢
  simp only [h₂, Stub.putState, hp, List.nil_append, List.singleton_append, List.cons_append]

theorem setField_setField_same (o : JObject) (k : String) (a b : Json) :
    setField (setField o k a) k b = setField o k b := by
  induction o with
  | nil => simp [setField]
  | cons kv rest ih =>
    obtain ⟨k', v'⟩ := kv
    by_cases h : k' = k <;> simp [setField, h, ih]

theorem fieldAt_eq (w : WorldState) (key field : String) (o : JObject) (h : w key = some o) :
    fieldAt w key field = getField o field := by
  simp [fieldAt, h]

/-- C12: for a stored verification request whose product exists (under another
key than the request), `processVerificationRequest` returns `{status: decision}`,
keeps every previous verificationHistory entry and appends exactly one entry
`{status: decision, timestamp, updatedBy: verifierId, comments}`, sets the
status of the request to the decision, and sets verificationStatus of the
product to the decision and its lastVerificationDate to the same timestamp. -/
theorem processVerificationRequest_appends (rt : JSRuntime) (now : ℤ) (verificationId : String)
    (verifierId decision comments : Json) (w : WorldState) (verification : JObject)
    (history : List Json) (productId : String) (product : JObject)
    (hv : w verificationId = some verification)
    (hh : getField verification "verificationHistory" = some (.arr history))
    (hid : getField verification "productId" = some (.str productId))
    (hp : w productId = some product) (hne : productId ≠ verificationId) :
    (invoke (processVerificationRequest rt now verificationId verifierId decision comments)
      w).2 = .ok (some (.obj [("status", decision)])) ∧
    fieldAt (commit (invoke (processVerificationRequest rt now verificationId verifierId decision
      comments) w)) verificationId "verificationHistory" = some (.arr (history ++
        [.obj [("status", decision), ("timestamp", .str (rt.toISOString now)),
          ("updatedBy", verifierId), ("comments", comments)]])) ∧
    fieldAt (commit (invoke (processVerificationRequest rt now verificationId verifierId decision
      comments) w)) verificationId "status" = some decision ∧
    fieldAt (commit (invoke (processVerificationRequest rt now verificationId verifierId decision
      comments) w)) productId "verificationStatus" = some decision ∧
    fieldAt (commit (invoke (processVerificationRequest rt now verificationId verifierId decision
      comments) w)) productId "lastVerificationDate" = some (.str (rt.toISOString now)) := by
  rw [processVerificationRequest_eq rt now verificationId verifierId decision comments w
    verification history productId product hv hh hid hp]
  have hne' : verificationId ≠ productId := fun h => hne h.symm
  have hreq : ∀ (v' p' : JObject) (r : Except String (Option Json)),
      r = .ok (some (.obj [("status", decision)])) →
      commit (⟨w, [(verificationId, v'), (productId, p')]⟩, r) verificationId = some v' := by
    intro v' p' r hr
    simp only [hr, commit, applyWrites_pair, if_neg hne', if_true]
  have hprod : ∀ (v' p' : JObject) (r : Except String (Option Json)),
      r = .ok (some (.obj [("status", decision)])) →
      commit (⟨w, [(verificationId, v'), (productId, p')]⟩, r) productId = some p' := by
    intro v' p' r hr
    simp only [hr, commit, applyWrites_pair, if_true]
  refine ⟨rfl, ?_, ?_, ?_, ?_⟩
  · rw [fieldAt_eq _ _ _ _ (hreq _ _ _ rfl), getField_setField_same]
    rfl
  · rw [fieldAt_eq _ _ _ _ (hreq _ _ _ rfl), getField_setField_ne _ _ _ _ (by decide),
      getField_setField_same]
  · rw [fieldAt_eq _ _ _ _ (hprod _ _ _ rfl), getField_setField_ne _ _ _ _ (by decide),
      getField_setField_same]
  · rw [fieldAt_eq _ _ _ _ (hprod _ _ _ rfl), getField_setField_same]

/-- The request "V1", pending, is decided 'Verified' for the product "P1". -/
theorem processVerificationRequest_appends_witness :
    (worldOf [("V1", pendingRequest), ("P1", sampleProduct)] "V1" = some pendingRequest ∧
      getField pendingRequest "verificationHistory" = some (.arr
        [.obj [("status", .str "Pending"), ("timestamp",
          .str (sampleRuntime.toISOString sampleNow)), ("updatedBy", .str "U7")]]) ∧
      getField pendingRequest "productId" = some (.str "P1") ∧
      worldOf [("V1", pendingRequest), ("P1", sampleProduct)] "P1" = some sampleProduct ∧
      "P1" ≠ "V1") ∧
    ((invoke (processVerificationRequest sampleRuntime (sampleNow + 1000) "V1" (.str "U9")
        (.str "Verified") (.str "seal intact"))
        (worldOf [("V1", pendingRequest), ("P1", sampleProduct)])).2
      = .ok (some (.obj [("status", .str "Verified")])) ∧
    fieldAt (commit (invoke (processVerificationRequest sampleRuntime (sampleNow + 1000) "V1"
        (.str "U9") (.str "Verified") (.str "seal intact"))
        (worldOf [("V1", pendingRequest), ("P1", sampleProduct)]))) "V1" "verificationHistory"
      = some (.arr ([.obj [("status", .str "Pending"), ("timestamp",
          .str (sampleRuntime.toISOString sampleNow)), ("updatedBy", .str "U7")]] ++
        [.obj [("status", .str "Verified"),
          ("timestamp", .str (sampleRuntime.toISOString (sampleNow + 1000))),
          ("updatedBy", .str "U9"), ("comments", .str "seal intact")]])) ∧
    fieldAt (commit (invoke (processVerificationRequest sampleRuntime (sampleNow + 1000) "V1"
        (.str "U9") (.str "Verified") (.str "seal intact"))
        (worldOf [("V1", pendingRequest), ("P1", sampleProduct)]))) "V1" "status"
      = some (.str "Verified") ∧
    fieldAt (commit (invoke (processVerificationRequest sampleRuntime (sampleNow + 1000) "V1"
        (.str "U9") (.str "Verified") (.str "seal intact"))
        (worldOf [("V1", pendingRequest), ("P1", sampleProduct)]))) "P1" "verificationStatus"
      = some (.str "Verified") ∧
    fieldAt (commit (invoke (processVerificationRequest sampleRuntime (sampleNow + 1000) "V1"
        (.str "U9") (.str "Verified") (.str "seal intact"))
        (worldOf [("V1", pendingRequest), ("P1", sampleProduct)]))) "P1" "lastVerificationDate"
      = some (.str (sampleRuntime.toISOString (sampleNow + 1000)))) :=
  ⟨⟨rfl, rfl, rfl, rfl, by decide⟩,
   processVerificationRequest_appends sampleRuntime (sampleNow + 1000) "V1" (.str "U9")
     (.str "Verified") (.str "seal intact") (worldOf [("V1", pendingRequest), ("P1", sampleProduct)])
     pendingRequest _ "P1" sampleProduct rfl rfl rfl rfl (by decide)⟩

theorem commit_pair_fst (w : WorldState) (k₁ k₂ : String) (v₁ v₂ : JObject) (r : Option Json)
    (hne : k₁ ≠ k₂) : commit (⟨w, [(k₁, v₁), (k₂, v₂)]⟩, .ok r) k₁ = some v₁ := by
  simp only [commit, applyWrites_pair, if_neg hne, if_true]

theorem commit_pair_snd (w : WorldState) (k₁ k₂ : String) (v₁ v₂ : JObject) (r : Option Json) :
    commit (⟨w, [(k₁, v₁), (k₂, v₂)]⟩, .ok r) k₂ = some v₂ := by
  simp only [commit, applyWrites_pair, if_true]

/-- C13, as amended: `processVerificationRequest` does not read the current
status of the request.  Whatever status `s` the stored request has, in
particular 'Verified', 'Failed' or 'Rejected', and provided its product exists,
the call returns `{status: decision}`, stores the request with the status
replaced by the decision and one entry appended to its history, and stores the
product with verificationStatus and lastVerificationDate updated. -/
theorem processVerificationRequest_ignores_status (rt : JSRuntime) (now : ℤ)
    (verificationId : String) (verifierId decision comments s : Json) (w : WorldState)
    (verification : JObject) (history : List Json) (productId : String) (product : JObject)
    (hh : getField verification "verificationHistory" = some (.arr history))
    (hid : getField verification "productId" = some (.str productId))
    (hp : w productId = some product) (hne : productId ≠ verificationId) :
    (invoke (processVerificationRequest rt now verificationId verifierId decision comments)
      (storeAt w verificationId (setField verification "status" s))).2
        = .ok (some (.obj [("status", decision)])) ∧
    commit (invoke (processVerificationRequest rt now verificationId verifierId decision comments)
      (storeAt w verificationId (setField verification "status" s))) verificationId
        = some (setField (setField verification "status" decision) "verificationHistory"
            (.arr (history ++ [auditEntry decision (.str (rt.toISOString now)) verifierId
              comments]))) ∧
    commit (invoke (processVerificationRequest rt now verificationId verifierId decision comments)
      (storeAt w verificationId (setField verification "status" s))) productId
        = some (setField (setField product "verificationStatus" decision) "lastVerificationDate"
            (.str (rt.toISOString now))) := by
  have hne' : verificationId ≠ productId := fun h => hne h.symm
  rw [processVerificationRequest_eq rt now verificationId verifierId decision comments
    (storeAt w verificationId (setField verification "status" s))
    (setField verification "status" s) history productId product
    (by simp [storeAt])
    (by rw [getField_setField_ne _ _ _ _ (by decide), hh])
    (by rw [getField_setField_ne _ _ _ _ (by decide), hid])
    (by simp [storeAt, hne, hp])]
  refine ⟨rfl, ?_, commit_pair_snd _ _ _ _ _ _⟩
  rw [commit_pair_fst _ _ _ _ _ _ hne', setField_setField_same]

/-- The request "V1", whose status is 'Verified', is processed again with the
decision 'Rejected'. -/
theorem processVerificationRequest_ignores_status_witness :
    (getField pendingRequest "verificationHistory" = some (.arr
        [.obj [("status", .str "Pending"), ("timestamp",
          .str (sampleRuntime.toISOString sampleNow)), ("updatedBy", .str "U7")]]) ∧
      getField pendingRequest "productId" = some (.str "P1") ∧
      worldOf [("P1", sampleProduct)] "P1" = some sampleProduct ∧ "P1" ≠ "V1") ∧
    ((invoke (recheck (.str "Rejected")) (storeAt (worldOf [("P1", sampleProduct)]) "V1"
        (setField pendingRequest "status" (.str "Verified")))).2
        = .ok (some (.obj [("status", .str "Rejected")])) ∧
    commit (invoke (recheck (.str "Rejected")) (storeAt (worldOf [("P1", sampleProduct)]) "V1"
        (setField pendingRequest "status" (.str "Verified")))) "V1"
        = some (setField (setField pendingRequest "status" (.str "Rejected"))
            "verificationHistory"
            (.arr ([.obj [("status", .str "Pending"), ("timestamp",
                .str (sampleRuntime.toISOString sampleNow)), ("updatedBy", .str "U7")]] ++
              [auditEntry (.str "Rejected")
                (.str (sampleRuntime.toISOString (sampleNow + 2000))) (.str "U9")
                (.str "re-check")]))) ∧
    commit (invoke (recheck (.str "Rejected")) (storeAt (worldOf [("P1", sampleProduct)]) "V1"
        (setField pendingRequest "status" (.str "Verified")))) "P1"
        = some (setField (setField sampleProduct "verificationStatus" (.str "Rejected"))
            "lastVerificationDate" (.str (sampleRuntime.toISOString (sampleNow + 2000))))) :=
  ⟨⟨rfl, rfl, rfl, by decide⟩,
   processVerificationRequest_ignores_status sampleRuntime (sampleNow + 2000) "V1" (.str "U9")
     (.str "Rejected") (.str "re-check") (.str "Verified") (worldOf [("P1", sampleProduct)])
     pendingRequest _ "P1" sampleProduct rfl rfl rfl (by decide)⟩

theorem recheck_eq (decision : Json) :
    invoke (recheck decision) (worldOf [("V1", verifiedRequest), ("P1", sampleProduct)]) =
      (⟨worldOf [("V1", verifiedRequest), ("P1", sampleProduct)],
        [("V1", setField (setField verifiedRequest "status" decision) "verificationHistory"
            (.arr ([.obj [("status", .str "Pending"), ("timestamp",
                .str (sampleRuntime.toISOString sampleNow)), ("updatedBy", .str "U7")],
              auditEntry (.str "Verified") (.str (sampleRuntime.toISOString (sampleNow + 1000)))
                (.str "U9") (.str "seal intact")] ++
              [auditEntry decision (.str (sampleRuntime.toISOString (sampleNow + 2000)))
                (.str "U9") (.str "re-check")]))),
         ("P1", setField (setField sampleProduct "verificationStatus" decision)
            "lastVerificationDate" (.str (sampleRuntime.toISOString (sampleNow + 2000))))]⟩,
        .ok (some (.obj [("status", decision)]))) :=
  processVerificationRequest_eq sampleRuntime (sampleNow + 2000) "V1" (.str "U9") decision
    (.str "re-check") _ verifiedRequest _ "P1" sampleProduct rfl rfl rfl rfl

/-- C13 as stated fails: the request "V1" has the terminal status 'Verified' and
two history entries; processing it again with the decision 'Rejected' does not
fail, and the committed request has status 'Rejected' and three history
entries, the product verificationStatus 'Rejected'. -/
theorem processVerificationRequest_terminal_not_rejected :
    fieldAt (worldOf [("V1", verifiedRequest), ("P1", sampleProduct)]) "V1" "status"
      = some (.str "Verified") ∧
    (invoke (recheck (.str "Rejected"))
      (worldOf [("V1", verifiedRequest), ("P1", sampleProduct)])).2
      = .ok (some (.obj [("status", .str "Rejected")])) ∧
    fieldAt (commit (invoke (recheck (.str "Rejected"))
      (worldOf [("V1", verifiedRequest), ("P1", sampleProduct)]))) "V1" "status"
      = some (.str "Rejected") ∧
    fieldAt (commit (invoke (recheck (.str "Rejected"))
      (worldOf [("V1", verifiedRequest), ("P1", sampleProduct)]))) "V1" "verificationHistory"
      = some (.arr [.obj [("status", .str "Pending"), ("timestamp",
            .str (sampleRuntime.toISOString sampleNow)), ("updatedBy", .str "U7")],
          auditEntry (.str "Verified") (.str (sampleRuntime.toISOString (sampleNow + 1000)))
            (.str "U9") (.str "seal intact"),
          auditEntry (.str "Rejected") (.str (sampleRuntime.toISOString (sampleNow + 2000)))
            (.str "U9") (.str "re-check")]) ∧
    fieldAt (commit (invoke (recheck (.str "Rejected"))
      (worldOf [("V1", verifiedRequest), ("P1", sampleProduct)]))) "P1" "verificationStatus"
      = some (.str "Rejected") := by
  rw [recheck_eq]
  refine ⟨rfl, rfl, ?_, ?_, ?_⟩
  · rw [fieldAt_eq _ _ _ _ (commit_pair_fst _ _ _ _ _ _ (by decide))]
    rfl
  · rw [fieldAt_eq _ _ _ _ (commit_pair_fst _ _ _ _ _ _ (by decide))]
    rfl
  · rw [fieldAt_eq _ _ _ _ (commit_pair_snd _ _ _ _ _ _)]
    rfl

theorem processVerificationRequest_ok_inv (rt : JSRuntime) (now : ℤ) (verificationId : String)
    (verifierId decision comments : Json) (w : WorldState) (r : Option Json)
    (hok : (invoke (processVerificationRequest rt now verificationId verifierId decision
      comments) w).2 = .ok r) :
    ∃ verification history productId product,
      w verificationId = some verification ∧
      getField verification "verificationHistory" = some (.arr history) ∧
      getField verification "productId" = some (.str productId) ∧
      w productId = some product := by
  simp only [invoke, processVerificationRequest, Stub.getState] at hok
  cases hv : w verificationId with
  | none => simp [hv] at hok
  | some verification =>
    have h₁ : getField (setField verification "status" decision) "verificationHistory"
        = getField verification "verificationHistory" :=
      getField_setField_ne _ _ _ _ (by decide)
    simp only [hv, h₁] at hok
    cases hh : getField verification "verificationHistory" with
    | none => simp [hh, push] at hok
    | some j =>
      cases j with
      | arr history =>
        have h₂ : ∀ x, getField (setField (setField verification "status" decision)
            "verificationHistory" x) "productId" = getField verification "productId" := by
          intro x
          rw [getField_setField_ne _ _ _ _ (by decide), getField_setField_ne _ _ _ _ (by decide)]
        simp only [hh, push, h₂, Stub.putState] at hok
        cases hid : getField verification "productId" with
        | none => simp [hid] at hok
        | some p =>
          cases p with
          | str productId =>
            simp only [hid] at hok
            cases hp : w productId with
            | none => simp [hp] at hok
            | some product => exact ⟨verification, history, productId, product, rfl, hh, hid, hp⟩
          | _ => simp [hid] at hok
      | _ => simp [hh, push] at hok

/-- C14, as amended: `processVerificationRequest` accepts every decision value.
When the call succeeds (on a request that is not stored under its own
productId), it returns `{status: decision}` and the committed request has as
status the decision that was passed, whatever it is. -/
theorem processVerificationRequest_status_is_decision (rt : JSRuntime) (now : ℤ)
    (verificationId : String) (verifierId decision comments : Json) (w : WorldState)
    (r : Option Json)
    (hok : (invoke (processVerificationRequest rt now verificationId verifierId decision
      comments) w).2 = .ok r)
    (hself : fieldAt w verificationId "productId" ≠ some (.str verificationId)) :
    r = some (.obj [("status", decision)]) ∧
    fieldAt (commit (invoke (processVerificationRequest rt now verificationId verifierId decision
      comments) w)) verificationId "status" = some decision := by
  obtain ⟨verification, history, productId, product, hv, hh, hid, hp⟩ :=
    processVerificationRequest_ok_inv rt now verificationId verifierId decision comments w r hok
  have hne : verificationId ≠ productId := by
    intro h
    apply hself
    rw [fieldAt_eq _ _ _ _ hv, hid, h]
  rw [processVerificationRequest_eq rt now verificationId verifierId decision comments w
    verification history productId product hv hh hid hp] at hok ⊢
  refine ⟨?_, ?_⟩
  · simp only [Except.ok.injEq] at hok
    exact hok.symm
  · rw [fieldAt_eq _ _ _ _ (commit_pair_fst _ _ _ _ _ _ hne),
      getField_setField_ne _ _ _ _ (by decide), getField_setField_same]

theorem productId_verifiedRequest :
    fieldAt (worldOf [("V1", verifiedRequest), ("P1", sampleProduct)]) "V1" "productId"
      ≠ some (.str "V1") := by
  rw [show fieldAt (worldOf [("V1", verifiedRequest), ("P1", sampleProduct)]) "V1" "productId"
    = some (.str "P1") from rfl]
  simp

/-- The request "V1", verified, is processed with the decision 'Pending'. -/
theorem processVerificationRequest_status_is_decision_witness :
    ((invoke (recheck (.str "Pending"))
        (worldOf [("V1", verifiedRequest), ("P1", sampleProduct)])).2
        = .ok (some (.obj [("status", .str "Pending")])) ∧
      fieldAt (worldOf [("V1", verifiedRequest), ("P1", sampleProduct)]) "V1" "productId"
        ≠ some (.str "V1")) ∧
    (some (Json.obj [("status", .str "Pending")]) = some (.obj [("status", .str "Pending")]) ∧
    fieldAt (commit (invoke (recheck (.str "Pending"))
      (worldOf [("V1", verifiedRequest), ("P1", sampleProduct)]))) "V1" "status"
      = some (.str "Pending")) :=
  ⟨⟨congrArg Prod.snd (recheck_eq (.str "Pending")), productId_verifiedRequest⟩,
   processVerificationRequest_status_is_decision sampleRuntime (sampleNow + 2000) "V1" (.str "U9")
     (.str "Pending") (.str "re-check") (worldOf [("V1", verifiedRequest), ("P1", sampleProduct)])
     _ (congrArg Prod.snd (recheck_eq (.str "Pending"))) productId_verifiedRequest⟩

/-- C14 as stated fails: the decision 'Pending' is not rejected.  Processing the
verified request "V1" with it succeeds and the committed request has status
'Pending', which is none of 'Verified', 'Failed', 'Rejected'. -/
theorem processVerificationRequest_accepts_pending :
    (invoke (recheck (.str "Pending"))
      (worldOf [("V1", verifiedRequest), ("P1", sampleProduct)])).2
      = .ok (some (.obj [("status", .str "Pending")])) ∧
    fieldAt (commit (invoke (recheck (.str "Pending"))
      (worldOf [("V1", verifiedRequest), ("P1", sampleProduct)]))) "V1" "status"
      = some (.str "Pending") ∧
    Json.str "Pending" ≠ .str "Verified" ∧ Json.str "Pending" ≠ .str "Failed" ∧
    Json.str "Pending" ≠ .str "Rejected" := by
  rw [recheck_eq]
  refine ⟨rfl, ?_, by simp, by simp, by simp⟩
  rw [fieldAt_eq _ _ _ _ (commit_pair_fst _ _ _ _ _ _ (by decide))]
  rfl

/-! ### Verification contract: applying a rule -/

theorem applyVerificationRule_eq (rt : JSRuntime) (now : ℤ) (productId ruleId : String)
    (w : WorldState) (rule product : JObject)
    (hr : w ruleId = some rule) (hp : w productId = some product) :
    invoke (applyVerificationRule rt now productId ruleId) w =
      match (match getField rule "type" with
        | some (.str "threshold") => applyThresholdRule rt product (getField rule "parameters")
        | some (.str "timeWindow") =>
          applyTimeWindowRule rt now product (getField rule "parameters")
        | other => .error ("Unsupported rule type: " ++ jsToString rt other)) with
      | .error e => (⟨w, []⟩, .error e)
      | .ok result =>
        (⟨w, [(productId, setField (setField (setField product "verificationStatus"
            (.str result.status)) "lastVerificationDate" (.str (rt.toISOString now)))
            "lastVerificationRule" (.str ruleId))]⟩, .ok (some result.toJson)) := by
  simp only [invoke, applyVerificationRule, Stub.getState, hr, hp, Stub.putState,
    List.nil_append]

/-- C16: after a successful `applyVerificationRule(productId, ruleId)` the stored
product is the prior product with verificationStatus set to the status the rule
returned, lastVerificationDate set to the time of application and
lastVerificationRule set to ruleId; every other field of the product is
unchanged, and so is every other key of the world state, the stored rule among
them. -/
theorem applyVerificationRule_frame (rt : JSRuntime) (now : ℤ) (productId ruleId : String)
    (w : WorldState) (product : JObject) (r : Option Json)
    (hok : (invoke (applyVerificationRule rt now productId ruleId) w).2 = .ok r)
    (hp : w productId = some product) :
    ∃ result : RuleResult,
      r = some result.toJson ∧
      commit (invoke (applyVerificationRule rt now productId ruleId) w) productId =
        some (setField (setField (setField product "verificationStatus" (.str result.status))
          "lastVerificationDate" (.str (rt.toISOString now)))
          "lastVerificationRule" (.str ruleId)) ∧
      (∀ k, k ≠ "verificationStatus" → k ≠ "lastVerificationDate" →
        k ≠ "lastVerificationRule" →
        fieldAt (commit (invoke (applyVerificationRule rt now productId ruleId) w)) productId k
          = getField product k) ∧
      (∀ key, key ≠ productId →
        commit (invoke (applyVerificationRule rt now productId ruleId) w) key = w key) := by
  cases hr : w ruleId with
  | none => simp [invoke, applyVerificationRule, Stub.getState, hr] at hok
  | some rule =>
    rw [applyVerificationRule_eq rt now productId ruleId w rule product hr hp] at hok ⊢
    split at hok
    · simp at hok
    · next result hres =>
      simp only [Except.ok.injEq] at hok
      have hc : ∀ (v : JObject) (x : Option Json),
          commit (⟨w, [(productId, v)]⟩, .ok x) productId = some v := by
        intro v x
        simp only [commit, applyWrites_single, if_true]
      refine ⟨result, hok.symm, hc _ _, ?_, ?_⟩
      · intro k h₁ h₂ h₃
        rw [fieldAt_eq _ _ _ _ (hc _ _),
          getField_setField_ne _ _ _ _ (Ne.symm h₃), getField_setField_ne _ _ _ _ (Ne.symm h₂),
          getField_setField_ne _ _ _ _ (Ne.symm h₁)]
      · intro key hkey
        simp only [commit, applyWrites_single, if_neg hkey]

theorem applyThresholdRule_missing (rt : JSRuntime) (product : JObject)
    (parameters : Option Json) (a op : String) (t : ℚ)
    (hA : getProp parameters "attribute" = .ok (some (.str a)))
    (hT : getProp parameters "threshold" = .ok (some (.num t)))
    (hO : getProp parameters "operator" = .ok (some (.str op)))
    (hv : getField product a = none)
    (hop : op = ">" ∨ op = "<" ∨ op = ">=" ∨ op = "<=" ∨ op = "==") :
    applyThresholdRule rt product parameters =
      .ok ⟨"Failed", a ++ " " ++ op ++ " " ++ rt.numberToString (.fin t)⟩ := by
  simp only [applyThresholdRule, hA, hT, hO, jsToString, toPrimitive, Prim.toStr, hv]
  rcases hop with rfl | rfl | rfl | rfl | rfl <;>
    simp [jsGt, jsLt, jsGe, jsLe, jsLooseEq, toPrimitive, Prim.lt?, Prim.toNumber,
      JSNum.lt?, isObject, Prim.looseEq]

theorem applyThresholdRule_unsupported_operator (rt : JSRuntime) (product : JObject)
    (parameters : Option Json) (a op : Option Json) (t : Option Json)
    (hA : getProp parameters "attribute" = .ok a)
    (hT : getProp parameters "threshold" = .ok t)
    (hO : getProp parameters "operator" = .ok op)
    (h₁ : op ≠ some (.str ">")) (h₂ : op ≠ some (.str "<")) (h₃ : op ≠ some (.str ">="))
    (h₄ : op ≠ some (.str "<=")) (h₅ : op ≠ some (.str "==")) :
    applyThresholdRule rt product parameters
      = .error ("Unsupported operator: " ++ jsToString rt op) := by
  simp only [applyThresholdRule, hA, hT, hO]

theorem applyVerificationRule_unsupported (rt : JSRuntime) (now : ℤ) (productId ruleId : String)
    (w : WorldState) (rule product : JObject)
    (hr : w ruleId = some rule) (hp : w productId = some product)
    (h₁ : getField rule "type" ≠ some (.str "threshold"))
    (h₂ : getField rule "type" ≠ some (.str "timeWindow")) :
    invoke (applyVerificationRule rt now productId ruleId) w =
      (⟨w, []⟩, .error ("Unsupported rule type: " ++ jsToString rt (getField rule "type"))) := by
  rw [applyVerificationRule_eq rt now productId ruleId w rule product hr hp]
  split
  · next e he =>
    split at he
    · exact absurd ‹_› h₁
    · exact absurd ‹_› h₂
    · simp only [Except.error.injEq] at he
      rw [he]
  · next result he =>
    split at he
    · exact absurd ‹_› h₁
    · exact absurd ‹_› h₂
    · simp at he

theorem applyVerificationRule_operator (rt : JSRuntime) (now : ℤ) (productId ruleId : String)
    (w : WorldState) (rule product : JObject) (a op t : Option Json)
    (hr : w ruleId = some rule) (hp : w productId = some product)
    (hty : getField rule "type" = some (.str "threshold"))
    (hA : getProp (getField rule "parameters") "attribute" = .ok a)
    (hT : getProp (getField rule "parameters") "threshold" = .ok t)
    (hO : getProp (getField rule "parameters") "operator" = .ok op)
    (h₁ : op ≠ some (.str ">")) (h₂ : op ≠ some (.str "<")) (h₃ : op ≠ some (.str ">="))
    (h₄ : op ≠ some (.str "<=")) (h₅ : op ≠ some (.str "==")) :
    invoke (applyVerificationRule rt now productId ruleId) w =
      (⟨w, []⟩, .error ("Unsupported operator: " ++ jsToString rt op)) := by
  rw [applyVerificationRule_eq rt now productId ruleId w rule product hr hp, hty]
  simp only [applyThresholdRule_unsupported_operator rt product _ a op t hA hT hO h₁ h₂ h₃ h₄ h₅]

theorem applyVerificationRule_unknownAttribute_eq :
    invoke (applyVerificationRule sampleRuntime (sampleNow + 3000) "P1" "R2")
      (worldOf [("P1", sampleProduct), ("R2", unknownAttributeRule)]) =
    (⟨worldOf [("P1", sampleProduct), ("R2", unknownAttributeRule)],
      [("P1", setField (setField (setField sampleProduct "verificationStatus" (.str "Failed"))
        "lastVerificationDate" (.str (sampleRuntime.toISOString (sampleNow + 3000))))
        "lastVerificationRule" (.str "R2"))]⟩,
      .ok (some (RuleResult.toJson ⟨"Failed",
        "score" ++ " " ++ ">" ++ " " ++ sampleRuntime.numberToString (.fin 40)⟩))) := by
  rw [applyVerificationRule_eq sampleRuntime (sampleNow + 3000) "P1" "R2" _ unknownAttributeRule
    sampleProduct rfl rfl]
  have hty : getField unknownAttributeRule "type" = some (.str "threshold") := rfl
  rw [hty]
  simp only [applyThresholdRule_missing sampleRuntime sampleProduct
    (getField unknownAttributeRule "parameters") "score" ">" 40 rfl rfl rfl rfl (Or.inl rfl)]

/-- C15 fails on the code for an unknown attribute: the product "P1" has no
value for "score", and applying the threshold rule `score > 40` to it returns
the decision 'Failed' instead of an error, and stores the product with
verificationStatus 'Failed' and lastVerificationRule "R2". -/
theorem applyVerificationRule_unknown_attribute_decides :
    getField sampleProduct "score" = none ∧
    fieldAt (worldOf [("P1", sampleProduct), ("R2", unknownAttributeRule)]) "P1"
      "verificationStatus" = none ∧
    (∃ details,
      (invoke (applyVerificationRule sampleRuntime (sampleNow + 3000) "P1" "R2")
        (worldOf [("P1", sampleProduct), ("R2", unknownAttributeRule)])).2 =
      .ok (some (RuleResult.toJson ⟨"Failed", details⟩))) ∧
    fieldAt (commit (invoke (applyVerificationRule sampleRuntime (sampleNow + 3000) "P1" "R2")
      (worldOf [("P1", sampleProduct), ("R2", unknownAttributeRule)]))) "P1"
      "verificationStatus" = some (.str "Failed") ∧
    fieldAt (commit (invoke (applyVerificationRule sampleRuntime (sampleNow + 3000) "P1" "R2")
      (worldOf [("P1", sampleProduct), ("R2", unknownAttributeRule)]))) "P1"
      "lastVerificationRule" = some (.str "R2") := by
  rw [applyVerificationRule_unknownAttribute_eq]
  have hc : ∀ (v : JObject) (x : Option Json),
      commit (⟨worldOf [("P1", sampleProduct), ("R2", unknownAttributeRule)], [("P1", v)]⟩,
        .ok x) "P1" = some v := by
    intro v x
    simp only [commit, applyWrites_single, if_true]
  refine ⟨rfl, rfl, ⟨_, rfl⟩, ?_, ?_⟩
  · rw [fieldAt_eq _ _ _ _ (hc _ _), getField_setField_ne _ _ _ _ (by decide),
      getField_setField_ne _ _ _ _ (by decide), getField_setField_same]
  · rw [fieldAt_eq _ _ _ _ (hc _ _), getField_setField_same]

theorem applyVerificationRule_scoreRule_ok :
    (invoke (applyVerificationRule sampleRuntime (sampleNow + 3000) "P1" "R1")
      (worldOf [("P1", scoredProduct), ("R1", scoreRule)])).2 =
    .ok (some (RuleResult.toJson ⟨"Verified",
      "overallEthicalScore" ++ " " ++ ">" ++ " " ++ sampleRuntime.numberToString (.fin 40)⟩)) := by
  rw [applyVerificationRule_eq sampleRuntime (sampleNow + 3000) "P1" "R1" _ scoreRule
    scoredProduct rfl rfl]
  have hty : getField scoreRule "type" = some (.str "threshold") := rfl
  rw [hty]
  simp only [applyThresholdRule_num sampleRuntime scoredProduct
    (getField scoreRule "parameters") "overallEthicalScore" ">" 80 40 rfl rfl rfl rfl]
  norm_num

/-- The rule `overallEthicalScore > 40` is applied to a product whose score
is 80. -/
theorem applyVerificationRule_frame_witness :
    ((invoke (applyVerificationRule sampleRuntime (sampleNow + 3000) "P1" "R1")
        (worldOf [("P1", scoredProduct), ("R1", scoreRule)])).2 =
        .ok (some (RuleResult.toJson ⟨"Verified",
          "overallEthicalScore" ++ " " ++ ">" ++ " " ++
            sampleRuntime.numberToString (.fin 40)⟩)) ∧
      worldOf [("P1", scoredProduct), ("R1", scoreRule)] "P1" = some scoredProduct) ∧
    ∃ result : RuleResult,
      some (RuleResult.toJson ⟨"Verified",
          "overallEthicalScore" ++ " " ++ ">" ++ " " ++
            sampleRuntime.numberToString (.fin 40)⟩) = some result.toJson ∧
      commit (invoke (applyVerificationRule sampleRuntime (sampleNow + 3000) "P1" "R1")
        (worldOf [("P1", scoredProduct), ("R1", scoreRule)])) "P1" =
        some (setField (setField (setField scoredProduct "verificationStatus"
          (.str result.status)) "lastVerificationDate"
          (.str (sampleRuntime.toISOString (sampleNow + 3000))))
          "lastVerificationRule" (.str "R1")) ∧
      (∀ k, k ≠ "verificationStatus" → k ≠ "lastVerificationDate" →
        k ≠ "lastVerificationRule" →
        fieldAt (commit (invoke (applyVerificationRule sampleRuntime (sampleNow + 3000) "P1" "R1")
          (worldOf [("P1", scoredProduct), ("R1", scoreRule)]))) "P1" k
          = getField scoredProduct k) ∧
      (∀ key, key ≠ "P1" →
        commit (invoke (applyVerificationRule sampleRuntime (sampleNow + 3000) "P1" "R1")
          (worldOf [("P1", scoredProduct), ("R1", scoreRule)])) key
          = worldOf [("P1", scoredProduct), ("R1", scoreRule)] key) :=
  ⟨⟨applyVerificationRule_scoreRule_ok, rfl⟩,
   applyVerificationRule_frame sampleRuntime (sampleNow + 3000) "P1" "R1"
     (worldOf [("P1", scoredProduct), ("R1", scoreRule)]) scoredProduct _
     applyVerificationRule_scoreRule_ok rfl⟩

/-! ### Product-tracking contract: history of a key -/

theorem collectHistory_eq (records : List (Option KeyModification)) (acc : List Json)
    (h : ∀ km, some km ∈ records → km.value ≠ none) :
    collectHistory records acc =
      .ok (acc ++ records.filterMap fun r => r.bind KeyModification.value) := by
  induction records generalizing acc with
  | nil => simp [collectHistory]
  | cons r rest ih =>
    have hrest : ∀ km, some km ∈ rest → km.value ≠ none :=
      fun km hkm => h km (List.mem_cons_of_mem _ hkm)
    cases r with
    | none => simp [collectHistory, ih _ hrest]
    | some km =>
      cases hv : km.value with
      | none => exact absurd hv (h km (List.mem_cons_self _ _))
      | some v => simp [collectHistory, hv, ih _ hrest]

theorem Ledger.submit_single (f : Stub → Tx) (l : Ledger) (k : String) (v : JObject)
    (r : Option Json) (h : invoke f l.world = (⟨l.world, [(k, v)]⟩, .ok r)) :
    (l.submit f).world k = some v ∧ (l.submit f).history k = l.history k ++ [v] := by
  simp [Ledger.submit, h, commit, applyWrites]

theorem addCertification_new (rt : JSRuntime) (now : ℤ) (id : String)
    (name manufacturer manufacturingDate batchNumber : Json)
    (certificationBody certificationDate expirationDate certificationDetails : Json)
    (w : WorldState)
    (hw : w id = some (newProduct rt now id name manufacturer manufacturingDate batchNumber)) :
    invoke (addCertification id certificationBody certificationDate expirationDate
      certificationDetails) w =
    (⟨w, [(id, setField (newProduct rt now id name manufacturer manufacturingDate batchNumber)
      "certifications" (.arr [newCertification certificationBody certificationDate
        expirationDate certificationDetails]))]⟩, .ok none) := by
  have h₀ : getField (newProduct rt now id name manufacturer manufacturingDate batchNumber)
      "certifications" = none := rfl
  simp only [invoke, addCertification, Stub.getState, hw, h₀, truthy, Bool.false_eq_true,
    if_false, getField_setField_same, push, List.nil_append, setField_setField_same,
    Stub.putState, newCertification]

/-- C18: the contract's `getProductHistory` returns one snapshot per result of
the history iterator, in the iterator's order, when every result carries a value
that parses; and on a ledger that iterates oldest first, for a key with no
earlier history on which createProduct, addCertification and transferProduct
were committed in this order, it returns exactly three snapshots: the product as
created, then with the certification added, then with the new owner and one
more tracking entry. -/
theorem getProductHistory_snapshots (records : List (Option KeyModification)) (stub : Stub)
    (hrec : ∀ km, some km ∈ records → km.value ≠ none)
    (rt : JSRuntime) (t₁ t₃ : ℤ) (id : String)
    (name manufacturer manufacturingDate batchNumber : Json)
    (certificationBody certificationDate expirationDate certificationDetails : Json)
    (newOwner location : Json) (l : Ledger) (hl : l.history id = []) :
    getProductHistory records stub =
      (stub, .ok (some (.arr (records.filterMap fun r => r.bind KeyModification.value)))) ∧
    getProductHistory
      ((((l.submit (createProduct rt t₁ id name manufacturer manufacturingDate batchNumber)).submit
        (addCertification id certificationBody certificationDate expirationDate
          certificationDetails)).submit
        (transferProduct rt t₃ id newOwner location)).historyFor id) stub =
      (stub, .ok (some (.arr
        [.obj (newProduct rt t₁ id name manufacturer manufacturingDate batchNumber),
         .obj (setField (newProduct rt t₁ id name manufacturer manufacturingDate batchNumber)
           "certifications" (.arr [newCertification certificationBody certificationDate
              expirationDate certificationDetails])),
         .obj (setField (setField (setField
            (newProduct rt t₁ id name manufacturer manufacturingDate batchNumber)
           "certifications" (.arr [newCertification certificationBody certificationDate
              expirationDate certificationDetails]))
           "currentOwner" newOwner)
           "trackingHistory" (.arr
             [.obj (trackingEntry manufacturer (.str (rt.toISOString t₁))
                (.str "Manufacturing Plant")),
              .obj (trackingEntry newOwner (.str (rt.toISOString t₃)) location)]))]))) := by
  constructor
  · simp only [getProductHistory, collectHistory_eq records [] hrec, List.nil_append]
  · obtain ⟨hw₁, hh₁⟩ := Ledger.submit_single
      (createProduct rt t₁ id name manufacturer manufacturingDate batchNumber) l id
      (newProduct rt t₁ id name manufacturer manufacturingDate batchNumber) none rfl
    obtain ⟨hw₂, hh₂⟩ := Ledger.submit_single
      (addCertification id certificationBody certificationDate expirationDate
        certificationDetails) _ id _ none
      (addCertification_new rt t₁ id name manufacturer manufacturingDate batchNumber
        certificationBody certificationDate expirationDate certificationDetails _ hw₁)
    obtain ⟨_, hh₃⟩ := Ledger.submit_single (transferProduct rt t₃ id newOwner location) _ id _
      none (transferProduct_eq rt t₃ id newOwner location _ _
        [.obj (trackingEntry manufacturer (.str (rt.toISOString t₁))
          (.str "Manufacturing Plant"))] hw₂ rfl)
    simp only [Ledger.historyFor, hh₃, hh₂, hh₁, hl, List.nil_append, List.map_append,
      List.map_cons, List.map_nil, getProductHistory, collectHistory, List.singleton_append,
      List.cons_append]

theorem getProductHistory_reverse (records : List (Option KeyModification)) (stub : Stub)
    (hrec : ∀ km, some km ∈ records → km.value ≠ none) :
    getProductHistory records.reverse stub =
      (stub, .ok (some (.arr
        (records.filterMap fun r => r.bind KeyModification.value).reverse))) := by
  have h : ∀ km, some km ∈ records.reverse → km.value ≠ none :=
    fun km hkm => hrec km (List.mem_reverse.1 hkm)
  simp only [getProductHistory, collectHistory_eq records.reverse [] h, List.nil_append,
    List.filterMap_reverse]

theorem sampleRecords_parse :
    ∀ km, some km ∈ [some (KeyModification.mk (some (.obj sampleProduct))), none,
      some (KeyModification.mk (some (.obj transferredProduct)))] → km.value ≠ none := by
  intro km hkm
  simp only [List.mem_cons, Option.some.injEq, List.mem_singleton, List.not_mem_nil,
    or_false, reduceCtorEq, false_or] at hkm
  rcases hkm with rfl | rfl <;> simp

/-- The history of "P1" on a ledger that was empty before createProduct,
addCertification and transferProduct were committed. -/
theorem getProductHistory_snapshots_witness :
    ((∀ km, some km ∈ [some (KeyModification.mk (some (.obj sampleProduct))), none,
        some (KeyModification.mk (some (.obj transferredProduct)))] → km.value ≠ none) ∧
      emptyLedger.history "P1" = []) ∧
    (getProductHistory [some (KeyModification.mk (some (.obj sampleProduct))), none,
        some (KeyModification.mk (some (.obj transferredProduct)))] ⟨worldOf [], []⟩ =
      (⟨worldOf [], []⟩, .ok (some (.arr
        ([some (KeyModification.mk (some (.obj sampleProduct))), none,
          some (KeyModification.mk (some (.obj transferredProduct)))].filterMap
            fun r => r.bind KeyModification.value)))) ∧
    getProductHistory
      ((((emptyLedger.submit (createProduct sampleRuntime sampleNow "P1" (.str "Widget")
          (.str "Acme") (.str "2024-01-01") (.str "B-1"))).submit
        (addCertification "P1" (.str "FairTrade") (.str "2024-02-01") (.str "2025-02-01")
          (.str "audit 17"))).submit
        (transferProduct sampleRuntime (sampleNow + 5000) "P1" (.str "Retailer")
          (.str "Lagos"))).historyFor "P1") ⟨worldOf [], []⟩ =
      (⟨worldOf [], []⟩, .ok (some (.arr
        [.obj (newProduct sampleRuntime sampleNow "P1" (.str "Widget") (.str "Acme")
            (.str "2024-01-01") (.str "B-1")),
         .obj (setField (newProduct sampleRuntime sampleNow "P1" (.str "Widget") (.str "Acme")
            (.str "2024-01-01") (.str "B-1"))
           "certifications" (.arr [newCertification (.str "FairTrade") (.str "2024-02-01")
              (.str "2025-02-01") (.str "audit 17")])),
         .obj (setField (setField (setField
            (newProduct sampleRuntime sampleNow "P1" (.str "Widget") (.str "Acme")
              (.str "2024-01-01") (.str "B-1"))
           "certifications" (.arr [newCertification (.str "FairTrade") (.str "2024-02-01")
              (.str "2025-02-01") (.str "audit 17")]))
           "currentOwner" (.str "Retailer"))
           "trackingHistory" (.arr
             [.obj (trackingEntry (.str "Acme") (.str (sampleRuntime.toISOString sampleNow))
                (.str "Manufacturing Plant")),
              .obj (trackingEntry (.str "Retailer")
                (.str (sampleRuntime.toISOString (sampleNow + 5000))) (.str "Lagos"))]))])))) :=
  ⟨⟨sampleRecords_parse, rfl⟩,
   getProductHistory_snapshots _ ⟨worldOf [], []⟩ sampleRecords_parse sampleRuntime sampleNow
     (sampleNow + 5000) "P1" (.str "Widget") (.str "Acme") (.str "2024-01-01") (.str "B-1")
     (.str "FairTrade") (.str "2024-02-01") (.str "2025-02-01") (.str "audit 17")
     (.str "Retailer") (.str "Lagos") emptyLedger rfl⟩

/-! ### Controller: product history -/

theorem ProductController.getProductHistory_eq (svc : ProductController.HistoryServices)
    (req : ProductController.Request) (productId product ethProductId f e : Option Json)
    (h₁ : getProp req.params "productId" = .ok productId)
    (h₂ : svc.getProductHistory productId = .ok f)
    (h₃ : svc.getProductById productId = .ok product)
    (h₄ : getProp product "ethProductId" = .ok ethProductId)
    (h₅ : svc.getProductHistoryEth ethProductId = .ok e) :
    ProductController.getProductHistory svc req =
      if !truthy f && !truthy e then ProductController.historyNotFound
      else ProductController.historyFound f e := by
  simp only [ProductController.getProductHistory, ProductController.getProductHistoryTry, bind,
    Except.bind, h₁, h₂, h₃, h₄, h₅]
  cases hf : truthy f <;> cases he : truthy e <;> simp [pure, Except.pure]

theorem ProductController.getProductHistory_unavailable (svc : ProductController.HistoryServices)
    (req : ProductController.Request) (productId : Option Json) (err : String)
    (h₁ : getProp req.params "productId" = .ok productId)
    (h₂ : svc.getProductHistory productId = .error err) :
    ProductController.getProductHistory svc req = .next err := by
  simp only [ProductController.getProductHistory, ProductController.getProductHistoryTry, bind,
    Except.bind, h₁, h₂]

/-- C17 fails on the code when both histories are empty lists: the handler
tests `!fabricHistory && !ethHistory`, an empty array is truthy, and the reply is
200 with the two empty lists, not 404. -/
theorem ProductController.getProductHistory_empty_lists :
    ProductController.getProductHistory (historyServices (some (.arr [])) (some (.arr [])))
        verifyRequest
      = .json 200 (.obj [("success", .bool true),
          ("data", .obj [("fabricHistory", .arr []), ("ethHistory", .arr [])])]) ∧
    ProductController.getProductHistory (historyServices (some (.arr [])) (some (.arr [])))
        verifyRequest
      ≠ ProductController.historyNotFound := by
  have h : ProductController.getProductHistory
      (historyServices (some (.arr [])) (some (.arr []))) verifyRequest
      = .json 200 (.obj [("success", .bool true),
          ("data", .obj [("fabricHistory", .arr []), ("ethHistory", .arr [])])]) := rfl
  rw [h]
  exact ⟨rfl, by simp [ProductController.historyNotFound]⟩

/-! ### Domain operations: the order of the calls -/

namespace Coordinator

theorem Run.bind_apply {α β : Type} (m : Run α) (f : α → Run β) (b : Backend) :
    (m >>= f) b = match m b with
      | (b', .ok a) => f a b'
      | (b', .error e) => (b', .error e) := rfl

theorem Run.pure_apply {α : Type} (a : α) (b : Backend) : (pure a : Run α) b = (b, .ok a) := rfl

theorem Phase.run_append (p : Phase) (xs ys : List Effect) :
    p.run (xs ++ ys) = match p.run xs with
      | some q => q.run ys
      | none => none := by
  induction xs generalizing p with
  | nil => simp [Phase.run]
  | cons e rest ih =>
    simp only [List.cons_append, Phase.run]
    cases p.step e with
    | none => rfl
    | some q => exact ih q

theorem replay_append (db : SupplyChain.ProductService.Collection) (xs ys : List Effect) :
    replay db (xs ++ ys) = replay (replay db xs) ys := by
  induction xs generalizing db with
  | nil => rfl
  | cons e rest ih =>
    cases e with
    | save id doc ok => cases ok <;> simp [replay, ih]
    | _ => simp [replay, ih]

theorem Reached.refl (b : Backend) : Reached b b .start :=
  ⟨[], by simp, rfl, rfl⟩

theorem Reached.record {b₀ b b' : Backend} {p q : Phase} (e : Effect)
    (h : Reached b₀ b p) (hstep : p.step e = some q)
    (hlog : b'.log = b.log ++ [e]) (hdb : b'.db = replay b.db [e]) : Reached b₀ b' q := by
  obtain ⟨new, hl, hr, hd⟩ := h
  refine ⟨new ++ [e], ?_, ?_, ?_⟩
  · rw [hlog, hl, List.append_assoc]
  · rw [Phase.run_append, hr]
    simp [Phase.run, hstep]
  · rw [hdb, hd, replay_append]

theorem Step.bind {α β : Type} {Err : Phase → String → Prop} {p q r : Phase} {m : Run α}
    {f : α → Run β} (hm : Step Err p m q) (hf : ∀ a, Step Err q (f a) r) :
    Step Err p (m >>= f) r := by
  intro b₀ b h
  have h₁ := hm b₀ b h
  rw [Run.bind_apply]
  rcases hmb : m b with ⟨b', res⟩
  rw [hmb] at h₁
  cases res with
  | error e => exact h₁
  | ok a => exact hf a b₀ b' h₁

theorem Step.pure {α : Type} {Err : Phase → String → Prop} (p : Phase) (a : α) :
    Step Err p (pure a : Run α) p := by
  intro b₀ b h
  exact h

theorem Step.lift {α : Type} {Err : Phase → String → Prop} (p : Phase) (x : Except String α)
    (hlax : Lax Err) (h₁ : p ≠ .unsaved) (h₂ : p ≠ .refused) : Step Err p (Run.lift x) p := by
  intro b₀ b h
  cases x with
  | ok a => exact h
  | error e => exact ⟨p, h, hlax p e h₁ h₂⟩

theorem Step.catchAs {α : Type} {p q : Phase} {m : Run α} (msg : String)
    (hm : Step ErrInside p m q) : Step (ErrOf msg) p (Run.catchAs msg m) q := by
  intro b₀ b h
  have h₁ := hm b₀ b h
  simp only [Run.catchAs]
  rcases hmb : m b with ⟨b', res⟩
  rw [hmb] at h₁
  cases res with
  | ok a => exact h₁
  | error e =>
    obtain ⟨q', hq, he⟩ := h₁
    exact ⟨q', hq, fun _ => rfl, fun hr => absurd hr he⟩

theorem lax_inside : Lax ErrInside := fun _ _ _ h => h

theorem lax_of (msg : String) : Lax (ErrOf msg) :=
  fun _ _ h₁ h₂ => ⟨fun h => absurd h h₁, fun h => absurd h h₂⟩

end Coordinator

namespace Coordinator

theorem Step.save_start {Err : Phase → String → Prop} (env : Env) (id : String) (doc : JObject)
    (hErr : ∀ e, Err .unsaved e) : Step Err .start (ProductService.save env id doc) .stored := by
  intro b₀ b h
  unfold ProductService.save
  cases env.saveError b.log doc with
  | none => exact Reached.record (.save id doc true) h rfl rfl rfl
  | some e => exact ⟨.unsaved, Reached.record (.save id doc false) h rfl rfl rfl, hErr e⟩

theorem Step.save_published {Err : Phase → String → Prop} (env : Env) (id : String)
    (doc : JObject) (hlax : Lax Err) :
    Step Err .published (ProductService.save env id doc) .published := by
  intro b₀ b h
  unfold ProductService.save
  cases env.saveError b.log doc with
  | none => exact Reached.record (.save id doc true) h rfl rfl rfl
  | some e =>
    exact ⟨.stopped, Reached.record (.save id doc false) h rfl rfl rfl,
      hlax _ _ (by decide) (by decide)⟩

theorem Step.connectToNetwork {Err : Phase → String → Prop} (env : Env) (p : Phase)
    (hlax : Lax Err) (hp : p = .stored ∨ p = .committed) :
    Step Err p (BlockchainService.connectToNetwork env) p := by
  intro b₀ b h
  unfold BlockchainService.connectToNetwork
  cases env.connects b.log with
  | true =>
    rcases hp with rfl | rfl
    · exact Reached.record (.connect true) h rfl rfl rfl
    · exact Reached.record (.connect true) h rfl rfl rfl
  | false =>
    rcases hp with rfl | rfl
    · exact ⟨.stopped, Reached.record (.connect false) h rfl rfl rfl,
        hlax _ _ (by decide) (by decide)⟩
    · exact ⟨.stopped, Reached.record (.connect false) h rfl rfl rfl,
        hlax _ _ (by decide) (by decide)⟩

theorem Step.submitTransaction {Err : Phase → String → Prop} (env : Env) (p : Phase)
    (fn : String) (args : Except String (List Arg))
    (hlax : Lax Err) (hp : p = .stored ∨ p = .committed) :
    Step Err p (BlockchainService.submitTransaction env fn args) .committed := by
  intro b₀ b h
  unfold BlockchainService.submitTransaction
  cases args with
  | error e =>
    rcases hp with rfl | rfl
    · exact ⟨.stored, h, hlax _ _ (by decide) (by decide)⟩
    · exact ⟨.committed, h, hlax _ _ (by decide) (by decide)⟩
  | ok args =>
    dsimp only
    cases env.endorses b.log fn args with
    | true =>
      rw [if_pos rfl]
      rcases hp with rfl | rfl
      · exact Reached.record (.submit fn args true) h rfl rfl rfl
      · exact Reached.record (.submit fn args true) h rfl rfl rfl
    | false =>
      rw [if_neg Bool.false_ne_true]
      rcases hp with rfl | rfl
      · exact ⟨.stopped, Reached.record (.submit fn args false) h rfl rfl rfl,
          hlax _ _ (by decide) (by decide)⟩
      · exact ⟨.stopped, Reached.record (.submit fn args false) h rfl rfl rfl,
          hlax _ _ (by decide) (by decide)⟩

theorem Step.getEthereumAccount {Err : Phase → String → Prop} (env : Env) (p : Phase)
    (hlax : Lax Err) (hp : p = .committed ∨ p = .published) :
    Step Err p (BlockchainService.getEthereumAccount env) .published := by
  intro b₀ b h
  unfold BlockchainService.getEthereumAccount
  cases env.account b.log with
  | ok account =>
    rcases hp with rfl | rfl
    · exact Reached.record (.accounts true) h rfl rfl rfl
    · exact Reached.record (.accounts true) h rfl rfl rfl
  | error e =>
    rcases hp with rfl | rfl
    · exact ⟨.stopped, Reached.record (.accounts false) h rfl rfl rfl,
        hlax _ _ (by decide) (by decide)⟩
    · exact ⟨.stopped, Reached.record (.accounts false) h rfl rfl rfl,
        hlax _ _ (by decide) (by decide)⟩

end Coordinator

namespace Coordinator

theorem Step.send {Err : Phase → String → Prop} (env : Env) (p : Phase) (method : String)
    (args : List Arg) (extract : Option Json → Except String (Option Json))
    (hlax : Lax Err) (href : Err .refused "Ethereum transaction failed")
    (hp : p = .committed ∨ p = .published) :
    Step Err p (BlockchainService.send env method args extract) .published := by
  intro b₀ b h
  unfold BlockchainService.send
  cases env.sends b.log method args with
  | none =>
    dsimp only
    by_cases hm : method ∈ definedSends
    · refine ⟨.refused, Reached.record (.send method args false) h ?_ rfl rfl, href⟩
      rcases hp with rfl | rfl <;> simp [Phase.step, hm]
    · refine ⟨.stopped, Reached.record (.send method args false) h ?_ rfl rfl,
        hlax _ _ (by decide) (by decide)⟩
      rcases hp with rfl | rfl <;> simp [Phase.step, hm]
  | some receipt =>
    dsimp only
    have hstep : p.step (.send method args true) = some .published := by
      rcases hp with rfl | rfl <;> rfl
    cases extract receipt with
    | ok v => exact Reached.record (.send method args true) h hstep rfl rfl
    | error e =>
      exact ⟨.published, Reached.record (.send method args true) h hstep rfl rfl,
        hlax _ _ (by decide) (by decide)⟩

theorem Step.undefinedMethod {Err : Phase → String → Prop} (env : Env) (p : Phase)
    (method : String) (args : List Arg) (hlax : Lax Err) (hm : method ∉ definedSends)
    (hp : p = .committed ∨ p = .published) :
    Step Err p (BlockchainService.undefinedMethod env method args) .published := by
  intro b₀ b h
  unfold BlockchainService.undefinedMethod
  cases env.undefinedMethod b.log method args with
  | ok v =>
    refine Reached.record (.send method args true) h ?_ rfl rfl
    rcases hp with rfl | rfl <;> rfl
  | error e =>
    refine ⟨.stopped, Reached.record (.send method args false) h ?_ rfl rfl,
      hlax _ _ (by decide) (by decide)⟩
    rcases hp with rfl | rfl <;> simp [Phase.step, hm]

theorem Step.noEffect {α : Type} {Err : Phase → String → Prop} {m : Run α} (p : Phase)
    (hm : ∀ b, (m b).1 = b) (hlax : Lax Err) (h₁ : p ≠ .unsaved) (h₂ : p ≠ .refused) :
    Step Err p m p := by
  intro b₀ b h
  have hb := hm b
  rcases hmb : m b with ⟨b', res⟩
  rw [hmb] at hb
  dsimp only at hb
  subst hb
  cases res with
  | ok a => exact h
  | error e => exact ⟨p, h, hlax p e h₁ h₂⟩

theorem ProductService.findById_apply (productId : Option Json) (b : Backend) :
    ∃ r, ProductService.findById productId b = (b, .ok r) := by
  unfold ProductService.findById
  split
  · exact ⟨_, rfl⟩
  · exact ⟨_, rfl⟩

theorem ProductService.idOfNew_apply (env : Env) (productData : JObject) (b : Backend) :
    ∃ r, ProductService.idOfNew env productData b = (b, .ok r) := by
  unfold ProductService.idOfNew
  split
  · exact ⟨_, rfl⟩
  · exact ⟨_, rfl⟩

theorem Step.findById {Err : Phase → String → Prop} (p : Phase) (productId : Option Json)
    (hlax : Lax Err) (h₁ : p ≠ .unsaved) (h₂ : p ≠ .refused) :
    Step Err p (ProductService.findById productId) p := by
  refine Step.noEffect p (fun b => ?_) hlax h₁ h₂
  obtain ⟨r, hr⟩ := ProductService.findById_apply productId b
  rw [hr]

theorem Step.idOfNew {Err : Phase → String → Prop} (p : Phase) (env : Env)
    (productData : JObject) (hlax : Lax Err) (h₁ : p ≠ .unsaved) (h₂ : p ≠ .refused) :
    Step Err p (ProductService.idOfNew env productData) p := by
  refine Step.noEffect p (fun b => ?_) hlax h₁ h₂
  obtain ⟨r, hr⟩ := ProductService.idOfNew_apply env productData b
  rw [hr]

theorem Step.getProductById {Err : Phase → String → Prop} (p : Phase) (productId : Option Json)
    (hlax : Lax Err) (h₁ : p ≠ .unsaved) (h₂ : p ≠ .refused) :
    Step Err p (ProductService.getProductById productId) p := by
  refine Step.noEffect p (fun b => ?_) hlax h₁ h₂
  obtain ⟨r, hr⟩ := ProductService.findById_apply productId b
  unfold ProductService.getProductById Run.catchAs
  rw [Run.bind_apply, hr]
  cases r with
  | none => rfl
  | some r => rfl

end Coordinator

namespace Coordinator

theorem Step.recordOnLedger {Err : Phase → String → Prop} (env : Env) (p : Phase) (fn : String)
    (args : Except String (List Arg)) (hlax : Lax Err) (hp : p = .stored ∨ p = .committed) :
    Step Err p
      (BlockchainService.connectToNetwork env >>= fun _ =>
        BlockchainService.submitTransaction env fn args) .committed := by
  refine Step.bind (Step.connectToNetwork env p hlax hp) fun _ => ?_
  exact Step.submitTransaction env p fn args hlax hp

theorem Step.recordProductCreation {Err : Phase → String → Prop} (env : Env) (p : Phase)
    (product : JObject) (hlax : Lax Err) (hp : p = .stored ∨ p = .committed) :
    Step Err p (BlockchainService.recordProductCreation env product) .committed :=
  Step.recordOnLedger env p _ _ hlax hp

theorem Step.recordProductUpdate {Err : Phase → String → Prop} (env : Env) (p : Phase)
    (productId updateData updatedBy : Option Json) (hlax : Lax Err)
    (hp : p = .stored ∨ p = .committed) :
    Step Err p (BlockchainService.recordProductUpdate env productId updateData updatedBy)
      .committed :=
  Step.recordOnLedger env p _ _ hlax hp

theorem Step.recordProductTransfer {Err : Phase → String → Prop} (env : Env) (p : Phase)
    (productId newOwner location transferredBy : Option Json) (hlax : Lax Err)
    (hp : p = .stored ∨ p = .committed) :
    Step Err p
      (BlockchainService.recordProductTransfer env productId newOwner location transferredBy)
      .committed :=
  Step.recordOnLedger env p _ _ hlax hp

theorem Step.recordCertification {Err : Phase → String → Prop} (env : Env) (p : Phase)
    (productId certification : Option Json) (hlax : Lax Err)
    (hp : p = .stored ∨ p = .committed) :
    Step Err p (BlockchainService.recordCertification env productId certification) .committed :=
  Step.recordOnLedger env p _ _ hlax hp

theorem Step.recordEthicalScore {Err : Phase → String → Prop} (env : Env) (p : Phase)
    (productId ethicalScore : Option Json) (hlax : Lax Err)
    (hp : p = .stored ∨ p = .committed) :
    Step Err p (BlockchainService.recordEthicalScore env productId ethicalScore) .committed :=
  Step.recordOnLedger env p _ _ hlax hp

theorem Step.createProductEth {Err : Phase → String → Prop} (env : Env) (product : JObject)
    (hlax : Lax Err) (href : Err .refused "Ethereum transaction failed") :
    Step Err .committed (BlockchainService.createProductEth env product) .published := by
  refine Step.bind (Step.getEthereumAccount env .committed hlax (.inl rfl)) fun account => ?_
  exact Step.send env .published "createProduct" _ _ hlax href (.inr rfl)

theorem Step.transferProductEth {Err : Phase → String → Prop} (env : Env)
    (productId newOwner location : Option Json)
    (hlax : Lax Err) (href : Err .refused "Ethereum transaction failed") :
    Step Err .committed (BlockchainService.transferProductEth env productId newOwner location)
      .published := by
  refine Step.bind (Step.getEthereumAccount env .committed hlax (.inl rfl)) fun account => ?_
  exact Step.send env .published "transferProduct" _ _ hlax href (.inr rfl)

theorem Step.createEthicalAssessmentEth {Err : Phase → String → Prop} (env : Env)
    (productId category score evidence : Option Json)
    (hlax : Lax Err) (href : Err .refused "Ethereum transaction failed") :
    Step Err .committed
      (BlockchainService.createEthicalAssessmentEth env productId category score evidence)
      .published := by
  refine Step.bind (Step.getEthereumAccount env .committed hlax (.inl rfl)) fun account => ?_
  exact Step.send env .published "createAssessment" _ _ hlax href (.inr rfl)

theorem errInside_unsaved (e : String) : ErrInside .unsaved e := by
  intro h
  cases h

/-- After its store write a service submits to the permissioned ledger and
resolves. -/
theorem Step.afterSave {α : Type} (env : Env) (id : String) (doc : JObject) (record : Run Unit)
    (a : α) (hrecord : Step ErrInside .stored record .committed) :
    Step ErrInside .start
      (ProductService.save env id doc >>= fun _ => record >>= fun _ => Pure.pure a) .committed := by
  refine Step.bind (Step.save_start env id doc errInside_unsaved) fun _ => ?_
  refine Step.bind hrecord fun _ => ?_
  exact Step.pure .committed a

theorem Step.notFound {α : Type} :
    Step ErrInside .start (Run.lift (.error "Product not found") : Run α) .committed := by
  intro b₀ b h
  exact ⟨.start, h, by unfold ErrInside; decide⟩

end Coordinator

namespace Coordinator

theorem ProductService.createProduct_step (env : Env) (productData : JObject) :
    Step (ErrOf "Failed to create product") .start
      (ProductService.createProduct env productData) .committed := by
  unfold ProductService.createProduct
  refine Step.catchAs _ ?_
  refine Step.bind (Step.idOfNew .start env productData lax_inside (by decide) (by decide))
    fun id => ?_
  exact Step.afterSave env id _ _ _
    (Step.recordProductCreation env .stored _ lax_inside (.inl rfl))

theorem ProductService.updateProduct_step (env : Env) (productId updateData updatedBy : Option Json) :
    Step (ErrOf "Failed to update product") .start
      (ProductService.updateProduct env productId updateData updatedBy) .committed := by
  unfold ProductService.updateProduct
  refine Step.catchAs _ ?_
  refine Step.bind (Step.findById .start productId lax_inside (by decide) (by decide))
    fun r => ?_
  rcases r with _ | ⟨id, stored⟩
  · exact Step.notFound
  · exact Step.afterSave env id _ _ _
      (Step.recordProductUpdate env .stored _ _ _ lax_inside (.inl rfl))

theorem ProductService.transferProduct_step (env : Env)
    (productId newOwner location transferredBy : Option Json) :
    Step (ErrOf "Failed to transfer product") .start
      (ProductService.transferProduct env productId newOwner location transferredBy)
      .committed := by
  unfold ProductService.transferProduct
  refine Step.catchAs _ ?_
  refine Step.bind (Step.findById .start productId lax_inside (by decide) (by decide))
    fun r => ?_
  rcases r with _ | ⟨id, stored⟩
  · exact Step.notFound
  · exact Step.afterSave env id _ _ _
      (Step.recordProductTransfer env .stored _ _ _ _ lax_inside (.inl rfl))

theorem ProductService.addCertification_step (env : Env) (productId : Option Json)
    (certificationData : JObject) :
    Step (ErrOf "Failed to add certification") .start
      (ProductService.addCertification env productId certificationData) .committed := by
  unfold ProductService.addCertification
  refine Step.catchAs _ ?_
  refine Step.bind (Step.findById .start productId lax_inside (by decide) (by decide))
    fun r => ?_
  rcases r with _ | ⟨id, stored⟩
  · exact Step.notFound
  · refine Step.bind (Step.lift .start _ lax_inside (by decide) (by decide))
      fun certifications => ?_
    exact Step.afterSave env id _ _ _
      (Step.recordCertification env .stored _ _ lax_inside (.inl rfl))

theorem ProductService.addEthicalScore_step (rt : JSRuntime) (env : Env)
    (productId : Option Json) (scoreData : JObject) :
    Step (ErrOf "Failed to add ethical score") .start
      (ProductService.addEthicalScore rt env productId scoreData) .committed := by
  unfold ProductService.addEthicalScore
  refine Step.catchAs _ ?_
  refine Step.bind (Step.findById .start productId lax_inside (by decide) (by decide))
    fun r => ?_
  rcases r with _ | ⟨id, stored⟩
  · exact Step.notFound
  · refine Step.bind (Step.lift .start _ lax_inside (by decide) (by decide)) fun pushed => ?_
    have hthrow : ∀ msg : String,
        Step ErrInside .start (Run.lift (.error msg) : Run JObject) .committed := by
      intro msg b₀ b h
      exact ⟨.start, h, by unfold ErrInside; decide⟩
    cases pushed with
    | arr ethicalScores =>
      refine Step.bind (Step.lift .start _ lax_inside (by decide) (by decide))
        fun overall => ?_
      exact Step.afterSave env id _ _ _
        (Step.recordEthicalScore env .stored _ _ lax_inside (.inl rfl))
    | null => exact hthrow _
    | bool _ => exact hthrow _
    | num _ => exact hthrow _
    | str _ => exact hthrow _
    | obj _ => exact hthrow _

end Coordinator

namespace Coordinator

open SupplyChain.ProductController (Request Reply)

theorem Step.liftStart {α β : Type} {Err : Phase → String → Prop} {q : Phase}
    (hlax : Lax Err) (x : Except String α) (f : α → Run β)
    (hf : ∀ a, Step Err .start (f a) q) : Step Err .start (Run.lift x >>= f) q :=
  Step.bind (Step.lift .start x hlax (by decide) (by decide)) hf

theorem errOf_refused (msg : String) : ErrOf msg .refused "Ethereum transaction failed" :=
  ⟨fun h => (by cases h), fun _ => rfl⟩

theorem ProductController.handler_sound (msg : String) (m : Run Reply) (q : Phase)
    (h₁ : q ≠ .unsaved) (h₂ : q ≠ .refused) (hm : Step (ErrOf msg) .start m q) (b : Backend) :
    ∃ q', Reached b (ProductController.handler m b).1 q' ∧
      (q' = .refused →
        (ProductController.handler m b).2 = .next "Ethereum transaction failed") ∧
      (q' = .unsaved → (ProductController.handler m b).2 = .next msg) := by
  have h := hm b b (Reached.refl b)
  unfold ProductController.handler
  rcases hmb : m b with ⟨b', res⟩
  rw [hmb] at h
  cases res with
  | ok reply => exact ⟨q, h, fun hq => absurd hq h₂, fun hq => absurd hq h₁⟩
  | error e =>
    obtain ⟨q', hr, hu, hf⟩ := h
    exact ⟨q', hr, fun hq => by rw [hf hq], fun hq => by rw [hu hq]⟩

theorem ProductController.createProduct_sound (env : Env) (req : Request) (b : Backend) :
    ∃ q, Reached b (ProductController.createProduct env req b).1 q ∧
      (q = .refused →
        (ProductController.createProduct env req b).2 = .next "Ethereum transaction failed") ∧
      (q = .unsaved →
        (ProductController.createProduct env req b).2 = .next "Failed to create product") := by
  unfold ProductController.createProduct
  refine ProductController.handler_sound _ _ .published (by decide) (by decide) ?_ b
  refine Step.liftStart (lax_of _) _ _ fun name => ?_
  refine Step.liftStart (lax_of _) _ _ fun manufacturer => ?_
  refine Step.liftStart (lax_of _) _ _ fun manufacturingDate => ?_
  refine Step.liftStart (lax_of _) _ _ fun batchNumber => ?_
  refine Step.liftStart (lax_of _) _ _ fun additionalDetails => ?_
  refine Step.liftStart (lax_of _) _ _ fun createdBy => ?_
  refine Step.bind (ProductService.createProduct_step env _) fun product => ?_
  refine Step.bind (Step.recordProductCreation env .committed product (lax_of _) (.inr rfl))
    fun _ => ?_
  refine Step.bind (Step.createProductEth env product (lax_of _) (errOf_refused _))
    fun ethProductId => ?_
  dsimp only
  split
  · exact Step.bind (Step.save_published env _ _ (lax_of _)) fun _ => Step.pure .published _
  · exact Step.bind (Step.pure .published ()) fun _ => Step.pure .published _

theorem ProductController.updateProduct_sound (env : Env) (req : Request) (b : Backend) :
    ∃ q, Reached b (ProductController.updateProduct env req b).1 q ∧
      (q = .refused →
        (ProductController.updateProduct env req b).2 = .next "Ethereum transaction failed") ∧
      (q = .unsaved →
        (ProductController.updateProduct env req b).2 = .next "Failed to update product") := by
  unfold ProductController.updateProduct
  refine ProductController.handler_sound _ _ .published (by decide) (by decide) ?_ b
  refine Step.liftStart (lax_of _) _ _ fun productId => ?_
  refine Step.liftStart (lax_of _) _ _ fun updatedBy => ?_
  refine Step.bind (ProductService.updateProduct_step env _ _ _) fun updatedProduct => ?_
  refine Step.bind (Step.recordProductUpdate env .committed _ _ _ (lax_of _) (.inr rfl))
    fun _ => ?_
  refine Step.bind (Step.undefinedMethod env .committed "updateProductEth" _ (lax_of _)
    (by decide) (.inl rfl)) fun _ => ?_
  exact Step.pure .published _

theorem ProductController.transferProduct_sound (env : Env) (req : Request) (b : Backend) :
    ∃ q, Reached b (ProductController.transferProduct env req b).1 q ∧
      (q = .refused →
        (ProductController.transferProduct env req b).2 =
          .next "Ethereum transaction failed") ∧
      (q = .unsaved →
        (ProductController.transferProduct env req b).2 =
          .next "Failed to transfer product") := by
  unfold ProductController.transferProduct
  refine ProductController.handler_sound _ _ .published (by decide) (by decide) ?_ b
  refine Step.liftStart (lax_of _) _ _ fun productId => ?_
  refine Step.liftStart (lax_of _) _ _ fun newOwner => ?_
  refine Step.liftStart (lax_of _) _ _ fun location => ?_
  refine Step.liftStart (lax_of _) _ _ fun transferredBy => ?_
  refine Step.bind (ProductService.transferProduct_step env _ _ _ _) fun transferResult => ?_
  refine Step.bind (Step.recordProductTransfer env .committed _ _ _ _ (lax_of _) (.inr rfl))
    fun _ => ?_
  refine Step.bind (Step.lift .committed _ (lax_of _) (by decide) (by decide))
    fun ethProductId => ?_
  refine Step.bind (Step.transferProductEth env _ _ _ (lax_of _) (errOf_refused _))
    fun _ => ?_
  exact Step.pure .published _

theorem ProductController.addCertification_sound (env : Env) (req : Request) (b : Backend) :
    ∃ q, Reached b (ProductController.addCertification env req b).1 q ∧
      (q = .refused →
        (ProductController.addCertification env req b).2 =
          .next "Ethereum transaction failed") ∧
      (q = .unsaved →
        (ProductController.addCertification env req b).2 =
          .next "Failed to add certification") := by
  unfold ProductController.addCertification
  refine ProductController.handler_sound _ _ .published (by decide) (by decide) ?_ b
  refine Step.liftStart (lax_of _) _ _ fun productId => ?_
  refine Step.liftStart (lax_of _) _ _ fun certificationBody => ?_
  refine Step.liftStart (lax_of _) _ _ fun certificationDate => ?_
  refine Step.liftStart (lax_of _) _ _ fun expirationDate => ?_
  refine Step.liftStart (lax_of _) _ _ fun certificationDetails => ?_
  refine Step.liftStart (lax_of _) _ _ fun addedBy => ?_
  refine Step.bind (ProductService.addCertification_step env _ _) fun certification => ?_
  refine Step.bind (Step.recordCertification env .committed _ _ (lax_of _) (.inr rfl))
    fun _ => ?_
  refine Step.bind (Step.getProductById .committed productId (lax_of _) (by decide) (by decide))
    fun product => ?_
  refine Step.bind (Step.undefinedMethod env .committed "recordCertificationEth" _ (lax_of _)
    (by decide) (.inl rfl)) fun _ => ?_
  exact Step.pure .published _

theorem ProductController.addEthicalScore_sound (rt : JSRuntime) (env : Env) (req : Request)
    (b : Backend) :
    ∃ q, Reached b (ProductController.addEthicalScore rt env req b).1 q ∧
      (q = .refused →
        (ProductController.addEthicalScore rt env req b).2 =
          .next "Ethereum transaction failed") ∧
      (q = .unsaved →
        (ProductController.addEthicalScore rt env req b).2 =
          .next "Failed to add ethical score") := by
  unfold ProductController.addEthicalScore
  refine ProductController.handler_sound _ _ .published (by decide) (by decide) ?_ b
  refine Step.liftStart (lax_of _) _ _ fun productId => ?_
  refine Step.liftStart (lax_of _) _ _ fun scoreCategory => ?_
  refine Step.liftStart (lax_of _) _ _ fun score => ?_
  refine Step.liftStart (lax_of _) _ _ fun assessmentDate => ?_
  refine Step.liftStart (lax_of _) _ _ fun assessor => ?_
  refine Step.bind (ProductService.addEthicalScore_step rt env _ _) fun ethicalScore => ?_
  refine Step.bind (Step.recordEthicalScore env .committed _ _ (lax_of _) (.inr rfl))
    fun _ => ?_
  refine Step.bind (Step.getProductById .committed productId (lax_of _) (by decide) (by decide))
    fun product => ?_
  refine Step.bind (Step.createEthicalAssessmentEth env _ _ _ _ (lax_of _) (errOf_refused _))
    fun _ => ?_
  exact Step.pure .published _

end Coordinator

namespace Coordinator

/-! The automaton: what a sequence of calls that is in order looks like. -/

theorem Phase.run_unsaved (es : List Effect) (q : Phase) (h : Phase.unsaved.run es = some q) :
    es = [] ∧ q = .unsaved := by
  cases es with
  | nil => exact ⟨rfl, by simpa [Phase.run] using h.symm⟩
  | cons e rest => cases e <;> simp [Phase.run, Phase.step] at h

theorem Phase.run_refused (es : List Effect) (q : Phase) (h : Phase.refused.run es = some q) :
    es = [] ∧ q = .refused := by
  cases es with
  | nil => exact ⟨rfl, by simpa [Phase.run] using h.symm⟩
  | cons e rest => cases e <;> simp [Phase.run, Phase.step] at h

theorem Phase.run_stopped (es : List Effect) (q : Phase) (h : Phase.stopped.run es = some q) :
    es = [] ∧ q = .stopped := by
  cases es with
  | nil => exact ⟨rfl, by simpa [Phase.run] using h.symm⟩
  | cons e rest => cases e <;> simp [Phase.run, Phase.step] at h

theorem storeFirst_of_run (es : List Effect) (q : Phase) (h : Phase.start.run es = some q) :
    storeFirst es = true := by
  cases es with
  | nil => rfl
  | cons e rest =>
    cases e with
    | save id doc ok =>
      cases ok with
      | true => rfl
      | false =>
        have hr : Phase.unsaved.run rest = some q := by simpa [Phase.run, Phase.step] using h
        rw [(Phase.run_unsaved rest q hr).1]
        rfl
    | connect ok => simp [Phase.run, Phase.step] at h
    | submit fn args ok => simp [Phase.run, Phase.step] at h
    | accounts ok => simp [Phase.run, Phase.step] at h
    | send m args ok => simp [Phase.run, Phase.step] at h

end Coordinator

namespace Coordinator

theorem publicAfterCommit_of_run (es : List Effect) :
    ∀ (p q : Phase) (c : Bool), p.run es = some q →
      (p = .committed ∨ p = .published → c = true) → publicAfterCommit c es = true := by
  induction es with
  | nil =>
    intros
    rfl
  | cons e rest ih =>
    intro p q c h hc
    simp only [Phase.run] at h
    cases hs : p.step e with
    | none =>
      rw [hs] at h
      cases h
    | some p' =>
      rw [hs] at h
      simp only [publicAfterCommit, Bool.and_eq_true]
      have key : (!e.isPublic || c) = true ∧
          (p' = .committed ∨ p' = .published → (c || e.isCommit) = true) := by
        clear h ih
        cases p <;> cases e <;> simp [Phase.step] at hs <;> subst hs <;>
          (try split_ifs) <;> simp_all [Effect.isPublic, Effect.isCommit]
      exact ⟨key.1, ih p' q _ h key.2⟩

end Coordinator

namespace Coordinator

theorem failedPermissionedStops_of_run (es : List Effect) :
    ∀ (p q : Phase), p.run es = some q →
      ((p = .published ∨ p = .unsaved ∨ p = .refused ∨ p = .stopped) →
        (es.any fun e => e.isPermissioned && !e.succeeded) = false) ∧
      failedPermissionedStops es = true := by
  induction es with
  | nil =>
    intro p q _
    exact ⟨fun _ => rfl, rfl⟩
  | cons e rest ih =>
    intro p q h
    simp only [Phase.run] at h
    cases hs : p.step e with
    | none =>
      rw [hs] at h
      cases h
    | some p' =>
      rw [hs] at h
      obtain ⟨ih₁, ih₂⟩ := ih p' q h
      have late : (p = .published ∨ p = .unsaved ∨ p = .refused ∨ p = .stopped) →
          (e.isPermissioned && !e.succeeded) = false ∧
          (p' = .published ∨ p' = .unsaved ∨ p' = .refused ∨ p' = .stopped) := by
        clear h ih ih₁ ih₂
        cases p <;> cases e <;> simp [Phase.step] at hs <;> subst hs <;>
          (try split_ifs) <;> simp_all [Effect.isPermissioned, Effect.succeeded]
      have failed : (e.isPermissioned && !e.succeeded) = true →
          p' = .stopped ∧ e.isPublic = false := by
        clear h ih ih₁ ih₂ late
        cases p <;> cases e <;> simp [Phase.step] at hs <;> subst hs <;>
          (try split_ifs) <;>
          simp_all [Effect.isPermissioned, Effect.succeeded, Effect.isPublic]
      have isPublic : e.isPublic = true →
          (p' = .published ∨ p' = .unsaved ∨ p' = .refused ∨ p' = .stopped) := by
        clear h ih ih₁ ih₂ late failed
        cases p <;> cases e <;> simp [Phase.step] at hs <;> subst hs <;>
          (try split_ifs) <;> simp_all [Effect.isPublic]
      refine ⟨fun hp => ?_, ?_⟩
      · rw [List.any_cons, (late hp).1, ih₁ (late hp).2]
        rfl
      · unfold failedPermissionedStops at ih₂ ⊢
        rw [List.any_cons, List.all_cons]
        cases hf : (e.isPermissioned && !e.succeeded) with
        | true =>
          obtain ⟨hstop, hpub⟩ := failed hf
          rw [hstop] at h
          rw [(Phase.run_stopped rest q h).1, hpub]
          rfl
        | false =>
          cases hpub : e.isPublic with
          | true =>
            rw [ih₁ (isPublic hpub)]
            rfl
          | false => simpa using ih₂

theorem refused_of_run (es : List Effect) :
    ∀ (p q : Phase), p.run es = some q → es.any Effect.isRefusedSend = true →
      q = .refused ∧ (p ≠ .unsaved ∧ p ≠ .refused ∧ p ≠ .stopped) ∧
      (p = .start ∨ p = .stored → es.any Effect.isCommit = true) ∧
      (p = .start → (es.any fun e => e.isStore && e.succeeded) = true) := by
  induction es with
  | nil =>
    intro p q _ h
    cases h
  | cons e rest ih =>
    intro p q h hany
    simp only [Phase.run] at h
    cases hs : p.step e with
    | none =>
      rw [hs] at h
      cases h
    | some p' =>
      rw [hs] at h
      have alive : p ≠ .unsaved ∧ p ≠ .refused ∧ p ≠ .stopped := by
        clear h ih hany
        cases p <;> cases e <;> simp [Phase.step] at hs <;> simp
      have refusal : e.isRefusedSend = true →
          p' = .refused ∧ p ≠ .start ∧ p ≠ .stored := by
        clear h ih hany alive
        cases p <;> cases e <;> simp [Phase.step] at hs <;> subst hs <;>
          (try split_ifs) <;> simp_all [Effect.isRefusedSend]
      have commits : (p = .start ∨ p = .stored) → (p' ≠ .unsaved ∧ p' ≠ .refused ∧ p' ≠ .stopped) →
          e.isCommit = true ∨ p' = .start ∨ p' = .stored := by
        clear h ih hany alive refusal
        cases p <;> cases e <;> simp [Phase.step] at hs <;> subst hs <;>
          (try split_ifs) <;> simp_all [Effect.isCommit]
      have stores : p = .start → (p' ≠ .unsaved ∧ p' ≠ .refused ∧ p' ≠ .stopped) →
          (e.isStore && e.succeeded) = true := by
        clear h ih hany alive refusal commits
        cases p <;> cases e <;> simp [Phase.step] at hs <;> subst hs <;>
          (try split_ifs) <;> simp_all [Effect.isStore, Effect.succeeded]
      rw [List.any_cons] at hany
      cases hr : e.isRefusedSend with
      | true =>
        obtain ⟨hp', h₁, h₂⟩ := refusal hr
        rw [hp'] at h
        refine ⟨(Phase.run_refused rest q h).2, alive, fun hp => ?_, fun hp => absurd hp h₁⟩
        rcases hp with hp | hp
        · exact absurd hp h₁
        · exact absurd hp h₂
      | false =>
        rw [hr, Bool.false_or] at hany
        obtain ⟨hq, halive, hc, _⟩ := ih p' q h hany
        refine ⟨hq, alive, fun hp => ?_, fun hp => ?_⟩
        · rw [List.any_cons]
          rcases commits hp halive with he | hp'
          · rw [he]
            rfl
          · rw [hc hp', Bool.or_true]
        · rw [List.any_cons, stores hp halive]
          rfl

end Coordinator

namespace Coordinator

open SupplyChain.ProductController (Request Reply)

theorem permissionedBeforePublic_of_run (es : List Effect) :
    ∀ (p q : Phase) (s : Bool), p.run es = some q →
      (s = true → p ≠ .start ∧ p ≠ .stored ∧ p ≠ .committed) →
      permissionedBeforePublic s es = true := by
  induction es with
  | nil =>
    intros
    rfl
  | cons e rest ih =>
    intro p q s h hs'
    simp only [Phase.run] at h
    cases hs : p.step e with
    | none =>
      rw [hs] at h
      cases h
    | some p' =>
      rw [hs] at h
      simp only [permissionedBeforePublic, Bool.and_eq_true]
      have key : (!e.isPermissioned || !s) = true ∧
          ((s || e.isPublic) = true → p' ≠ .start ∧ p' ≠ .stored ∧ p' ≠ .committed) := by
        clear h ih
        cases s <;> cases p <;> cases e <;> simp [Phase.step] at hs <;> subst hs <;>
          (try split_ifs) <;> simp_all [Effect.isPublic, Effect.isPermissioned]
      exact ⟨key.1, ih p' q _ h key.2⟩

theorem effectsSince_of_reached {b₀ b : Backend} {q : Phase} (h : Reached b₀ b q) :
    b.log = b₀.log ++ effectsSince b₀ b ∧ Phase.start.run (effectsSince b₀ b) = some q ∧
    b.db = replay b₀.db (effectsSince b₀ b) := by
  obtain ⟨new, hl, hr, hd⟩ := h
  have hnew : effectsSince b₀ b = new := by
    unfold effectsSince
    rw [hl, List.drop_left]
  rw [hnew]
  exact ⟨hl, hr, hd⟩

theorem DomainOp.handle_reached (rt : JSRuntime) (env : Env) (op : DomainOp) (req : Request)
    (b : Backend) :
    ∃ q, Reached b (op.handle rt env req b).1 q ∧
      (q = .refused → (op.handle rt env req b).2 = .next "Ethereum transaction failed") ∧
      (q = .unsaved → (op.handle rt env req b).2 = .next op.failureMessage) := by
  cases op with
  | create => exact ProductController.createProduct_sound env req b
  | update => exact ProductController.updateProduct_sound env req b
  | transfer => exact ProductController.transferProduct_sound env req b
  | addCertification => exact ProductController.addCertification_sound env req b
  | addEthicalScore => exact ProductController.addEthicalScore_sound rt env req b

end Coordinator

namespace Coordinator

open SupplyChain.ProductController (Request Reply)

/-- C19: in each of the five domain operations, whatever the store and the
ledgers answer, the calls the handler makes are in the order store, permissioned
ledger, public ledger.  The first call is a write to the store, and when it
fails no call follows.  No call to the permissioned ledger follows a call to
the public ledger, and every call to the public ledger comes after a
transaction the permissioned ledger accepted; when a call to the permissioned
ledger fails the public ledger is not called at all.  The store at the end is
the store at the start with every accepted write applied, so a failed ledger
call undoes nothing. -/
theorem domainOp_effects_in_order (rt : JSRuntime) (env : Env) (op : DomainOp) (req : Request)
    (b : Backend) :
    (op.handle rt env req b).1.log = b.log ++ effectsSince b (op.handle rt env req b).1 ∧
    storeFirst (effectsSince b (op.handle rt env req b).1) = true ∧
    permissionedBeforePublic false (effectsSince b (op.handle rt env req b).1) = true ∧
    publicAfterCommit false (effectsSince b (op.handle rt env req b).1) = true ∧
    failedPermissionedStops (effectsSince b (op.handle rt env req b).1) = true ∧
    (op.handle rt env req b).1.db = replay b.db (effectsSince b (op.handle rt env req b).1) := by
  obtain ⟨q, hq, _, _⟩ := DomainOp.handle_reached rt env op req b
  obtain ⟨hlog, hrun, hdb⟩ := effectsSince_of_reached hq
  refine ⟨hlog, storeFirst_of_run _ q hrun, ?_, ?_, ?_, hdb⟩
  · exact permissionedBeforePublic_of_run _ .start q false hrun (fun h => by cases h)
  · refine publicAfterCommit_of_run _ .start q false hrun (fun h => ?_)
    rcases h with h | h <;> cases h
  · exact (failedPermissionedStops_of_run _ .start q hrun).2

/-- C20 fails on the code: when a product is created, the store and the
permissioned ledger accept every call and the `send` to the public ledger
throws, the handler passes `Error('Ethereum transaction failed')` to `next`;
no reply is sent that carries an operation, a payload or the two ledgers. -/
theorem createProduct_publicFailure_no_partialCommit :
    (effectsSince emptyBackend
        (DomainOp.create.handle sampleRuntime refusingPublicLedger createRequest
          emptyBackend).1).map Effect.isCommit
      = [false, false, true, false, true, false, false] ∧
    (effectsSince emptyBackend
        (DomainOp.create.handle sampleRuntime refusingPublicLedger createRequest
          emptyBackend).1).map Effect.isRefusedSend
      = [false, false, false, false, false, false, true] ∧
    (DomainOp.create.handle sampleRuntime refusingPublicLedger createRequest emptyBackend).2
      = .next "Ethereum transaction failed" ∧
    ¬ CarriesPartialCommit
      (DomainOp.create.handle sampleRuntime refusingPublicLedger createRequest emptyBackend).2 :=
  ⟨rfl, rfl, rfl, fun h => h⟩

/-- C20, as the code has it: in each domain operation in which a `send` of a
defined public-ledger method fails, the handler passes an error with the
message 'Ethereum transaction failed' to `next`; the store write and a
transaction on the permissioned ledger were accepted before, and the store
keeps every accepted write.  The message differs from the message of the
operation's service, which is the one passed to `next` whenever the first store
write is refused. -/
theorem publicFailure_reply (rt : JSRuntime) (env : Env) (op : DomainOp) (req : Request)
    (b : Backend)
    (h : (effectsSince b (op.handle rt env req b).1).any Effect.isRefusedSend = true) :
    (op.handle rt env req b).2 = .next "Ethereum transaction failed" ∧
    ¬ CarriesPartialCommit (op.handle rt env req b).2 ∧
    (effectsSince b (op.handle rt env req b).1).any Effect.isCommit = true ∧
    ((effectsSince b (op.handle rt env req b).1).any fun e => e.isStore && e.succeeded) = true ∧
    (op.handle rt env req b).1.db = replay b.db (effectsSince b (op.handle rt env req b).1) ∧
    "Ethereum transaction failed" ≠ op.failureMessage ∧
    ∀ (env' : Env) (req' : Request) (b' : Backend),
      (∃ id doc rest, effectsSince b' (op.handle rt env' req' b').1 = .save id doc false :: rest) →
      (op.handle rt env' req' b').2 = .next op.failureMessage := by
  obtain ⟨q, hq, hrefused, _⟩ := DomainOp.handle_reached rt env op req b
  obtain ⟨_, hrun, hdb⟩ := effectsSince_of_reached hq
  obtain ⟨hqr, _, hcommit, hstore⟩ := refused_of_run _ .start q hrun h
  have hreply := hrefused hqr
  refine ⟨hreply, ?_, hcommit (.inl rfl), hstore rfl, hdb, ?_, ?_⟩
  · rw [hreply]
    exact fun hc => hc
  · cases op <;> decide
  · intro env' req' b' hfirst
    obtain ⟨id, doc, rest, htrace⟩ := hfirst
    obtain ⟨q', hq', _, hunsaved⟩ := DomainOp.handle_reached rt env' op req' b'
    obtain ⟨_, hrun', _⟩ := effectsSince_of_reached hq'
    rw [htrace] at hrun'
    have hrest : Phase.unsaved.run rest = some q' := by
      simpa [Phase.run, Phase.step] using hrun'
    exact hunsaved (Phase.run_unsaved rest q' hrest).2

theorem publicFailure_reply_witness :
    (effectsSince stockedBackend
        (DomainOp.addEthicalScore.handle sampleRuntime refusingPublicLedger scoreRequest
          stockedBackend).1).any Effect.isRefusedSend = true ∧
    (DomainOp.addEthicalScore.handle sampleRuntime refusingPublicLedger scoreRequest
        stockedBackend).2 = .next "Ethereum transaction failed" :=
  ⟨rfl, (publicFailure_reply sampleRuntime refusingPublicLedger .addEthicalScore scoreRequest
    stockedBackend rfl).1⟩

end Coordinator

/-! ### Middlewares -/

namespace AuthMiddleware

open SupplyChain.ProductController (Request)

theorem sameValueZero_str (n : String) (v : Option Json) :
    sameValueZero (.str n) v = true ↔ v = some (.str n) := by
  cases v with
  | none => simp [sameValueZero]
  | some j =>
    cases j <;> simp [sameValueZero]
    exact eq_comm

theorem includes_names (names : List String) (v : Option Json) :
    includes (names.map Json.str) v = true ↔ ∃ n ∈ names, v = some (.str n) := by
  simp only [includes, List.any_eq_true, List.mem_map]
  constructor
  · rintro ⟨x, ⟨n, hn, rfl⟩, h⟩
    exact ⟨n, hn, (sameValueZero_str n v).1 h⟩
  · rintro ⟨n, hn, h⟩
    exact ⟨.str n, ⟨n, hn, rfl⟩, (sameValueZero_str n v).2 h⟩

/-- Called with role names, the middleware of `authorize` admits exactly the
requests whose `req.user.role` is one of the names. -/
theorem authorize_passes_iff (names : List String) (req : Request) (role : Option Json)
    (h : getProp req.user "role" = .ok role) :
    authorize (names.map Json.str) req = .ok .proceed ↔ ∃ n ∈ names, role = some (.str n) := by
  rw [← includes_names]
  simp only [authorize, h]
  cases includes (names.map Json.str) role <;> simp

theorem includes_createRouteRoles (v : Option Json) : includes createRouteRoles v = false := by
  simp [includes, createRouteRoles, sameValueZero]

/-- C26 fails on the code for the product-creation route: the route calls
`authorize(['manufacturer', 'admin'])`, so `roles` is the one-element list
holding that array and `roles.includes(req.user.role)` is false for every role.
A user whose role is 'manufacturer' is rejected, and so is every request; with
the two names passed as two arguments the same user is admitted. -/
theorem authorize_createRoute_rejects_manufacturer :
    authorize createRouteRoles (requestOf "manufacturer")
      = .ok (.reject "You do not have permission to perform this action") ∧
    (∀ req : Request, authorize createRouteRoles req ≠ .ok .proceed) ∧
    authorize [.str "manufacturer", .str "admin"] (requestOf "manufacturer") = .ok .proceed ∧
    authorize [.str "manufacturer", .str "admin"] (requestOf "retailer")
      = .ok (.reject "You do not have permission to perform this action") := by
  refine ⟨rfl, ?_, rfl, rfl⟩
  intro req
  simp only [authorize, includes_createRouteRoles]
  cases getProp req.user "role" <;> simp

end AuthMiddleware

namespace AuthMiddleware

theorem length_filter_le_of_imp {α : Type} (p q : α → Bool) (l : List α)
    (h : ∀ a, p a = true → q a = true) : (l.filter p).length ≤ (l.filter q).length := by
  induction l with
  | nil => simp
  | cons a rest ih =>
    cases hp : p a with
    | true =>
      rw [List.filter_cons_of_pos hp, List.filter_cons_of_pos (h a hp)]
      exact Nat.succ_le_succ ih
    | false =>
      rw [List.filter_cons_of_neg (by simp [hp])]
      cases hq : q a with
      | true =>
        rw [List.filter_cons_of_pos hq]
        exact Nat.le_succ_of_le ih
      | false =>
        rw [List.filter_cons_of_neg (by simp [hq])]
        exact ih

theorem rateLimiter_eq (maxRequests : ℕ) (perMinutes : ℚ) (requests : Requests) (ip : String)
    (now : ℤ) :
    rateLimiter maxRequests perMinutes requests ip now =
      if maxRequests ≤ (((requests ip).getD []).filter fun timestamp : ℤ =>
          decide ((now : ℚ) - perMinutes * 60 * 1000 < (timestamp : ℚ))).length then
        (requests, .reject "Too many requests, please try again later.")
      else
        (fun k => if k = ip then some ((requests ip).getD [] ++ [now]) else requests k,
          .proceed) := rfl

theorem inWindow_recent (perMinutes : ℚ) (t now x : ℤ) (hnow : inWindow perMinutes t now = true)
    (hx : inWindow perMinutes t x = true) :
    decide ((now : ℚ) - perMinutes * 60 * 1000 < (x : ℚ)) = true := by
  simp only [inWindow, decide_eq_true_eq] at hnow hx ⊢
  have h : (now : ℚ) ≤ (t : ℚ) := by exact_mod_cast hnow.2
  linarith [hx.1]

/-- The timestamps recorded for each ip never exceed the limit in any window. -/
theorem rateLimiter_keeps_bound (maxRequests : ℕ) (perMinutes : ℚ) (requests : Requests)
    (ip : String) (now : ℤ)
    (hinv : ∀ ip t, (((requests ip).getD []).filter (inWindow perMinutes t)).length
      ≤ maxRequests) :
    ∀ ip' t, ((((rateLimiter maxRequests perMinutes requests ip now).1 ip').getD []).filter
      (inWindow perMinutes t)).length ≤ maxRequests := by
  intro ip' t
  rw [rateLimiter_eq]
  split
  · exact hinv ip' t
  · next hlt =>
    by_cases hip : ip' = ip
    · subst hip
      simp only [if_true, Option.getD_some, List.filter_append, List.length_append]
      cases hnow : inWindow perMinutes t now with
      | false =>
        rw [List.filter_cons_of_neg (by simp [hnow])]
        simpa using hinv ip' t
      | true =>
        rw [List.filter_cons_of_pos hnow]
        have hle := length_filter_le_of_imp (inWindow perMinutes t)
          (fun timestamp : ℤ => decide ((now : ℚ) - perMinutes * 60 * 1000 < (timestamp : ℚ)))
          ((requests ip').getD []) (fun x hx => inWindow_recent perMinutes t now x hnow hx)
        simp only [List.filter_nil, List.length_cons, List.length_nil]
        omega
    · simp only [if_neg hip]
      exact hinv ip' t

theorem passed_cons (maxRequests : ℕ) (perMinutes : ℚ) (requests : Requests) (ip : String)
    (now : ℤ) (rest : List (String × ℤ)) :
    passed maxRequests perMinutes requests ((ip, now) :: rest) =
      if maxRequests ≤ (((requests ip).getD []).filter fun timestamp : ℤ =>
          decide ((now : ℚ) - perMinutes * 60 * 1000 < (timestamp : ℚ))).length then
        passed maxRequests perMinutes requests rest
      else
        (ip, now) :: passed maxRequests perMinutes
          (fun k => if k = ip then some ((requests ip).getD [] ++ [now]) else requests k) rest := by
  simp only [passed, rateLimiter_eq]
  split_ifs <;> rfl

theorem passed_bound (maxRequests : ℕ) (perMinutes : ℚ) (reqs : List (String × ℤ)) :
    ∀ requests : Requests,
      (∀ ip t, (((requests ip).getD []).filter (inWindow perMinutes t)).length ≤ maxRequests) →
      ∀ ip t, (((requests ip).getD []).filter (inWindow perMinutes t)).length +
        countInWindow perMinutes ip t (passed maxRequests perMinutes requests reqs)
          ≤ maxRequests := by
  induction reqs with
  | nil =>
    intro requests hinv ip t
    simpa [passed, countInWindow] using hinv ip t
  | cons r rest ih =>
    obtain ⟨ip₀, now⟩ := r
    intro requests hinv ip t
    have hkeep := rateLimiter_keeps_bound maxRequests perMinutes requests ip₀ now hinv
    have hstep := ih (rateLimiter maxRequests perMinutes requests ip₀ now).1 hkeep ip t
    rw [passed_cons]
    rw [rateLimiter_eq] at hstep
    split
    · next hge =>
      rw [if_pos hge] at hstep
      exact hstep
    · next hlt =>
      rw [if_neg hlt] at hstep
      simp only at hstep
      by_cases hip : ip = ip₀
      · subst hip
        simp only [if_true, Option.getD_some, List.filter_append, List.length_append] at hstep
        simp only [countInWindow, List.filter_cons, decide_True, Bool.true_and] at hstep ⊢
        cases hnow : inWindow perMinutes t now with
        | false =>
          simp only [hnow, Bool.false_eq_true, if_false, List.filter_nil, List.length_nil,
            add_zero] at hstep ⊢
          exact hstep
        | true =>
          simp only [hnow, if_true, List.filter_nil, List.length_cons, List.length_nil]
            at hstep ⊢
          omega
      · simp only [if_neg hip] at hstep
        have hne : ip₀ ≠ ip := fun h => hip h.symm
        simp only [countInWindow, List.filter_cons, hne, decide_False, Bool.false_and,
          Bool.false_eq_true, if_false] at hstep ⊢
        exact hstep

/-- C27: for the middleware of `rateLimiter(maxRequests, perMinutes)`, started
with its empty Map and serving any sequence of requests, whatever the clock
readings: for every ip and every time `t`, at most `maxRequests` of the admitted
requests of that ip have a time in the interval `(t - perMinutes minutes, t]`;
a rejected request leaves the Map as it was; a request changes the timestamps
of no other ip; and the verdict on a request depends only on the timestamps
recorded for its own ip. -/
theorem rateLimiter_window (maxRequests : ℕ) (perMinutes : ℚ) :
    (∀ (reqs : List (String × ℤ)) (ip : String) (t : ℤ),
      countInWindow perMinutes ip t (passed maxRequests perMinutes (fun _ => none) reqs)
        ≤ maxRequests) ∧
    (∀ (requests : Requests) (ip : String) (now : ℤ) (message : String),
      (rateLimiter maxRequests perMinutes requests ip now).2 = .reject message →
      (rateLimiter maxRequests perMinutes requests ip now).1 = requests) ∧
    (∀ (requests : Requests) (ip : String) (now : ℤ) (other : String), other ≠ ip →
      (rateLimiter maxRequests perMinutes requests ip now).1 other = requests other) ∧
    (∀ (requests requests' : Requests) (ip : String) (now : ℤ), requests ip = requests' ip →
      (rateLimiter maxRequests perMinutes requests ip now).2 =
        (rateLimiter maxRequests perMinutes requests' ip now).2) := by
  refine ⟨fun reqs ip t => ?_, fun requests ip now message h => ?_,
    fun requests ip now other hne => ?_, fun requests requests' ip now h => ?_⟩
  · have h := passed_bound maxRequests perMinutes reqs (fun _ => none)
      (fun _ _ => by simp) ip t
    simpa using h
  · rw [rateLimiter_eq] at h ⊢
    split
    · rfl
    · next hlt =>
      rw [if_neg hlt] at h
      cases h
  · rw [rateLimiter_eq]
    split
    · rfl
    · simp only [if_neg hne]
  · rw [rateLimiter_eq, rateLimiter_eq, h]
    split <;> rfl

end AuthMiddleware

namespace AuthMiddleware

/-- With a limit of 2 requests per minute the third request of "a" within the
minute is rejected, the request of "b" is admitted, and "a" is admitted again
once its first two requests are a minute old. -/
theorem passed_example :
    passed 2 1 (fun _ => none) [("a", 0), ("a", 1), ("a", 2), ("b", 2), ("a", 60001)]
      = [("a", 0), ("a", 1), ("b", 2), ("a", 60001)] := by
  simp [passed_cons]
  norm_num
  rfl

end AuthMiddleware

/-! ### Ethical-sourcing contract: only the first match counts -/

/-- C30: for a product whose first certification, in list order, with the
requested certificationBody is `cert`, the value `verifyCertification` returns is
the same whatever certifications precede and follow `cert` (on any product and
world state with the same first match); after the call the stored list of
certifications is the list before the call with at most the status of `cert`
changed, every other field of the product is as before, and no other key is
written. -/
theorem verifyCertification_first_match_only (rt : JSRuntime) (now : ℤ) (productId : String)
    (body : Json) (w w' : WorldState) (product product' : JObject) (pre pre' : List Json)
    (cert : JObject) (post post' : List Json)
    (hp : w productId = some product)
    (hc : getField product "certifications" = some (.arr (pre ++ .obj cert :: post)))
    (hpre : ∀ c ∈ pre, ∃ f, c = .obj f ∧ strictEq (getField f "certificationBody") body = false)
    (hp' : w' productId = some product')
    (hc' : getField product' "certifications" = some (.arr (pre' ++ .obj cert :: post')))
    (hpre' : ∀ c ∈ pre', ∃ f, c = .obj f ∧
      strictEq (getField f "certificationBody") body = false)
    (hm : strictEq (getField cert "certificationBody") body = true) :
    (invoke (verifyCertification rt now productId body) w).2 =
      (invoke (verifyCertification rt now productId body) w').2 ∧
    (∃ cert', fieldAt (commit (invoke (verifyCertification rt now productId body) w)) productId
        "certifications" = some (.arr (pre ++ .obj cert' :: post)) ∧
      ∀ k, k ≠ "status" → getField cert' k = getField cert k) ∧
    (∀ k, k ≠ "certifications" →
      fieldAt (commit (invoke (verifyCertification rt now productId body) w)) productId k
        = getField product k) ∧
    (∀ key, key ≠ productId →
      commit (invoke (verifyCertification rt now productId body) w) key = w key) := by
  rw [verifyCertification_eq rt now productId body w product pre cert post hp hc hpre hm,
    verifyCertification_eq rt now productId body w' product' pre' cert post' hp' hc' hpre' hm]
  by_cases h : ∃ d, newDate rt (getField cert "expirationDate") = some d ∧ d < now
  · simp only [if_pos h, true_and]
    have hcommit : commit (⟨w, [(productId, setField product "certifications"
        (.arr (pre ++ .obj (setField cert "status" (.str "Expired")) :: post)))]⟩,
        .ok expiredReport) productId = some (setField product "certifications"
        (.arr (pre ++ .obj (setField cert "status" (.str "Expired")) :: post))) := by
      simp only [commit, applyWrites_single, if_true]
    refine ⟨⟨setField cert "status" (.str "Expired"), ?_,
      fun k hk => getField_setField_ne _ _ _ _ (fun h => hk h.symm)⟩, fun k hk => ?_,
      fun key hkey => ?_⟩
    · rw [fieldAt_eq _ productId _ _ hcommit, getField_setField_same]
    · rw [fieldAt_eq _ productId _ _ hcommit,
        getField_setField_ne _ _ _ _ (fun h => hk h.symm)]
    · simp only [commit, applyWrites_single, if_neg hkey]
  · simp only [if_neg h, true_and]
    refine ⟨⟨cert, ?_, fun _ _ => rfl⟩, fun k _ => ?_, fun key _ => rfl⟩
    · rw [fieldAt_eq _ productId _ product (by simpa only [commit, applyWrites] using hp), hc]
    · rw [fieldAt_eq _ productId _ product (by simpa only [commit, applyWrites] using hp)]

/-- An unexpired "FairTrade" certification that follows the expired one does
not change the report, and neither does the "Organic" one that precedes it. -/
theorem verifyCertification_first_match_only_witness :
    (worldWith (certifiedProduct [.obj organicCert, .obj expiredSecond]) "P1"
        = some (certifiedProduct [.obj organicCert, .obj expiredSecond]) ∧
      worldWith (certifiedProduct [.obj expiredSecond, .obj validFirst]) "P1"
        = some (certifiedProduct [.obj expiredSecond, .obj validFirst]) ∧
      strictEq (getField expiredSecond "certificationBody") (.str "FairTrade") = true ∧
      strictEq (getField validFirst "certificationBody") (.str "FairTrade") = true) ∧
    (invoke (verifyCertification sampleRuntime sampleNow "P1" (.str "FairTrade"))
        (worldWith (certifiedProduct [.obj organicCert, .obj expiredSecond]))).2 =
      (invoke (verifyCertification sampleRuntime sampleNow "P1" (.str "FairTrade"))
        (worldWith (certifiedProduct [.obj expiredSecond, .obj validFirst]))).2 :=
  ⟨⟨rfl, rfl, rfl, rfl⟩,
   (verifyCertification_first_match_only sampleRuntime sampleNow "P1" (.str "FairTrade")
     (worldWith (certifiedProduct [.obj organicCert, .obj expiredSecond]))
     (worldWith (certifiedProduct [.obj expiredSecond, .obj validFirst]))
     (certifiedProduct [.obj organicCert, .obj expiredSecond])
     (certifiedProduct [.obj expiredSecond, .obj validFirst])
     [.obj organicCert] [] expiredSecond [] [.obj validFirst] rfl rfl
     (by
        intro c hc
        rw [List.mem_singleton] at hc
        exact ⟨organicCert, hc, rfl⟩)
     rfl rfl (fun c hc => absurd hc (List.not_mem_nil c)) rfl).1⟩

/-! ### A certification is marked expired only after it expired -/

theorem expiredOnlyPast_same (rt : JSRuntime) (now : ℤ) (v p : JObject)
    (hv : getField v "certifications" = getField p "certifications")
    (hp : ExpiredOnlyPast rt now p) : ExpiredOnlyPast rt now v := by
  intro certs c hc
  rw [hv] at hc
  exact hp certs c hc

theorem expiredOnlyPast_none (rt : JSRuntime) (now : ℤ) (v : JObject)
    (hv : getField v "certifications" = none) : ExpiredOnlyPast rt now v := by
  intro certs c hc
  rw [hv] at hc
  cases hc

theorem applyWrites_all (P : JObject → Prop) (writes : List (String × JObject))
    (hwrites : ∀ kv ∈ writes, P kv.2) (w : WorldState) (hw : ∀ k o, w k = some o → P o) :
    ∀ k o, applyWrites w writes k = some o → P o := by
  induction writes generalizing w with
  | nil => exact hw
  | cons kv rest ih =>
    obtain ⟨k₀, v₀⟩ := kv
    apply ih (fun kv hkv => hwrites kv (List.mem_cons_of_mem _ hkv))
    intro k o hk
    by_cases h : k = k₀
    · simp only [h, if_true, Option.some.injEq] at hk
      subst hk
      exact hwrites (k₀, v₀) (List.mem_cons_self _ _)
    · simp only [if_neg h] at hk
      exact hw k o hk

theorem commit_all (P : JObject → Prop) (tx : Tx) (hwrites : ∀ kv ∈ tx.1.writes, P kv.2)
    (hw : ∀ k o, tx.1.world k = some o → P o) : ∀ k o, commit tx k = some o → P o := by
  unfold commit
  cases tx.2 with
  | ok r => exact applyWrites_all P tx.1.writes hwrites tx.1.world hw
  | error e => exact hw

theorem findCertification_get (body : Json) (certs : List Json) (i : Nat) (cert : JObject)
    (h : findCertification body certs = .ok (some (i, cert))) :
    certs.get? i = some (.obj cert) := by
  induction certs generalizing i with
  | nil => simp [findCertification] at h
  | cons c rest ih =>
    cases c with
    | null => simp [findCertification] at h
    | obj f =>
      simp only [findCertification] at h
      split at h
      · simp only [Except.ok.injEq, Option.some.injEq, Prod.mk.injEq] at h
        obtain ⟨rfl, rfl⟩ := h
        rfl
      · split at h
        · cases h
        · cases h
        · next j found hrest =>
          simp only [Except.ok.injEq, Option.some.injEq, Prod.mk.injEq] at h
          obtain ⟨rfl, rfl⟩ := h
          simpa using ih j hrest
    | bool b =>
      simp only [findCertification] at h
      split at h
      · cases h
      · cases h
      · next j found hrest =>
        simp only [Except.ok.injEq, Option.some.injEq, Prod.mk.injEq] at h
        obtain ⟨rfl, rfl⟩ := h
        simpa using ih j hrest
    | num q =>
      simp only [findCertification] at h
      split at h
      · cases h
      · cases h
      · next j found hrest =>
        simp only [Except.ok.injEq, Option.some.injEq, Prod.mk.injEq] at h
        obtain ⟨rfl, rfl⟩ := h
        simpa using ih j hrest
    | str s =>
      simp only [findCertification] at h
      split at h
      · cases h
      · cases h
      · next j found hrest =>
        simp only [Except.ok.injEq, Option.some.injEq, Prod.mk.injEq] at h
        obtain ⟨rfl, rfl⟩ := h
        simpa using ih j hrest
    | arr xs =>
      simp only [findCertification] at h
      split at h
      · cases h
      · cases h
      · next j found hrest =>
        simp only [Except.ok.injEq, Option.some.injEq, Prod.mk.injEq] at h
        obtain ⟨rfl, rfl⟩ := h
        simpa using ih j hrest

theorem createProduct_expiry (rt : JSRuntime) (now bound : ℤ) (id : String)
    (name manufacturer manufacturingDate batchNumber : Json) (w : WorldState) :
    ∀ kv ∈ (invoke (createProduct rt now id name manufacturer manufacturingDate batchNumber)
      w).1.writes, ExpiredOnlyPast rt bound kv.2 := by
  intro kv hkv
  simp only [invoke, createProduct, Stub.putState, List.nil_append, List.mem_singleton] at hkv
  subst hkv
  exact expiredOnlyPast_none rt bound _ (by simp [newProduct, getField])

theorem transferProduct_expiry (rt : JSRuntime) (now bound : ℤ) (productId : String)
    (newOwner location : Json) (w : WorldState)
    (hw : ∀ k o, w k = some o → ExpiredOnlyPast rt bound o) :
    ∀ kv ∈ (invoke (transferProduct rt now productId newOwner location) w).1.writes,
      ExpiredOnlyPast rt bound kv.2 := by
  simp only [invoke, transferProduct, Stub.getState]
  cases hp : w productId with
  | none => simp
  | some product =>
    simp only
    split
    · simp
    · intro kv hkv
      simp only [Stub.putState, List.nil_append, List.mem_singleton] at hkv
      subst hkv
      refine expiredOnlyPast_same rt bound _ product ?_ (hw productId product hp)
      rw [getField_setField_ne _ _ _ _ (by decide), getField_setField_ne _ _ _ _ (by decide)]

theorem addEthicalScore_expiry (rt : JSRuntime) (bound : ℤ) (productId : String)
    (scoreCategory score assessmentDate assessor : Json) (w : WorldState)
    (hw : ∀ k o, w k = some o → ExpiredOnlyPast rt bound o) :
    ∀ kv ∈ (invoke (addEthicalScore rt productId scoreCategory score assessmentDate assessor)
      w).1.writes, ExpiredOnlyPast rt bound kv.2 := by
  simp only [invoke, addEthicalScore, Stub.getState]
  cases hp : w productId with
  | none => simp
  | some product =>
    simp only
    split
    · split
      · simp
      · intro kv hkv
        simp only [Stub.putState, List.nil_append, List.mem_singleton] at hkv
        subst hkv
        refine expiredOnlyPast_same rt bound _ product ?_ (hw productId product hp)
        rw [getField_setField_ne _ _ _ _ (by decide), getField_setField_ne _ _ _ _ (by decide)]
        split
        · rfl
        · rw [getField_setField_ne _ _ _ _ (by decide)]
    · simp
    · simp

theorem applyVerificationRule_expiry (rt : JSRuntime) (now bound : ℤ) (productId ruleId : String)
    (w : WorldState) (hw : ∀ k o, w k = some o → ExpiredOnlyPast rt bound o) :
    ∀ kv ∈ (invoke (applyVerificationRule rt now productId ruleId) w).1.writes,
      ExpiredOnlyPast rt bound kv.2 := by
  simp only [invoke, applyVerificationRule, Stub.getState]
  cases hr : w ruleId with
  | none => simp
  | some rule =>
    cases hp : w productId with
    | none => simp
    | some product =>
      simp only
      split
      · simp
      · intro kv hkv
        simp only [Stub.putState, List.nil_append, List.mem_singleton] at hkv
        subst hkv
        refine expiredOnlyPast_same rt bound _ product ?_ (hw productId product hp)
        rw [getField_setField_ne _ _ _ _ (by decide), getField_setField_ne _ _ _ _ (by decide),
          getField_setField_ne _ _ _ _ (by decide)]

theorem processVerificationRequest_expiry (rt : JSRuntime) (now bound : ℤ)
    (verificationId : String) (verifierId decision comments : Json) (w : WorldState)
    (hw : ∀ k o, w k = some o → ExpiredOnlyPast rt bound o) :
    ∀ kv ∈ (invoke (processVerificationRequest rt now verificationId verifierId decision
      comments) w).1.writes, ExpiredOnlyPast rt bound kv.2 := by
  simp only [invoke, processVerificationRequest, Stub.getState]
  cases hv : w verificationId with
  | none => simp
  | some verification =>
    simp only
    split
    · simp
    · have h₁ : ExpiredOnlyPast rt bound
          (setField (setField verification "status" decision) "verificationHistory" ‹Json›) := by
        refine expiredOnlyPast_same rt bound _ verification ?_ (hw _ _ hv)
        rw [getField_setField_ne _ _ _ _ (by decide), getField_setField_ne _ _ _ _ (by decide)]
      split
      · simp only [Stub.putState, List.nil_append]
        split
        · intro kv hkv
          rw [List.mem_singleton] at hkv
          subst hkv
          exact h₁
        · next product hp =>
          intro kv hkv
          rcases List.mem_append.1 hkv with hmem | hmem
          · rw [List.mem_singleton] at hmem
            subst hmem
            exact h₁
          · rw [List.mem_singleton] at hmem
            subst hmem
            refine expiredOnlyPast_same rt bound _ product ?_ (hw _ _ hp)
            rw [getField_setField_ne _ _ _ _ (by decide),
              getField_setField_ne _ _ _ _ (by decide)]
      · intro kv hkv
        simp only [Stub.putState, List.nil_append, List.mem_singleton] at hkv
        subst hkv
        exact h₁

theorem addCertification_expiry (rt : JSRuntime) (bound : ℤ) (productId : String)
    (certificationBody certificationDate expirationDate certificationDetails : Json)
    (w : WorldState) (hw : ∀ k o, w k = some o → ExpiredOnlyPast rt bound o) :
    ∀ kv ∈ (invoke (addCertification productId certificationBody certificationDate
      expirationDate certificationDetails) w).1.writes, ExpiredOnlyPast rt bound kv.2 := by
  simp only [invoke, addCertification, Stub.getState]
  cases hp : w productId with
  | none => simp
  | some product =>
    simp only
    have hold := hw productId product hp
    cases ht : truthy (getField product "certifications") with
    | false =>
      simp only [Bool.false_eq_true, if_false, getField_setField_same, push, Stub.putState,
        List.nil_append, List.mem_singleton]
      intro kv hkv
      subst hkv
      intro certs c hc hmem hs
      rw [getField_setField_same] at hc
      simp only [Option.some.injEq, Json.arr.injEq] at hc
      subst hc
      simp only [List.mem_singleton, Json.obj.injEq] at hmem
      subst hmem
      simp [getField] at hs
    | true =>
      simp only [if_true]
      cases hc₀ : getField product "certifications" with
      | none => simp [push]
      | some v =>
        cases v with
        | arr xs =>
          simp only [push, Stub.putState, List.nil_append, List.mem_singleton]
          intro kv hkv
          subst hkv
          intro certs c hc hmem hs
          rw [getField_setField_same] at hc
          simp only [Option.some.injEq, Json.arr.injEq] at hc
          subst hc
          rcases List.mem_append.1 hmem with hin | hin
          · exact hold xs c hc₀ hin hs
          · simp only [List.mem_singleton, Json.obj.injEq] at hin
            subst hin
            simp [getField] at hs
        | _ => simp [push]

theorem verifyCertification_expiry (rt : JSRuntime) (now bound : ℤ) (hnow : now ≤ bound)
    (productId : String) (certificationBody : Json) (w : WorldState)
    (hw : ∀ k o, w k = some o → ExpiredOnlyPast rt bound o) :
    ∀ kv ∈ (invoke (verifyCertification rt now productId certificationBody) w).1.writes,
      ExpiredOnlyPast rt bound kv.2 := by
  simp only [invoke, verifyCertification, Stub.getState]
  cases hp : w productId with
  | none => simp
  | some product =>
    simp only
    have hold := hw productId product hp
    split
    · simp
    · split
      · next certifications hcerts =>
        split
        · simp
        · simp
        · next i certification hfind =>
          split
          · next hexp =>
            simp only [Stub.putState, List.nil_append, List.mem_singleton]
            intro kv hkv
            subst hkv
            intro certs c hc hmem hs
            rw [getField_setField_same] at hc
            simp only [Option.some.injEq, Json.arr.injEq] at hc
            subst hc
            rcases List.mem_or_eq_of_mem_set hmem with hin | heq
            · exact hold certifications c hcerts hin hs
            · simp only [Json.obj.injEq] at heq
              subst heq
              rw [getField_setField_ne _ _ _ _ (by decide)]
              obtain ⟨d, hd, hlt⟩ := (expired_iff rt now _).1 hexp
              exact ⟨d, hd, lt_of_lt_of_le hlt hnow⟩
          · simp
      · simp

theorem contractCall_expiry (rt : JSRuntime) (now bound : ℤ) (hnow : now ≤ bound)
    (call : ContractCall) (w : WorldState)
    (hw : ∀ k o, w k = some o → ExpiredOnlyPast rt bound o) :
    ∀ k o, commit (invoke (call.run rt now) w) k = some o → ExpiredOnlyPast rt bound o := by
  have hworld : (invoke (call.run rt now) w).1.world = w := by
    cases call with
    | createProduct id a b c d => rfl
    | transferProduct productId newOwner location =>
      exact (transferProduct_keeps rt now productId newOwner location w).1
    | addCertification productId b d e c => exact (addCertification_keeps productId b d e c w).1
    | addEthicalScore productId c sc d a =>
      exact (addEthicalScore_keeps rt productId c sc d a w).1
    | verifyCertification productId b => exact (verifyCertification_keeps rt now productId b w).1
    | processVerificationRequest v a d c =>
      exact (processVerificationRequest_keeps rt now v a d c w).1
    | applyVerificationRule productId ruleId =>
      exact (applyVerificationRule_keeps rt now productId ruleId w).1
  apply commit_all
  · cases call with
    | createProduct id a b c d => exact createProduct_expiry rt now bound id a b c d w
    | transferProduct productId newOwner location =>
      exact transferProduct_expiry rt now bound productId newOwner location w hw
    | addCertification productId b d e c =>
      exact addCertification_expiry rt bound productId b d e c w hw
    | addEthicalScore productId c sc d a =>
      exact addEthicalScore_expiry rt bound productId c sc d a w hw
    | verifyCertification productId b =>
      exact verifyCertification_expiry rt now bound hnow productId b w hw
    | processVerificationRequest v a d c =>
      exact processVerificationRequest_expiry rt now bound v a d c w hw
    | applyVerificationRule productId ruleId =>
      exact applyVerificationRule_expiry rt now bound productId ruleId w hw
  · rw [hworld]
    exact hw

theorem runCalls_expiry (rt : JSRuntime) (bound : ℤ) (calls : List (ℤ × ContractCall)) :
    ∀ w : WorldState, (∀ call ∈ calls, call.1 ≤ bound) →
      (∀ k o, w k = some o → ExpiredOnlyPast rt bound o) →
      ∀ k o, runCalls rt w calls k = some o → ExpiredOnlyPast rt bound o := by
  induction calls with
  | nil =>
    intro w _ hw
    exact hw
  | cons c rest ih =>
    obtain ⟨now, call⟩ := c
    intro w hclock hw
    exact ih _ (fun c hc => hclock c (List.mem_cons_of_mem _ hc))
      (contractCall_expiry rt now bound (hclock (now, call) (List.mem_cons_self _ _)) call w hw)

/-- C22: in the world state reached from the empty state by any sequence of
calls of the contract functions (createProduct, transferProduct,
addCertification, addEthicalScore, verifyCertification, and also
processVerificationRequest and applyVerificationRule), at a time `now` that is
not earlier than the clock reading of any of the calls, every certification of
every stored product that has status 'Expired' has an expirationDate that is a
valid date strictly earlier than `now`. -/
theorem expired_only_after_expiration (rt : JSRuntime) (calls : List (ℤ × ContractCall))
    (now : ℤ) (hclock : ∀ call ∈ calls, call.1 ≤ now)
    (key : String) (product : JObject) (certs : List Json) (c : JObject)
    (hk : runCalls rt (fun _ => none) calls key = some product)
    (hc : getField product "certifications" = some (.arr certs))
    (hmem : Json.obj c ∈ certs)
    (hs : getField c "status" = some (.str "Expired")) :
    ∃ d, newDate rt (getField c "expirationDate") = some d ∧ d < now :=
  runCalls_expiry rt now calls (fun _ => none) hclock (fun k o h => by cases h) key product hk
    certs c hc hmem hs

theorem runCalls_certificationCalls :
    runCalls sampleRuntime (fun _ => none) certificationCalls "P1" =
      some (certifiedProduct [.obj (setField expiredSecond "status" (.str "Expired"))]) := by
  rfl

/-- The certification verified at `sampleNow + 2000` is stored as 'Expired', and
its expirationDate lies before every later time. -/
theorem expired_only_after_expiration_witness :
    ((∀ call ∈ certificationCalls, call.1 ≤ sampleNow + 3000) ∧
      runCalls sampleRuntime (fun _ => none) certificationCalls "P1" =
        some (certifiedProduct [.obj (setField expiredSecond "status" (.str "Expired"))]) ∧
      getField (setField expiredSecond "status" (.str "Expired")) "status"
        = some (.str "Expired")) ∧
    ∃ d, newDate sampleRuntime
        (getField (setField expiredSecond "status" (.str "Expired")) "expirationDate") = some d ∧
      d < sampleNow + 3000 :=
  have hclock : ∀ call ∈ certificationCalls, call.1 ≤ sampleNow + 3000 := by
    intro call hcall
    simp only [certificationCalls, List.mem_cons, List.mem_singleton, List.not_mem_nil,
      or_false] at hcall
    rcases hcall with rfl | rfl | rfl <;> simp [sampleNow]
  ⟨⟨hclock, runCalls_certificationCalls, rfl⟩,
   expired_only_after_expiration sampleRuntime certificationCalls (sampleNow + 3000) hclock "P1"
     (certifiedProduct [.obj (setField expiredSecond "status" (.str "Expired"))])
     [.obj (setField expiredSecond "status" (.str "Expired"))]
     (setField expiredSecond "status" (.str "Expired")) runCalls_certificationCalls rfl
     (List.mem_singleton.2 rfl) rfl⟩

/-! ### Verification requests: the history matches the status -/

theorem historyMatches_congr (r r' : JObject) (n : ℕ)
    (hh : getField r' "verificationHistory" = getField r "verificationHistory")
    (hs : getField r' "status" = getField r "status") (h : HistoryMatches r n) :
    HistoryMatches r' n := by
  obtain ⟨first, rest, last, h₁, h₂, h₃, h₄, h₅⟩ := h
  exact ⟨first, rest, last, by rw [hh, h₁], h₂, h₃, by rw [hs, h₄], h₅⟩

theorem historyMatches_new (rt : JSRuntime) (now : ℤ) (verificationId : String)
    (productId requesterId requestType additionalInfo : Json) :
    HistoryMatches (newVerificationRequest rt now verificationId productId requesterId
      requestType additionalInfo) 0 :=
  ⟨_, [], _, rfl, rfl, rfl, rfl, rfl⟩

theorem historyMatches_processed (verification : JObject) (history : List Json) (n : ℕ)
    (decision timestamp verifierId comments : Json)
    (hh : getField verification "verificationHistory" = some (.arr history))
    (h : HistoryMatches verification n) :
    HistoryMatches (setField (setField verification "status" decision) "verificationHistory"
      (.arr (history ++ [auditEntry decision timestamp verifierId comments]))) (n + 1) := by
  obtain ⟨first, rest, last, h₁, h₂, _, _, h₅⟩ := h
  rw [hh] at h₁
  simp only [Option.some.injEq, Json.arr.injEq] at h₁
  subst h₁
  refine ⟨first, rest ++ [auditEntry decision timestamp verifierId comments],
    auditEntry decision timestamp verifierId comments, ?_, h₂, ?_, ?_, ?_⟩
  · rw [getField_setField_same, List.cons_append]
  · rw [← List.cons_append, List.getLast?_append, List.getLast?_singleton]
    rfl
  · rw [getField_setField_ne _ _ _ _ (by decide), getField_setField_same]
    rfl
  · rw [← List.cons_append, List.length_append, h₅]
    simp only [List.length_singleton]
    omega

theorem Audit.sound_create (rt : JSRuntime) (a : Audit) (now : ℤ) (verificationId : String)
    (productId requesterId requestType additionalInfo : Json) (ha : a.Sound)
    (hfresh : (RequestCall.create verificationId productId requesterId requestType
      additionalInfo).fresh a.world = true) :
    (a.step rt now (.create verificationId productId requesterId requestType
      additionalInfo)).Sound := by
  obtain ⟨h₁, h₂⟩ := ha
  simp only [RequestCall.fresh, Bool.and_eq_true, Option.isNone_iff_eq_none] at hfresh
  obtain ⟨hnone, hpid⟩ := hfresh
  have hworld : ∀ k, (a.step rt now (.create verificationId productId requesterId requestType
      additionalInfo)).world k =
      if k = verificationId then some (newVerificationRequest rt now verificationId productId
        requesterId requestType additionalInfo) else a.world k := by
    intro k
    simp only [Audit.step, invoke, createVerificationRequest, Stub.putState, List.nil_append,
      commit, applyWrites_single]
  refine ⟨fun k hk => ?_, fun v hv => ?_⟩
  · rw [hworld] at hk
    by_cases h : k = verificationId
    · simp [h] at hk
    · rw [if_neg h] at hk
      exact h₁ k hk
  · rw [hworld]
    by_cases h : v = verificationId
    · subst h
      rw [if_pos rfl]
      refine ⟨_, rfl, ?_, ?_⟩
      · have h0 : (a.step rt now (.create v productId requesterId requestType
            additionalInfo)).processed v = 0 := h₁ v hnone
        rw [h0]
        exact historyMatches_new rt now v productId requesterId requestType additionalInfo
      · intro hp
        have hp' : productId = .str v := by
          simpa [newVerificationRequest, getField] using hp
        subst hp'
        simp at hpid
    · rw [if_neg h]
      have hv' : v ∈ a.created := by
        simp only [Audit.step, List.mem_cons] at hv
        rcases hv with hv | hv
        · exact absurd hv h
        · exact hv
      exact h₂ v hv'

theorem Audit.sound_process (rt : JSRuntime) (a : Audit) (now : ℤ) (verificationId : String)
    (verifierId decision comments : Json) (ha : a.Sound) :
    (a.step rt now (.process verificationId verifierId decision comments)).Sound := by
  obtain ⟨h₁, h₂⟩ := ha
  cases hres : (invoke (processVerificationRequest rt now verificationId verifierId decision
      comments) a.world).2 with
  | error e =>
    have hstep : a.step rt now (.process verificationId verifierId decision comments) = a := by
      simp only [Audit.step, hres]
    rw [hstep]
    exact ⟨h₁, h₂⟩
  | ok r =>
    obtain ⟨verification, history, productId, product, hv, hh, hid, hp⟩ :=
      processVerificationRequest_ok_inv rt now verificationId verifierId decision comments
        a.world r hres
    have heq := processVerificationRequest_eq rt now verificationId verifierId decision comments
      a.world verification history productId product hv hh hid hp
    have hworld : ∀ k, (a.step rt now (.process verificationId verifierId decision
        comments)).world k =
        if k = productId then
          some (setField (setField product "verificationStatus" decision)
            "lastVerificationDate" (.str (rt.toISOString now)))
        else if k = verificationId then
          some (setField (setField verification "status" decision) "verificationHistory"
            (.arr (history ++ [auditEntry decision (.str (rt.toISOString now)) verifierId
              comments])))
        else a.world k := by
      intro k
      simp only [Audit.step, hres]
      rw [heq]
      simp only [commit, applyWrites_pair]
    have hprocessed : ∀ k, (a.step rt now (.process verificationId verifierId decision
        comments)).processed k =
        if k = verificationId then a.processed k + 1 else a.processed k := by
      intro k
      simp only [Audit.step, hres]
    have hcreated : (a.step rt now (.process verificationId verifierId decision
        comments)).created = a.created := by
      simp only [Audit.step, hres]
    refine ⟨fun k hk => ?_, fun v hvc => ?_⟩
    · rw [hworld] at hk
      by_cases hkp : k = productId
      · simp [hkp] at hk
      · rw [if_neg hkp] at hk
        by_cases hkv : k = verificationId
        · simp [hkv] at hk
        · rw [if_neg hkv] at hk
          rw [hprocessed, if_neg hkv]
          exact h₁ k hk
    · rw [hcreated] at hvc
      obtain ⟨request, hreq, hmatch, hself⟩ := h₂ v hvc
      rw [hworld, hprocessed]
      by_cases hvv : v = verificationId
      · subst hvv
        rw [hv] at hreq
        simp only [Option.some.injEq] at hreq
        subst hreq
        have hne : v ≠ productId := by
          intro h
          apply hself
          rw [hid, h]
        rw [if_neg hne, if_pos rfl, if_pos rfl]
        refine ⟨_, rfl, historyMatches_processed verification history _ decision _ verifierId
          comments hh hmatch, ?_⟩
        rw [getField_setField_ne _ _ _ _ (by decide), getField_setField_ne _ _ _ _ (by decide)]
        exact hself
      · simp only [if_neg hvv]
        by_cases hvp : v = productId
        · subst hvp
          rw [hp] at hreq
          simp only [Option.some.injEq] at hreq
          subst hreq
          rw [if_pos rfl]
          refine ⟨_, rfl, historyMatches_congr product _ _ ?_ ?_ hmatch, ?_⟩
          · rw [getField_setField_ne _ _ _ _ (by decide),
              getField_setField_ne _ _ _ _ (by decide)]
          · rw [getField_setField_ne _ _ _ _ (by decide),
              getField_setField_ne _ _ _ _ (by decide)]
          · rw [getField_setField_ne _ _ _ _ (by decide),
              getField_setField_ne _ _ _ _ (by decide)]
            exact hself
        · rw [if_neg hvp]
          exact ⟨request, hreq, hmatch, hself⟩

theorem Audit.sound_run (rt : JSRuntime) (calls : List (ℤ × RequestCall)) :
    ∀ a : Audit, a.Sound → Audit.freshRun rt a calls = true → (Audit.run rt a calls).Sound := by
  induction calls with
  | nil =>
    intro a ha _
    exact ha
  | cons c rest ih =>
    obtain ⟨now, call⟩ := c
    intro a ha hfresh
    simp only [Audit.freshRun, Bool.and_eq_true] at hfresh
    apply ih _ _ hfresh.2
    cases call with
    | create verificationId productId requesterId requestType additionalInfo =>
      exact Audit.sound_create rt a now verificationId productId requesterId requestType
        additionalInfo ha hfresh.1
    | process verificationId verifierId decision comments =>
      exact Audit.sound_process rt a now verificationId verifierId decision comments ha

/-- C28: start from any world state and make any sequence of
`createVerificationRequest` and `processVerificationRequest` calls in which the
random id of every created request is new (it names no key yet and is not the
productId passed).  Then every request created is stored, its
verificationHistory is not empty, the first entry has status 'Pending', the
status of the last entry is the current status of the request, and the number
of entries is 1 plus the number of `processVerificationRequest` calls on that
request that returned. -/
theorem verificationHistory_matches_status (rt : JSRuntime) (w₀ : WorldState)
    (calls : List (ℤ × RequestCall))
    (hfresh : Audit.freshRun rt ⟨w₀, [], fun _ => 0⟩ calls = true)
    (v : String) (hv : v ∈ (Audit.run rt ⟨w₀, [], fun _ => 0⟩ calls).created) :
    ∃ request, (Audit.run rt ⟨w₀, [], fun _ => 0⟩ calls).world v = some request ∧
      HistoryMatches request ((Audit.run rt ⟨w₀, [], fun _ => 0⟩ calls).processed v) := by
  have hsound : (Audit.run rt ⟨w₀, [], fun _ => 0⟩ calls).Sound :=
    Audit.sound_run rt calls ⟨w₀, [], fun _ => 0⟩
      ⟨fun _ _ => rfl, fun v hv => absurd hv (List.not_mem_nil v)⟩ hfresh
  obtain ⟨request, hreq, hmatch, _⟩ := hsound.2 v hv
  exact ⟨request, hreq, hmatch⟩

/-- The request "V1", created and then processed twice, has three history
entries; the call on the unknown request "V9" counts for nothing. -/
theorem verificationHistory_matches_status_witness :
    (Audit.freshRun sampleRuntime ⟨worldWith sampleProduct, [], fun _ => 0⟩ requestCalls = true ∧
      "V1" ∈ (Audit.run sampleRuntime ⟨worldWith sampleProduct, [], fun _ => 0⟩
        requestCalls).created ∧
      (Audit.run sampleRuntime ⟨worldWith sampleProduct, [], fun _ => 0⟩
        requestCalls).processed "V1" = 2 ∧
      fieldAt (Audit.run sampleRuntime ⟨worldWith sampleProduct, [], fun _ => 0⟩
        requestCalls).world "V1" "status" = some (.str "Rejected")) ∧
    ∃ request, (Audit.run sampleRuntime ⟨worldWith sampleProduct, [], fun _ => 0⟩
        requestCalls).world "V1" = some request ∧
      HistoryMatches request ((Audit.run sampleRuntime ⟨worldWith sampleProduct, [], fun _ => 0⟩
        requestCalls).processed "V1") :=
  have hmem : "V1" ∈ (Audit.run sampleRuntime ⟨worldWith sampleProduct, [], fun _ => 0⟩
      requestCalls).created := List.mem_singleton.2 rfl
  ⟨⟨rfl, hmem, rfl, rfl⟩,
   verificationHistory_matches_status sampleRuntime (worldWith sampleProduct) requestCalls rfl
     "V1" hmem⟩

/-! ### Updates carry no version -/

namespace Coordinator

theorem ProductService.updateProduct_accepted (env : Env) (id : String)
    (updateData updatedBy : Option Json) (b : Backend) (stored : JObject)
    (hstored : b.db id = some stored)
    (hsave : ∀ log doc, env.saveError log doc = none)
    (hconn : ∀ log, env.connects log = true)
    (hend : ∀ log fn args, env.endorses log fn args = true) :
    (ProductService.updateProduct env (some (.str id)) updateData updatedBy b).2
      = .ok (updated stored updateData) ∧
    (ProductService.updateProduct env (some (.str id)) updateData updatedBy b).1.db id
      = some (updated stored updateData) := by
  simp only [ProductService.updateProduct, Run.catchAs, Run.bind_apply, ProductService.findById,
    hstored, Option.map_some', ProductService.save, hsave, BlockchainService.recordProductUpdate,
    BlockchainService.connectToNetwork, hconn, if_true, BlockchainService.submitTransaction,
    hend, Run.pure_apply, Backend.record, updated]
  exact ⟨rfl, if_pos rfl⟩

end Coordinator

namespace Coordinator

/-- C21, as the code has it: `updateProduct` takes no expected version and
compares none.  For every stored product, two updates applied one after the
other, whatever they carry, both succeed when the store and the permissioned
ledger accept the calls: each resolves to and stores the document it found with
the fields of its update set, so the second is applied on top of the first. -/
theorem updateProduct_ignores_version (env : Env) (id : String)
    (first second updatedBy : Option Json) (b : Backend) (stored : JObject)
    (hstored : b.db id = some stored)
    (hsave : ∀ log doc, env.saveError log doc = none)
    (hconn : ∀ log, env.connects log = true)
    (hend : ∀ log fn args, env.endorses log fn args = true) :
    (ProductService.updateProduct env (some (.str id)) first updatedBy b).2
      = .ok (updated stored first) ∧
    (ProductService.updateProduct env (some (.str id)) second updatedBy
      (ProductService.updateProduct env (some (.str id)) first updatedBy b).1).2
      = .ok (updated (updated stored first) second) ∧
    (ProductService.updateProduct env (some (.str id)) second updatedBy
      (ProductService.updateProduct env (some (.str id)) first updatedBy b).1).1.db id
      = some (updated (updated stored first) second) := by
  obtain ⟨h₁, h₂⟩ := ProductService.updateProduct_accepted env id first updatedBy b stored
    hstored hsave hconn hend
  obtain ⟨h₃, h₄⟩ := ProductService.updateProduct_accepted env id second updatedBy
    (ProductService.updateProduct env (some (.str id)) first updatedBy b).1
    (updated stored first) h₂ hsave hconn hend
  exact ⟨h₁, h₃, h₄⟩

/-- Two renamings of the stored product "P1", both carrying the expected
version 1, both succeed and the name stored at the end is the second one. -/
theorem updateProduct_ignores_version_witness :
    (stockedBackend.db "P1" = some storedDoc ∧
      (∀ log doc, acceptingLedgers.saveError log doc = none) ∧
      (∀ log, acceptingLedgers.connects log = true) ∧
      (∀ log fn args, acceptingLedgers.endorses log fn args = true)) ∧
    ((ProductService.updateProduct acceptingLedgers (some (.str "P1")) (renameTo "A")
        (some (.str "U1")) stockedBackend).2 = .ok (updated storedDoc (renameTo "A")) ∧
    (ProductService.updateProduct acceptingLedgers (some (.str "P1")) (renameTo "B")
      (some (.str "U1"))
      (ProductService.updateProduct acceptingLedgers (some (.str "P1")) (renameTo "A")
        (some (.str "U1")) stockedBackend).1).2
      = .ok (updated (updated storedDoc (renameTo "A")) (renameTo "B")) ∧
    (ProductService.updateProduct acceptingLedgers (some (.str "P1")) (renameTo "B")
      (some (.str "U1"))
      (ProductService.updateProduct acceptingLedgers (some (.str "P1")) (renameTo "A")
        (some (.str "U1")) stockedBackend).1).1.db "P1"
      = some (updated (updated storedDoc (renameTo "A")) (renameTo "B"))) :=
  ⟨⟨rfl, fun _ _ => rfl, fun _ => rfl, fun _ _ _ => rfl⟩,
   updateProduct_ignores_version acceptingLedgers "P1" (renameTo "A") (renameTo "B")
     (some (.str "U1")) stockedBackend storedDoc rfl (fun _ _ => rfl) (fun _ => rfl)
     (fun _ _ _ => rfl)⟩

/-- C21 fails on the code: the stored product "P1" has no version, and of two
updates that both carry the expected version 1 the second does not fail with a
conflict; it succeeds and overwrites the name the first one stored. -/
theorem updateProduct_stale_version_overwrites :
    getField storedDoc "version" = none ∧
    (∃ product, (ProductService.updateProduct acceptingLedgers (some (.str "P1"))
        (renameTo "A") (some (.str "U1")) stockedBackend).2 = .ok product ∧
      getField product "name" = some (.str "A")) ∧
    (∃ product, (ProductService.updateProduct acceptingLedgers (some (.str "P1"))
        (renameTo "B") (some (.str "U1"))
        (ProductService.updateProduct acceptingLedgers (some (.str "P1")) (renameTo "A")
          (some (.str "U1")) stockedBackend).1).2 = .ok product ∧
      getField product "name" = some (.str "B") ∧ getField product "version" = none) ∧
    fieldAt (ProductService.updateProduct acceptingLedgers (some (.str "P1"))
        (renameTo "B") (some (.str "U1"))
        (ProductService.updateProduct acceptingLedgers (some (.str "P1")) (renameTo "A")
          (some (.str "U1")) stockedBackend).1).1.db "P1" "name" = some (.str "B") :=
  ⟨rfl, ⟨_, rfl, rfl⟩, ⟨_, rfl, rfl, rfl⟩, rfl⟩

end Coordinator

/-! ### Scores submitted as strings -/

theorem sumScores_strings :
    sumScores decimalRuntime (.num (.fin 0))
      [ethicalScoreEntry (.str "labour") (.str "80") (.str "2024-02-01") (.str "U1"),
       ethicalScoreEntry (.str "environment") (.str "90") (.str "2024-02-02") (.str "U1")]
      = .ok (.str "08090") := rfl

/-- C23 fails on the code: the scores 80 and 90, submitted as the strings "80"
and "90", are added by `sum + score.score` starting from the number 0, which
concatenates them to the string "08090"; divided by the length 2 this gives the
overallEthicalScore 4045, not the mean 85.  After the first score alone the
value is 80. -/
theorem addEthicalScore_string_scores_concatenate :
    fieldAt (runCalls decimalRuntime (worldWith sampleProduct) stringScoreCalls) "P1"
      "ethicalScores" = some (.arr
        [ethicalScoreEntry (.str "labour") (.str "80") (.str "2024-02-01") (.str "U1"),
         ethicalScoreEntry (.str "environment") (.str "90") (.str "2024-02-02") (.str "U1")]) ∧
    fieldAt (runCalls decimalRuntime (worldWith sampleProduct) stringScoreCalls) "P1"
      "overallEthicalScore" = some (.num 4045) ∧
    (4045 : ℚ) ≠ (80 + 90) / 2 ∧
    fieldAt (runCalls decimalRuntime (worldWith sampleProduct) (stringScoreCalls.take 1)) "P1"
      "overallEthicalScore" = some (.num 80) := by
  refine ⟨rfl, ?_, by norm_num, ?_⟩
  · with_unfolding_all rfl
  · with_unfolding_all rfl

/-! ### The transfer handler and the ledger counts -/

namespace Coordinator

/-- C24 fails on the code: for the stored product "P1", with a store and
ledgers that accept every call, the handler `transferProduct` writes the
transfer to the store and submits it to the permissioned ledger (twice), then
reads `transferResult.product.ethProductId`; the service resolved to the product
document, which has no field `product`, so a `TypeError` is thrown and passed to
`next`.  The public ledger is not called and no success is sent. -/
theorem transferProduct_never_reaches_public_ledger :
    getField listedDoc "ethProductId" = some (.str "7") ∧
    (effectsSince listedBackend
        (DomainOp.transfer.handle sampleRuntime acceptingLedgers transferRequest
          listedBackend).1).map Effect.succeeded = [true, true, true, true, true] ∧
    (effectsSince listedBackend
        (DomainOp.transfer.handle sampleRuntime acceptingLedgers transferRequest
          listedBackend).1).map Effect.isCommit = [false, false, true, false, true] ∧
    (effectsSince listedBackend
        (DomainOp.transfer.handle sampleRuntime acceptingLedgers transferRequest
          listedBackend).1).any Effect.isPublic = false ∧
    fieldAt (DomainOp.transfer.handle sampleRuntime acceptingLedgers transferRequest
        listedBackend).1.db "P1" "currentOwner" = some (.str "U2") ∧
    (DomainOp.transfer.handle sampleRuntime acceptingLedgers transferRequest listedBackend).2
      = .next "TypeError: Cannot read properties of undefined" :=
  ⟨rfl, rfl, rfl, rfl, rfl, rfl⟩

end Coordinator

namespace Coordinator

/-- C25 fails on the code: one `addEthicalScore` request, answered with 201,
submits the transaction `addEthicalScore` to the permissioned ledger twice with
the same arguments, once from `productService.addEthicalScore` and once from the
handler; the two transactions leave two entries in the ethicalScores of the
ledger product. -/
theorem addEthicalScore_request_submits_twice :
    (DomainOp.addEthicalScore.handle sampleRuntime acceptingLedgers scoreRequest
        listedBackend).2
      = .json 201 (.obj [("success", .bool true), ("data", .obj
          [("scoreCategory", .str "labour"), ("score", .num 80),
           ("assessmentDate", .str "2024-02-01"), ("assessor", .str "U1")])]) ∧
    (effectsSince listedBackend
        (DomainOp.addEthicalScore.handle sampleRuntime acceptingLedgers scoreRequest
          listedBackend).1).filter Effect.isCommit
      = [.submit "addEthicalScore" scoreArgs true, .submit "addEthicalScore" scoreArgs true] ∧
    fieldAt (runCalls decimalRuntime (worldWith sampleProduct)
        [(sampleNow, scoreSubmission), (sampleNow, scoreSubmission)]) "P1" "ethicalScores"
      = some (.arr
          [ethicalScoreEntry (.str "labour") (.str "80") (.str "2024-02-01") (.str "U1"),
           ethicalScoreEntry (.str "labour") (.str "80") (.str "2024-02-01") (.str "U1")]) :=
  ⟨rfl, rfl, rfl⟩

end Coordinator

/-! ### Verification contract: the write before the product check -/

theorem processVerificationRequest_missing_request (rt : JSRuntime) (now : ℤ)
    (verificationId : String) (verifierId decision comments : Json) (w : WorldState)
    (hv : w verificationId = none) :
    invoke (processVerificationRequest rt now verificationId verifierId decision comments) w =
      (⟨w, []⟩, .error (verificationId ++ " does not exist")) := by
  simp only [invoke, processVerificationRequest, Stub.getState, hv]

theorem processVerificationRequest_missing_product (rt : JSRuntime) (now : ℤ)
    (verificationId : String) (verifierId decision comments : Json) (w : WorldState)
    (verification : JObject) (history : List Json) (productId : String)
    (hv : w verificationId = some verification)
    (hh : getField verification "verificationHistory" = some (.arr history))
    (hid : getField verification "productId" = some (.str productId))
    (hp : w productId = none) :
    invoke (processVerificationRequest rt now verificationId verifierId decision comments) w =
      (⟨w, [(verificationId,
          setField (setField verification "status" decision) "verificationHistory"
            (.arr (history ++ [auditEntry decision (.str (rt.toISOString now)) verifierId
              comments])))]⟩,
        .error (productId ++ " does not exist")) := by
  have h₁ : getField (setField verification "status" decision) "verificationHistory"
      = some (.arr history) := by
    rw [getField_setField_ne _ _ _ _ (by decide), hh]
  have h₂ : getField (setField (setField verification "status" decision) "verificationHistory"
      (.arr (history ++ [auditEntry decision (.str (rt.toISOString now)) verifierId comments])))
      "productId" = some (.str productId) := by
    rw [getField_setField_ne _ _ _ _ (by decide), getField_setField_ne _ _ _ _ (by decide), hid]
  simp only [invoke, processVerificationRequest, Stub.getState, hv, h₁, push, auditEntry] at h₂ ⊢
  simp only [h₂, Stub.putState, hp, List.nil_append]

/-- C29 fails on the code when the product is missing: the request "V1" is
stored and its productId "P1" names no key.  `processVerificationRequest` calls
`putState` for "V1" with the new status and the appended history entry, and only
then finds that "P1" does not exist and throws: one write has been issued.  The
stored request is unchanged only because the write set of a transaction that
throws is not applied. -/
theorem processVerificationRequest_writes_before_check :
    worldOf [("V1", pendingRequest)] "P1" = none ∧
    (invoke (recheck (.str "Verified")) (worldOf [("V1", pendingRequest)])).2
      = .error "P1 does not exist" ∧
    (invoke (recheck (.str "Verified")) (worldOf [("V1", pendingRequest)])).1.writes
      = [("V1", setField (setField pendingRequest "status" (.str "Verified"))
          "verificationHistory"
          (.arr [.obj [("status", .str "Pending"), ("timestamp",
              .str (sampleRuntime.toISOString sampleNow)), ("updatedBy", .str "U7")],
            auditEntry (.str "Verified") (.str (sampleRuntime.toISOString (sampleNow + 2000)))
              (.str "U9") (.str "re-check")]))] ∧
    (invoke (recheck (.str "Verified")) (worldOf [("V1", pendingRequest)])).1.writes ≠ [] ∧
    commit (invoke (recheck (.str "Verified")) (worldOf [("V1", pendingRequest)])) "V1"
      = some pendingRequest := by
  have h := processVerificationRequest_missing_product sampleRuntime (sampleNow + 2000) "V1"
    (.str "U9") (.str "Verified") (.str "re-check") (worldOf [("V1", pendingRequest)])
    pendingRequest
    [.obj [("status", .str "Pending"), ("timestamp", .str (sampleRuntime.toISOString sampleNow)),
      ("updatedBy", .str "U7")]] "P1" rfl rfl rfl rfl
  have h' : invoke (recheck (.str "Verified")) (worldOf [("V1", pendingRequest)]) = _ := h
  rw [h']
  refine ⟨rfl, rfl, rfl, by simp, rfl⟩

end SupplyChain
